import Mathlib

/-!
swechainagent: a shallow embedding of the cognition core

The development follows the Go sources:

* `core/tools.go`      : `ConvertToOllamaTools`, `convertProperties`, `getString`
* `core/cognition.go`  : `ExtractTextContent`, `Agent.Initialize`, `Agent.Run`
* `hacks/agent3.go`    : `loadInteractionHistory`, `saveInteraction`, `callDspy`,
                         `thinkAboutAction`, `runAgent` and the loop of `main`

The libraries the sources call are embedded as far as the sources use them:
`strings`, `strconv` and `fmt` on partition names, and `encoding/json` on the
lines of the trajectory store (`jsonMarshalStrings`, `jsonParse`).

Go values of static type `interface{}` that come out of the JSON decoder are
represented by `GoValue`. A Go `map[string]T` is an association list that is
read with `GoMap.get` (first binding of the key) and written with `GoMap.set`
(overwrite in place, else append); a well-formed map binds every key once
(`GoMap.WF`). A Go slice that can be `nil` is an `Option (List _)`.
-/

set_option autoImplicit false

namespace SweChain

/-! ## Dynamic values and maps -/

/-- A Go value of static type `interface{}` as the JSON decoder builds it:
`nil`, `bool`, `float64`, `string`, `[]interface{}` or `map[string]interface{}`.
The payload of `number` is never inspected by the embedded code. -/
inductive GoValue where
  | null
  | bool (b : Bool)
  | number (n : Int)
  | string (s : String)
  | slice (xs : List GoValue)
  | map (m : List (String × GoValue))
  deriving Inhabited

/-- A Go `map[string]β`. -/
abbrev GoMap (β : Type) := List (String × β)

namespace GoMap

variable {β : Type}

/-- Map read, the comma-ok form `v, ok := m[k]`. -/
def get : GoMap β → String → Option β
  | [], _ => none
  | (k', v) :: rest, k => if k' = k then some v else get rest k

/-- Map write, `m[k] = v`. -/
def set : GoMap β → String → β → GoMap β
  | [], k, v => [(k, v)]
  | (k', v') :: rest, k, v => if k' = k then (k, v) :: rest else (k', v') :: set rest k v

/-- The keys of the map, in iteration order. -/
def keys (m : GoMap β) : List String := m.map Prod.fst

/-- Every key is bound once, as in a Go map. -/
def WF (m : GoMap β) : Prop := (keys m).Nodup

instance (m : GoMap β) : Decidable (WF m) := by
  unfold WF; infer_instance

end GoMap

/-! ## `core/tools.go` -/

/-- The input schema of an MCP tool (`mcp.ToolInputSchema`). -/
structure ToolInputSchema where
  Typ : String
  Properties : GoMap GoValue
  Required : Option (List String)

/-- An MCP tool descriptor (`mcp.Tool`). -/
structure McpTool where
  Name : String
  Description : String
  InputSchema : ToolInputSchema

/-- The anonymous struct of one translated parameter; `Enum` is a slice that is
`nil` (`none`) until the first `append`, and is dropped from the JSON form when
empty (`omitempty`). -/
structure OllamaProperty where
  Typ : String
  Description : String
  Enum : Option (List String)
  deriving DecidableEq, Repr

/-- The anonymous `Parameters` struct of `api.ToolFunction`. -/
structure OllamaParameters where
  Typ : String
  Required : Option (List String)
  Properties : GoMap OllamaProperty
  deriving DecidableEq, Repr

/-- The struct `api.ToolFunction`. -/
structure ToolFunction where
  Name : String
  Description : String
  Parameters : OllamaParameters
  deriving DecidableEq, Repr

/-- The struct `api.Tool`. -/
structure OllamaTool where
  Typ : String
  Function : ToolFunction
  deriving DecidableEq, Repr

/-- Source `getString`: the string under `key`, else the empty string. -/
def getString (m : GoMap GoValue) (key : String) : String :=
  match m.get key with
  | some (.string v) => v
  | _ => ""

/-- Go `append(s, str)` on a slice of strings that may be `nil`. -/
def appendStr (s : Option (List String)) (str : String) : Option (List String) :=
  some (s.getD [] ++ [str])

/-- The loop `for _, e := range enumRaw` of `convertProperties`: every element
that is a string is appended, every other element is passed over. -/
def collectEnum (enum : Option (List String)) : List GoValue → Option (List String)
  | [] => enum
  | .string str :: rest => collectEnum (appendStr enum str) rest
  | _ :: rest => collectEnum enum rest

/-- The body of the loop of `convertProperties` for one object-valued entry:
the struct literal, then the `enum` handling. -/
def convertProperty (propMap : GoMap GoValue) : OllamaProperty :=
  let prop : OllamaProperty :=
    { Typ := getString propMap "type"
      Description := getString propMap "description"
      Enum := none }
  match propMap.get "enum" with
  | some (.slice enumRaw) => { prop with Enum := collectEnum prop.Enum enumRaw }
  | _ => prop

/-- One iteration of `for name, prop := range props`. -/
def convertStep (result : GoMap OllamaProperty) (entry : String × GoValue) :
    GoMap OllamaProperty :=
  match entry.2 with
  | .map propMap => result.set entry.1 (convertProperty propMap)
  | _ => result

/-- Source `convertProperties`. -/
def convertProperties (props : GoMap GoValue) : GoMap OllamaProperty :=
  props.foldl convertStep []

/-- Source `ConvertToOllamaTools`. -/
def ConvertToOllamaTools (tools : List McpTool) : List OllamaTool :=
  tools.map fun tool =>
    { Typ := "function"
      Function :=
        { Name := tool.Name
          Description := tool.Description
          Parameters :=
            { Typ := tool.InputSchema.Typ
              Required := tool.InputSchema.Required
              Properties := convertProperties tool.InputSchema.Properties } } }

/-- The value a translated entry has under `name`: the translation of the
object bound to `name`, or nothing when `name` is unbound or bound to a value
that is not an object. -/
def translatedEntry (props : GoMap GoValue) (name : String) : Option OllamaProperty :=
  match props.get name with
  | some (.map propMap) => some (convertProperty propMap)
  | _ => none

/-- The string elements of a decoded JSON list, in order. -/
def stringsOf : List GoValue → List String
  | [] => []
  | .string str :: rest => str :: stringsOf rest
  | _ :: rest => stringsOf rest

/-- The elements of a Go slice of strings; the `nil` slice has none. -/
def sliceElems (s : Option (List String)) : List String := s.getD []

/-- The translated parameter schema of the `i`-th tool, if there is one. -/
def translatedProperties (tools : List McpTool) (i : Nat) : Option (GoMap OllamaProperty) :=
  ((ConvertToOllamaTools tools)[i]?).map fun t => t.Function.Parameters.Properties

/-! ## `core/cognition.go` -/

/-- A Go value passed as `interface{}` to `json.Marshal`: either it has a JSON
form, written as the `GoValue` that decoding that form gives back, or
`json.Marshal` rejects it with an error. -/
inductive Content where
  | json (v : GoValue)
  | unsupported (err : String)
  deriving Inhabited

/-- Library `json.Marshal`, on a `Content`. -/
def jsonMarshal : Content → Except String GoValue
  | .json v => .ok v
  | .unsupported err => .error err

/-- Library `json.Unmarshal(bytes, &data)` with `data` a nil
`map[string]interface{}`: an object fills the map, `null` leaves it nil (a nil
map reads as the empty map), any other JSON value is a type error. -/
def jsonUnmarshalMap : GoValue → Except String (GoMap GoValue)
  | .map m => .ok m
  | .null => .ok []
  | .bool _ =>
    .error "json: cannot unmarshal bool into Go value of type map[string]interface \x7b\x7d"
  | .number _ =>
    .error "json: cannot unmarshal number into Go value of type map[string]interface \x7b\x7d"
  | .string _ =>
    .error "json: cannot unmarshal string into Go value of type map[string]interface \x7b\x7d"
  | .slice _ =>
    .error "json: cannot unmarshal array into Go value of type map[string]interface \x7b\x7d"

/-- Source `ExtractTextContent`. -/
def ExtractTextContent (content : Content) : Except String String :=
  match jsonMarshal content with
  | .error err => .error ("failed to marshal content: " ++ err)
  | .ok bytes =>
    match jsonUnmarshalMap bytes with
    | .error err => .error ("failed to unmarshal content: " ++ err)
    | .ok data =>
      match data.get "text" with
      | some (.string text) => .ok text
      | _ => .error "text field not found in content"

/-- Source `Config`. -/
structure Config where
  OllamaHost : String
  MCPServerPath : String
  ChatModel : String
  ToolsModel : String
  AgentName : String
  AgentVersion : String

/-- Library `mcp.Implementation`. -/
structure Implementation where
  Name : String
  Version : String

/-- Library `mcp.InitializeRequest`, the fields the agent sets. -/
structure InitializeRequest where
  ProtocolVersion : String
  ClientInfo : Implementation

/-- Library `mcp.InitializeResult`, the field the agent reads. -/
structure InitializeResult where
  ServerInfo : Implementation

/-- Library `mcp.CallToolRequest`, the fields the agent sets. -/
structure CallToolRequest where
  Method : String
  Name : String
  Arguments : GoMap GoValue

/-- Library `mcp.CallToolResult`: the content blocks, which the agent reads,
and the flag `IsError` by which a tool handler reports its own failure inside
the result (`mcp.NewToolResultError`), which the agent never reads. -/
structure CallToolResult where
  Content : List Content
  IsError : Bool := false

/-- Library `api.ToolCallFunction`. -/
structure ToolCallFunction where
  Name : String
  Arguments : GoMap GoValue

/-- Library `api.ToolCall`. -/
structure ToolCall where
  Function : ToolCallFunction

/-- Library `api.Message`. -/
structure Message where
  Role : String
  Content : String
  ToolCalls : List ToolCall := []

/-- Library `api.ChatResponse`, the field the agent reads. -/
structure ChatResponse where
  Message : Message

/-- Library `api.ChatRequest`; `Tools` and `Stream` are `none` when the source
leaves them unset. -/
structure ChatRequest where
  Model : String
  Messages : List Message
  Options : GoMap GoValue
  Tools : Option (List OllamaTool)
  Stream : Option Bool

/-- An argument of a `fmt` print call. -/
inductive Printable where
  | str (s : String)
  | args (m : GoMap GoValue)
  | tools (ts : List OllamaTool)
  | int (n : Int)

/-- What a cycle does to the outside, in order: writes to standard output (the
`fmt` call and its arguments) and requests to the tool server and to the model
backend; for the long-running agent also the `log` calls, the sleeps, the
start and release of the tool-server client and the file operations of the
trajectory store. -/
inductive Event where
  | println (args : List Printable)
  | printf (format : String) (args : List Printable)
  | print (args : List Printable)
  | mcpInitialize (req : InitializeRequest)
  | mcpListTools
  | mcpCallTool (req : CallToolRequest)
  | ollamaChat (req : ChatRequest)
  | logPrintf (format : String) (args : List Printable)
  | logFatalf (format : String) (args : List Printable)
  | logFatalln (args : List Printable)
  | sleep (milliseconds : Nat)
  | mcpNewClient (command : String)
  | mcpClose
  | mkdirAll (path : String)
  | openFile (name : String)
  | writeString (text : String)
  | closeFile

/-- The external collaborators of the agent over a state `σ` of the outside
world. `Chat` gives the responses the backend delivers to the callback, in
order, and the error it ends with, if any. -/
structure World (σ : Type) where
  LATEST_PROTOCOL_VERSION : String
  Initialize : σ → InitializeRequest → Except String InitializeResult × σ
  ListTools : σ → Except String (List McpTool) × σ
  CallTool : σ → CallToolRequest → Except String CallToolResult × σ
  Chat : σ → ChatRequest → (List ChatResponse × Option String) × σ

/-- The state threaded through a cycle: the outside world and the events so far. -/
structure RunState (σ : Type) where
  world : σ
  trace : List Event

/-- Record one event. -/
def RunState.emit {σ : Type} (st : RunState σ) (e : Event) : RunState σ :=
  { st with trace := st.trace ++ [e] }

/-- The loop `for _, tool := range tools.Tools` of `Initialize`, which prints
each descriptor. -/
def printTools {σ : Type} : List McpTool → RunState σ → RunState σ
  | [], st => st
  | tool :: rest, st =>
    let st := st.emit (.printf "- %s: %s\n" [.str tool.Name, .str tool.Description])
    let st := st.emit (.println [.str "Arguments:", .args tool.InputSchema.Properties])
    printTools rest st

/-- Source `Agent.Initialize`. -/
def Initialize {σ : Type} (w : World σ) (config : Config) (st : RunState σ) :
    Except String (List OllamaTool) × RunState σ :=
  let st := st.emit (.println [.str "🚀 Initializing mcp client..."])
  let initRequest : InitializeRequest :=
    { ProtocolVersion := w.LATEST_PROTOCOL_VERSION
      ClientInfo := { Name := config.AgentName, Version := config.AgentVersion } }
  let st := st.emit (.mcpInitialize initRequest)
  match w.Initialize st.world initRequest with
  | (.error err, world) => (.error ("failed to initialize: " ++ err), { st with world := world })
  | (.ok initResult, world) =>
    let st : RunState σ := { st with world := world }
    let st := st.emit (.printf "🎉 Initialized with server: %s %s\n\n"
      [.str initResult.ServerInfo.Name, .str initResult.ServerInfo.Version])
    let st := st.emit (.println [.str "🛠️ Available tools..."])
    let st := st.emit .mcpListTools
    match w.ListTools st.world with
    | (.error err, world) =>
      (.error ("failed to list tools: " ++ err), { st with world := world })
    | (.ok tools, world) =>
      let st : RunState σ := { st with world := world }
      let st := printTools tools st
      let st := st.emit (.println [])
      let ollamaTools := ConvertToOllamaTools tools
      let st := st.emit (.println [.str "🦙 Ollama tools:"])
      let st := st.emit (.println [.tools ollamaTools])
      (.ok ollamaTools, st)

/-- The loop `for _, toolCall := range resp.Message.ToolCalls` in the callback
of the tool phase of `Run`: the error the callback returns (if any), the
accumulator `contentForThePrompt` and the state after it. -/
def runToolCalls {σ : Type} (w : World σ) :
    List ToolCall → String → RunState σ → Option String × String × RunState σ
  | [], contentForThePrompt, st => (none, contentForThePrompt, st)
  | toolCall :: rest, contentForThePrompt, st =>
    let st := st.emit (.println
      [.str "🦙🛠️", .str toolCall.Function.Name, .args toolCall.Function.Arguments])
    let st := st.emit (.println [.str "📣 calling", .str toolCall.Function.Name])
    let fetchRequest : CallToolRequest :=
      { Method := "tools/call"
        Name := toolCall.Function.Name
        Arguments := toolCall.Function.Arguments }
    let st := st.emit (.mcpCallTool fetchRequest)
    match w.CallTool st.world fetchRequest with
    | (.error err, world) =>
      (some ("failed to call the tool: " ++ err), contentForThePrompt, { st with world := world })
    | (.ok result, world) =>
      let st : RunState σ := { st with world := world }
      let st := st.emit (.println [.str "🌍 content of the result:"])
      match result.Content with
      | [] => runToolCalls w rest contentForThePrompt st
      | first :: _ =>
        match ExtractTextContent first with
        | .error err =>
          (some ("failed to extract text content: " ++ err), contentForThePrompt, st)
        | .ok text =>
          let contentForThePrompt := contentForThePrompt ++ text
          let st := st.emit (.println [.str contentForThePrompt])
          runToolCalls w rest contentForThePrompt st

/-- The backend invoking the callback `fn` on the responses it delivers, in
order; delivery stops at the first error the callback returns. -/
def deliver {σ α : Type} (fn : ChatResponse → α → RunState σ → Option String × α × RunState σ) :
    List ChatResponse → α → RunState σ → Option String × α × RunState σ
  | [], acc, st => (none, acc, st)
  | resp :: rest, acc, st =>
    match fn resp acc st with
    | (some err, acc, st) => (some err, acc, st)
    | (none, acc, st) => deliver fn rest acc st

/-- Library `OllamaClient.Chat(ctx, req, fn)`: the request is sent, the callback
runs on every delivered response, and the call returns the first callback error,
else the error of the backend, else nil. `acc` stands for the variables the
callback closes over. -/
def Chat {σ α : Type} (w : World σ) (req : ChatRequest)
    (fn : ChatResponse → α → RunState σ → Option String × α × RunState σ)
    (acc : α) (st : RunState σ) : Option String × α × RunState σ :=
  let st := st.emit (.ollamaChat req)
  match w.Chat st.world req with
  | ((responses, backendErr), world) =>
    match deliver fn responses acc { st with world := world } with
    | (some err, acc, st) => (some err, acc, st)
    | (none, acc, st) => (backendErr, acc, st)

/-- The constant `systemMCPInstructions` of `Run`. -/
def systemMCPInstructions : String :=
  "You are a useful AI agent. \n\tYour job is to understand the user prompt ans decide if you need to use a tool to run external commands.\n\tIgnore all things not related to the usage of a tool.\n\t"

/-- The constant `systemChatInstructions` of `Run`. -/
def systemChatInstructions : String :=
  "You are a useful AI agent. your job is to answer the user prompt.\n\tIf you detect that the user prompt is related to a tool, ignore this part and focus on the other parts.\n\t"

/-- The tool-phase request of `Run`. -/
def toolRequest (config : Config) (userPrompt : String) (ollamaTools : List OllamaTool) :
    ChatRequest :=
  { Model := config.ToolsModel
    Messages :=
      [{ Role := "system", Content := systemMCPInstructions },
       { Role := "user", Content := userPrompt }]
    Options := [("temperature", .number 0), ("repeat_last_n", .number 2)]
    Tools := some ollamaTools
    Stream := some false }

/-- The answer-phase request of `Run`. -/
def chatRequest (config : Config) (userPrompt contentForThePrompt : String) : ChatRequest :=
  { Model := config.ChatModel
    Messages :=
      [{ Role := "system", Content := systemChatInstructions },
       { Role := "user", Content := userPrompt },
       { Role := "user", Content := contentForThePrompt }]
    Options := [("temperature", .number 0), ("repeat_last_n", .number (-1))]
    Tools := none
    Stream := some true }

/-- The callback of the answer phase of `Run`: the fragment is appended to
`answer` and printed. -/
def answerCallback {σ : Type} (resp : ChatResponse) (answer : String) (st : RunState σ) :
    Option String × String × RunState σ :=
  let answer := answer ++ resp.Message.Content
  let st := st.emit (.print [.str resp.Message.Content])
  (none, answer, st)

/-- The answer phase of `Run`, from `answer := ""` to the end of the streamed
call: `errChat`, the final value of the local `answer`, and the state. -/
def answerPhase {σ : Type} (w : World σ) (config : Config) (userPrompt : String)
    (contentForThePrompt : String) (st : RunState σ) : Option String × String × RunState σ :=
  Chat w (chatRequest config userPrompt contentForThePrompt) answerCallback "" st

/-- Source `Agent.Run`: the returned `error` (`none` is nil) and the state after
the cycle. The result type of the source is `error` alone. -/
def Run {σ : Type} (w : World σ) (config : Config) (userPrompt : String) (st : RunState σ) :
    Option String × RunState σ :=
  match Initialize w config st with
  | (.error err, st) => (some ("initialization failed: " ++ err), st)
  | (.ok ollamaTools, st) =>
    let req := toolRequest config userPrompt ollamaTools
    match Chat w req (fun resp content st => runToolCalls w resp.Message.ToolCalls content st)
        "" st with
    | (some err, _, st) => (some ("tool execution failed: " ++ err), st)
    | (none, contentForThePrompt, st) =>
      let st := st.emit (.println [.str "⏳ Generating the completion..."])
      match answerPhase w config userPrompt contentForThePrompt st with
      | (some errChat, _, st) => (some ("chat completion failed: " ++ errChat), st)
      | (none, _, st) => (none, st)

/-! ## Observations on a cycle of `Run` -/

/-- The requests sent to the model backend, in the order of the trace. -/
def chatRequests : List Event → List ChatRequest
  | [] => []
  | .ollamaChat req :: rest => req :: chatRequests rest
  | _ :: rest => chatRequests rest

/-- The invocations sent to the tool server, in the order of the trace. -/
def callToolRequests : List Event → List CallToolRequest
  | [] => []
  | .mcpCallTool req :: rest => req :: callToolRequests rest
  | _ :: rest => callToolRequests rest

/-- The invocation the tool phase builds for a tool-call request of the model. -/
def fetchRequestOf (toolCall : ToolCall) : CallToolRequest :=
  { Method := "tools/call"
    Name := toolCall.Function.Name
    Arguments := toolCall.Function.Arguments }

/-- The text one successful result contributes: nothing when it has no content
block, else the text extracted from its first block (`none` when that block has
no extractable text). -/
def resultText (result : CallToolResult) : Option String :=
  match result.Content with
  | [] => some ""
  | first :: _ => (ExtractTextContent first).toOption

/-- The tool server answering the invocations of `toolCalls` one after the
other from the state `s`: the contributed texts in order and the state after
the last one, or `none` as soon as an invocation fails or its first block has
no extractable text. -/
def toolTexts {σ : Type} (w : World σ) : List ToolCall → σ → Option (List String × σ)
  | [], s => some ([], s)
  | toolCall :: rest, s =>
    match w.CallTool s (fetchRequestOf toolCall) with
    | (.error _, _) => none
    | (.ok result, s') =>
      match resultText result with
      | none => none
      | some text =>
        match toolTexts w rest s' with
        | none => none
        | some (texts, s'') => some (text :: texts, s'')

/-- The concatenation of texts, in order. -/
def concatTexts (texts : List String) : String :=
  texts.foldl (fun acc text => acc ++ text) ""

/-- The tool-call requests of the responses of the tool phase, in the order the
model returned them. -/
def requestedCalls (responses : List ChatResponse) : List ToolCall :=
  responses.flatMap fun resp => resp.Message.ToolCalls

/-- The invocation of `toolCall` fails in the state `s`: the tool server
returns an error, or the first content block of its result has no extractable
text. -/
def InvocationFails {σ : Type} (w : World σ) (s : σ) (toolCall : ToolCall) : Prop :=
  match w.CallTool s (fetchRequestOf toolCall) with
  | (.error _, _) => True
  | (.ok result, _) => resultText result = none

/-! ## `hacks/agent3.go`: the trajectory store, read side -/

/-- Library `strings.HasSuffix`. -/
def stringsHasSuffix (s suffix : String) : Bool :=
  suffix.data.isSuffixOf s.data

/-- Splitting a text at every occurrence of the character `sep`; the result
always has a first piece. -/
def splitOn (sep : Char) : List Char → List Char × List (List Char)
  | [] => ([], [])
  | c :: cs =>
    if c = sep then ([], (splitOn sep cs).1 :: (splitOn sep cs).2)
    else (c :: (splitOn sep cs).1, (splitOn sep cs).2)

/-- Library `strings.Split(s, sep)` for a separator of one character. -/
def stringsSplit (s : String) (sep : Char) : List String :=
  ((splitOn sep s.data).1 :: (splitOn sep s.data).2).map String.mk

/-- The value of a decimal digit. -/
def digitValue (c : Char) : Option Nat :=
  if '0' ≤ c ∧ c ≤ '9' then some (c.toNat - '0'.toNat) else none

/-- The value of a run of decimal digits, read left to right after `acc`. -/
def parseDigits : List Char → Nat → Option Nat
  | [], acc => some acc
  | c :: cs, acc =>
    match digitValue c with
    | none => none
    | some d => parseDigits cs (acc * 10 + d)

/-- Library `strconv.ParseInt(s, 10, 64)`; `none` stands for a non-nil `err`
(malformed text or value out of the `int64` range). -/
def strconvParseInt (s : String) : Option Int :=
  match s.data with
  | [] => none
  | '-' :: ds =>
    if ds = [] then none
    else
      match parseDigits ds 0 with
      | none => none
      | some un => if un ≤ 2 ^ 63 then some (-(un : Int)) else none
  | c :: cs =>
    let ds := if c = '+' then cs else c :: cs
    if ds = [] then none
    else
      match parseDigits ds 0 with
      | none => none
      | some un => if un < 2 ^ 63 then some (un : Int) else none

/-- The result of an `int64` operation whose exact value is `x`: wrapped into
the range of `int64`. -/
def wrapInt64 (x : Int) : Int :=
  (x + 2 ^ 63) % 2 ^ 64 - 2 ^ 63

/-- The decimal digits of `n`, most significant first; `fuel` bounds the number
of digits. -/
def natDigits : Nat → Nat → List Char
  | 0, _ => []
  | fuel + 1, n =>
    if n < 10 then [Nat.digitChar n]
    else natDigits fuel (n / 10) ++ [Nat.digitChar (n % 10)]

/-- Library `fmt` verb `%d` on an integer. -/
def formatInt (d : Int) : String :=
  if d < 0 then String.mk ('-' :: natDigits (d.natAbs + 1) d.natAbs)
  else String.mk (natDigits (d.natAbs + 1) d.natAbs)

/-- The base name of the partition file `saveInteraction` writes for an epoch
day: the format `%d_traj.jsonl`. -/
def partitionName (epochDay : Int) : String :=
  formatInt epochDay ++ "_traj.jsonl"

/-- The epoch day `time.Now().UTC().Unix() / 86400` of a Unix time; Go integer
division truncates toward zero. -/
def epochDayOf (unix : Int) : Int :=
  Int.tdiv unix 86400

/-- One trajectory record as `loadInteractionHistory` decodes it, a
`map[string]string`. -/
abbrev Interaction := GoMap String

/-- An entry of the history directory: its base name and what `ioutil.ReadFile`
gives for it (`none` when the read fails). -/
structure DirEntry where
  name : String
  data : Option String

/-- The history directory as `os.Stat` and `ioutil.ReadDir` find it. -/
inductive HistoryDir where
  | missing (mkdirErr : Option String)
  | unreadable (err : String)
  | entries (files : List DirEntry)

/-- The loop over the lines of one partition in `loadInteractionHistory`;
`unmarshal` is the library `json.Unmarshal` into a `map[string]string`. -/
def loadLines (unmarshal : String → Except String Interaction) :
    List String → List Interaction → List Interaction
  | [], history => history
  | line :: rest, history =>
    if line = "" then loadLines unmarshal rest history
    else
      match unmarshal line with
      | .error _ => loadLines unmarshal rest history
      | .ok interaction => loadLines unmarshal rest (history ++ [interaction])

/-- The two `continue` tests on the name of a directory entry in
`loadInteractionHistory`: `true` when the entry is read. -/
def partitionSelected (todayEpochDay maxDays : Int) (name : String) : Bool :=
  if !stringsHasSuffix name "_traj.jsonl" then false
  else
    match strconvParseInt ((stringsSplit name '_').headD "") with
    | none => false
    | some epochDay =>
      if maxDays > 0 ∧ wrapInt64 (todayEpochDay - epochDay) ≥ maxDays then false else true

/-- The loop `for _, file := range files` of `loadInteractionHistory`. -/
def loadFiles (unmarshal : String → Except String Interaction) (todayEpochDay maxDays : Int) :
    List DirEntry → List Interaction → List Interaction
  | [], history => history
  | file :: rest, history =>
    if !partitionSelected todayEpochDay maxDays file.name then
      loadFiles unmarshal todayEpochDay maxDays rest history
    else
      match file.data with
      | none => loadFiles unmarshal todayEpochDay maxDays rest history
      | some data =>
        loadFiles unmarshal todayEpochDay maxDays rest
          (loadLines unmarshal (stringsSplit data '\n') history)

/-- Source `loadInteractionHistory`; `now` is `time.Now().UTC().Unix()`. -/
def loadInteractionHistory (unmarshal : String → Except String Interaction) (now : Int)
    (historyDir : HistoryDir) (maxDays : Int) : Except String (List Interaction) :=
  match historyDir with
  | .missing (some err) => .error ("failed to create history directory: " ++ err)
  | .missing none => .ok []
  | .unreadable err => .error ("failed to read history directory: " ++ err)
  | .entries files => .ok (loadFiles unmarshal (epochDayOf now) maxDays files [])

/-- A line that `loadInteractionHistory` turns into a record: not empty and
accepted by the decoder. -/
def wellFormedLine (unmarshal : String → Except String Interaction) (line : String) : Bool :=
  line ≠ "" ∧ (unmarshal line).toOption.isSome

/-- The records of the well-formed lines among `lines`, in order. -/
def recordsOfLines (unmarshal : String → Except String Interaction) (lines : List String) :
    List Interaction :=
  (lines.filter (wellFormedLine unmarshal)).filterMap fun line => (unmarshal line).toOption

/-- The text of a file whose lines are `lines`, separated by newlines. -/
def joinLines : List String → String
  | [] => ""
  | [line] => line
  | line :: rest => line ++ "\n" ++ joinLines rest

/-- The range of `int64`. -/
def Int64Range (x : Int) : Prop := -(2 ^ 63) ≤ x ∧ x < 2 ^ 63

/-- The range of the epoch days of the `int64` Unix times, the values of
`Unix() / 86400`. -/
def EpochDayRange (d : Int) : Prop := -106751991167300 ≤ d ∧ d ≤ 106751991167300

/-- The history directory that holds one readable file per element of
`files`: its name and its lines. -/
def linesDir (files : List (String × List String)) : HistoryDir :=
  .entries (files.map fun f => { name := f.1, data := some (joinLines f.2) })

/-- The history directory that holds one readable partition file per element
of `parts`: its epoch day and its text. -/
def partitionsDir (parts : List (Int × String)) : HistoryDir :=
  .entries (parts.map fun p => { name := partitionName p.1, data := some p.2 })

/-! ## `hacks/agent3.go`: the long-running agent -/

/-- The members of a JSON object decoded one after the other into a
`map[string]string`: a string is stored, `null` leaves the empty string, any
other value is a type error, for which `json.Unmarshal` returns an error. -/
def decodeMembers : List (String × GoValue) → Interaction → Except String Interaction
  | [], interaction => .ok interaction
  | (key, .string s) :: rest, interaction => decodeMembers rest (interaction.set key s)
  | (key, .null) :: rest, interaction => decodeMembers rest (interaction.set key "")
  | (_, .bool _) :: _, _ =>
    .error "json: cannot unmarshal bool into Go value of type string"
  | (_, .number _) :: _, _ =>
    .error "json: cannot unmarshal number into Go value of type string"
  | (_, .slice _) :: _, _ =>
    .error "json: cannot unmarshal array into Go value of type string"
  | (_, .map _) :: _, _ =>
    .error "json: cannot unmarshal object into Go value of type string"

/-- Library `json.Unmarshal` into a nil `map[string]string`, on the JSON value
of the text: an object is decoded member by member, `null` leaves the map nil,
any other JSON value is a type error. -/
def decodeStringMap : GoValue → Except String Interaction
  | .map members => decodeMembers members []
  | .null => .ok []
  | .bool _ => .error "json: cannot unmarshal bool into Go value of type map[string]string"
  | .number _ => .error "json: cannot unmarshal number into Go value of type map[string]string"
  | .string _ => .error "json: cannot unmarshal string into Go value of type map[string]string"
  | .slice _ => .error "json: cannot unmarshal array into Go value of type map[string]string"

/-- Library `json.Unmarshal([]byte(line), &interaction)` of
`loadInteractionHistory`; `parse` is the JSON grammar of the library, `none`
on a text that is not JSON. -/
def unmarshalInteraction (parse : String → Option GoValue) (line : String) :
    Except String Interaction :=
  match parse line with
  | none => .error "invalid character looking for beginning of value"
  | some v => decodeStringMap v

/-- The outcome of one open-and-write attempt of `saveInteraction`:
`os.OpenFile` fails, or `file.WriteString` fails after `written` reached the
file, or both succeed. -/
inductive AttemptOutcome where
  | openFails (err : String)
  | writeFails (err : String) (written : String)
  | succeeds
  deriving DecidableEq, Repr

/-- What the long-running agent takes from its process environment and from
the libraries: its two command-line arguments, the environment variables it
reads, the time format, the JSON encoder and the JSON grammar, and what the
operating system answers to the store operations: `clock`, `mkdirErr` and
`attemptOutcome` are indexed by the number of store operations (loads and
saves) made so far. -/
structure Agent3Env where
  agentName : String
  cosmosAddress : String
  DSPY_NUM_PARALLEL : String
  TOOLS_LLM : Option String
  rfc3339 : Int → String
  marshal : GoMap GoValue → Except String String
  parse : String → Option GoValue
  clock : Nat → Int
  mkdirErr : Nat → Option String
  attemptOutcome : Nat → Nat → AttemptOutcome

/-- The constant `MAX_RETRY_ATTEMPTS`. -/
def MAX_RETRY_ATTEMPTS : Nat := 3

/-- The constant `RETRY_DELAY`, in milliseconds. -/
def RETRY_DELAY : Nat := 2000

/-- The constant `DEFAULT_PARALLEL`. -/
def DEFAULT_PARALLEL : Int := 4

/-- The constant `DSPY_HOST`. -/
def DSPY_HOST : String := "http://127.0.0.1:11435"

/-- The variable `historyDir` as `main` sets it. -/
def historyDirOf (agentName : String) : String :=
  "./" ++ agentName ++ "_traj"

/-- Reading a `map[string]string`, the plain form `m[k]`: the empty string
for a missing key. -/
def Interaction.field (entry : Interaction) (key : String) : String :=
  (GoMap.get entry key).getD ""

/-- Source `formatHistoryForPrompt`. -/
def formatHistoryForPrompt : List Interaction → String
  | [] => ""
  | entry :: rest =>
    ("- Thought: " ++ entry.field "thought" ++ "\n  Action: " ++ entry.field "action" ++
      "\n  Observation: " ++ entry.field "observation" ++ "\n") ++ formatHistoryForPrompt rest

/-- The request `callDspy` builds in every attempt. -/
def dspyRequest (model prompt : String) : ChatRequest :=
  { Model := model
    Messages := [{ Role := "user", Content := prompt }]
    Options := [("temperature", .number 0)]
    Tools := none
    Stream := none }

/-- The callback of `callDspy`: the fragment is appended to `responseContent`. -/
def dspyCallback {σ : Type} (resp : ChatResponse) (responseContent : String)
    (st : RunState σ) : Option String × String × RunState σ :=
  (none, responseContent ++ resp.Message.Content, st)

/-- The loop of `callDspy` from attempt number `attempt` on, with `remaining`
attempts left; `responseContent` is declared before the loop and is carried
from one attempt to the next. `url.Parse` of the constant `DSPY_HOST` returns
no error. -/
def callDspyFrom {σ : Type} (w : World σ) (agentName model prompt : String) :
    Nat → Nat → String → RunState σ → Except String String × RunState σ
  | 0, _, _, st =>
    (.error ("failed to call DSPy after " ++ formatInt MAX_RETRY_ATTEMPTS ++ " attempts"), st)
  | remaining + 1, attempt, responseContent, st =>
    match Chat w (dspyRequest model prompt) dspyCallback responseContent st with
    | (none, responseContent, st) => (.ok responseContent, st)
    | (some err, responseContent, st) =>
      let st := st.emit (.logPrintf "[%s] Attempt %d/%d: Failed to call DSPy: %v"
        [.str agentName, .int attempt, .int MAX_RETRY_ATTEMPTS, .str err])
      let st := st.emit (.sleep RETRY_DELAY)
      callDspyFrom w agentName model prompt remaining (attempt + 1) responseContent st

/-- Source `callDspy`. -/
def callDspy {σ : Type} (w : World σ) (agentName model prompt : String) (st : RunState σ) :
    Except String String × RunState σ :=
  callDspyFrom w agentName model prompt MAX_RETRY_ATTEMPTS 1 "" st

/-- The trajectory store on disk: whether `os.Stat` finds the history
directory, and the base name and text of each file in it. -/
structure Store where
  present : Bool
  files : GoMap String

/-- Text appended to the file `name`, which is created when it is missing
(`O_APPEND|O_CREATE`). -/
def Store.append (store : Store) (name text : String) : Store :=
  { store with files := store.files.set name ((store.files.get name).getD "" ++ text) }

/-- The history directory as `loadInteractionHistory` finds it; `mkdirErr` is
what `os.MkdirAll` would return. -/
def Store.toHistoryDir (store : Store) (mkdirErr : Option String) : HistoryDir :=
  if store.present then .entries (store.files.map fun f => { name := f.1, data := some f.2 })
  else .missing mkdirErr

/-- The store after a call that creates the history directory when it is
missing and `os.MkdirAll` succeeds. -/
def Store.ensureDir (store : Store) (mkdirErr : Option String) : Store :=
  if !store.present ∧ mkdirErr = none then { store with present := true } else store

/-- The record `saveInteraction` serializes. -/
def interactionOf (env : Agent3Env) (now : Int) (thought action observation : String) :
    GoMap GoValue :=
  [("timestamp", .string (env.rfc3339 now)),
   ("thought", .string thought),
   ("action", .string action),
   ("observation", .string observation),
   ("agent", .string env.agentName),
   ("address", .string env.cosmosAddress)]

/-- The loop `for attempt := 0; attempt < 3; attempt++` of `saveInteraction`,
from attempt number `attempt` on with `remaining` attempts left. `name` is the
base name of `filename`. -/
def saveAttempts (agentName filename name data : String) (outcome : Nat → AttemptOutcome) :
    Nat → Nat → Store → List Event → Store × List Event
  | 0, _, store, trace => (store, trace)
  | remaining + 1, attempt, store, trace =>
    let trace := trace ++ [.openFile filename]
    match outcome attempt with
    | .openFails err =>
      let trace := trace ++
        [.logPrintf "[%s] Failed to open trajectory file (attempt %d/3): %v"
          [.str agentName, .int (attempt + 1), .str err],
         .sleep 100]
      saveAttempts agentName filename name data outcome remaining (attempt + 1) store trace
    | .writeFails err written =>
      let trace := trace ++
        [.writeString (data ++ "\n"),
         .logPrintf "[%s] Failed to write interaction to file (attempt %d/3): %v"
          [.str agentName, .int (attempt + 1), .str err],
         .sleep 100,
         .closeFile]
      saveAttempts agentName filename name data outcome remaining (attempt + 1)
        (store.append name written) trace
    | .succeeds =>
      (store.append name (data ++ "\n"), trace ++ [.writeString (data ++ "\n"), .closeFile])

/-- Source `saveInteraction`; `now` is `time.Now().UTC()` as a Unix time,
`mkdirErr` what `os.MkdirAll` returns and `outcome` what the open-and-write
attempts meet. The function has no result: the caller gets the store and the
trace, and no failure signal. The mutex is not modelled. -/
def saveInteraction (env : Agent3Env) (now : Int) (mkdirErr : Option String)
    (outcome : Nat → AttemptOutcome) (thought action observation : String)
    (store : Store) (trace : List Event) : Store × List Event :=
  match store.present, mkdirErr with
  | false, some err =>
    (store, trace ++
      [.mkdirAll (historyDirOf env.agentName),
       .logPrintf "[%s] Failed to create history directory: %v" [.str env.agentName, .str err]])
  | present, _ =>
    let trace := if present then trace
      else trace ++ [.mkdirAll (historyDirOf env.agentName)]
    let store := store.ensureDir mkdirErr
    let filename := historyDirOf env.agentName ++ "/" ++ partitionName (epochDayOf now)
    match env.marshal (interactionOf env now thought action observation) with
    | .error err =>
      (store, trace ++
        [.logPrintf "[%s] Failed to serialize interaction: %v" [.str env.agentName, .str err]])
    | .ok data =>
      saveAttempts env.agentName filename (partitionName (epochDayOf now)) data outcome 3 0
        store trace

/-- The number of `os.OpenFile` calls in a trace. -/
def openAttempts : List Event → Nat
  | [] => 0
  | .openFile _ :: rest => openAttempts rest + 1
  | _ :: rest => openAttempts rest

/-- The texts left in the file by the failed writes among the attempts
`attempt, ..., attempt + n - 1`, in order. -/
def partialWrites (outcome : Nat → AttemptOutcome) : Nat → Nat → List String
  | 0, _ => []
  | n + 1, attempt =>
    match outcome attempt with
    | .writeFails _ written => written :: partialWrites outcome n (attempt + 1)
    | _ => partialWrites outcome n (attempt + 1)

/-- The store after the texts are appended to the file `name`, one after the other. -/
def Store.appendAll (store : Store) (name : String) : List String → Store
  | [] => store
  | text :: rest => (store.append name text).appendAll name rest

/-- The tool-server library of the long-running agent: the collaborators of
`World` and the start of the tool-server process, `client.NewStdioMCPClient`. -/
structure Agent3World (σ : Type) extends World σ where
  NewStdioMCPClient : σ → String → Option String × σ

/-- How the process ends: `os.Exit` with a status (from `log.Fatalf`), or a
run-time panic. -/
inductive Termination where
  | exit (status : Nat)
  | panic (msg : String)
  deriving DecidableEq, Repr

/-- The state of the process of the long-running agent: the backend world and
the trace, the trajectory store, and the number of store operations so far. -/
structure ProcState (σ : Type) where
  run : RunState σ
  store : Store
  ticks : Nat

/-- Record one event. -/
def ProcState.emit {σ : Type} (ps : ProcState σ) (e : Event) : ProcState σ :=
  { ps with run := ps.run.emit e }

/-- The text `reasoningPrompt` of `thinkAboutAction`. -/
def reasoningPromptOf (env : Agent3Env) (historyPrompt : String) : String :=
  "Based on the following interaction history for agent '" ++
  env.agentName ++
  "' with Cosmos address '" ++
  env.cosmosAddress ++
  "', decide the next action:\n" ++
  historyPrompt ++
  "\n\nNext Action:"

/-- Source `thinkAboutAction`. The log lines of `loadInteractionHistory` are
not part of the trace. -/
def thinkAboutAction {σ : Type} (env : Agent3Env) (w : World σ) (ps : ProcState σ) :
    String × ProcState σ :=
  let now := env.clock ps.ticks
  let mkdirErr := env.mkdirErr ps.ticks
  match loadInteractionHistory (unmarshalInteraction env.parse) now
      (ps.store.toHistoryDir mkdirErr) 7 with
  | .error err =>
    let ps : ProcState σ := { ps with ticks := ps.ticks + 1 }
    let ps := ps.emit (.logPrintf "[%s] Failed to load interaction history: %v"
      [.str env.agentName, .str err])
    ("No history available. Starting fresh.", ps)
  | .ok history =>
    let ps : ProcState σ :=
      { ps with store := ps.store.ensureDir mkdirErr, ticks := ps.ticks + 1 }
    let historyPrompt := formatHistoryForPrompt history
    let reasoningPrompt := reasoningPromptOf env historyPrompt
    match callDspy w env.agentName "deepseek-r1:1.5b" reasoningPrompt ps.run with
    | (.error err, run) =>
      let ps : ProcState σ := { ps with run := run }
      let ps := ps.emit (.logPrintf "[%s] Failed to generate reasoning: %v"
        [.str env.agentName, .str err])
      ("Failed to generate reasoning. Starting fresh.", ps)
    | (.ok response, run) => (response, { ps with run := run })

/-- The request the tool phase of `runAgent` builds. -/
def agentToolRequest (env : Agent3Env) (thought : String) (ollamaTools : List OllamaTool) :
    ChatRequest :=
  let systemMCPInstructions :=
    "You are a useful AI agent named " ++
    env.agentName ++
    ".\n    Your job is to understand the user prompt and decide if you need to use a tool to run external commands.\n    You are working with a Cosmos blockchain address: " ++
    env.cosmosAddress ++
    "\n    Ignore all things not related to the usage of a tool.\n    Thought: " ++
    thought
  let userInstructions :=
    "1. check the balance of both " ++
    env.agentName ++
    " and other accounts. 2. send tokens from " ++
    env.agentName ++
    " to other addresses when needed. 3. monitor transactions."
  { Model := env.TOOLS_LLM.getD "llama3.2:3b-instruct-fp16"
    Messages :=
      [{ Role := "system", Content := systemMCPInstructions },
       { Role := "user", Content := userInstructions }]
    Options := [("temperature", .number 0), ("repeat_last_n", .number 2)]
    Tools := some ollamaTools
    Stream := some false }

/-- The expression `result.Content[0].(map[string]interface{})["text"].(string)`
of `runAgent`: the text, or the run-time panic of the index or of a type
assertion. -/
def firstText (result : CallToolResult) : Except String String :=
  match result.Content with
  | [] => .error "runtime error: index out of range [0] with length 0"
  | .json (.map m) :: _ =>
    match GoMap.get m "text" with
    | some (.string text) => .ok text
    | _ => .error "interface conversion: interface \x7b\x7d is not string"
  | _ :: _ =>
    .error "interface conversion: interface \x7b\x7d is not map[string]interface \x7b\x7d"

/-- The loop `for _, toolCall := range resp.Message.ToolCalls` in the callback
of the tool phase of `runAgent`: how the process ends inside it (if it does),
the accumulator `contentForThePrompt` and the state after it. -/
def agentToolCalls {σ : Type} (w : World σ) (agentName : String) :
    List ToolCall → String → RunState σ → Option Termination × String × RunState σ
  | [], contentForThePrompt, st => (none, contentForThePrompt, st)
  | toolCall :: rest, contentForThePrompt, st =>
    let st := st.emit (.printf "[%s] \u00f0\u0178\u203a\u00a0\u00ef\u00b8 %s %s\n"
      [.str agentName, .str toolCall.Function.Name, .args toolCall.Function.Arguments])
    let st := st.emit (.printf "[%s] \u00f0\u0178\u201c\u00a3 calling %s\n" [.str agentName, .str toolCall.Function.Name])
    let fetchRequest : CallToolRequest :=
      { Method := "tools/call"
        Name := toolCall.Function.Name
        Arguments := toolCall.Function.Arguments }
    let st := st.emit (.mcpCallTool fetchRequest)
    match w.CallTool st.world fetchRequest with
    | (.error err, world) =>
      let st : RunState σ := { st with world := world }
      let st := st.emit (.logFatalf "[%s] \u00f0\u0178\u02dc\u00a1 Failed to call the tool: %v" [.str agentName, .str err])
      (some (.exit 1), contentForThePrompt, st)
    | (.ok result, world) =>
      let st : RunState σ := { st with world := world }
      match firstText result with
      | .error msg => (some (.panic msg), contentForThePrompt, st)
      | .ok text =>
        let contentForThePrompt := contentForThePrompt ++ text
        let st := st.emit (.println [.str contentForThePrompt])
        agentToolCalls w agentName rest contentForThePrompt st

/-- The backend invoking a callback in which the process may end: delivery
stops when it does. -/
def deliverProc {σ α : Type}
    (fn : ChatResponse → α → RunState σ → Option Termination × α × RunState σ) :
    List ChatResponse → α → RunState σ → Option Termination × α × RunState σ
  | [], acc, st => (none, acc, st)
  | resp :: rest, acc, st =>
    match fn resp acc st with
    | (some t, acc, st) => (some t, acc, st)
    | (none, acc, st) => deliverProc fn rest acc st

/-- Library `Chat(ctx, req, fn)` with a callback that returns nil or ends the
process: the process ends, or the call returns the error of the backend, or nil. -/
def ChatProc {σ α : Type} (w : World σ) (req : ChatRequest)
    (fn : ChatResponse → α → RunState σ → Option Termination × α × RunState σ)
    (acc : α) (st : RunState σ) : Except Termination (Option String) × α × RunState σ :=
  let st := st.emit (.ollamaChat req)
  match w.Chat st.world req with
  | ((responses, backendErr), world) =>
    match deliverProc fn responses acc { st with world := world } with
    | (some t, acc, st) => (.error t, acc, st)
    | (none, acc, st) => (.ok backendErr, acc, st)

/-- The loop `for _, tool := range tools.Tools` of `runAgent`. -/
def agentPrintTools {σ : Type} (agentName : String) : List McpTool → RunState σ → RunState σ
  | [], st => st
  | tool :: rest, st =>
    let st := st.emit (.printf "[%s] - %s: %s\n"
      [.str agentName, .str tool.Name, .str tool.Description])
    let st := st.emit (.printf "[%s] Arguments: %v\n"
      [.str agentName, .args tool.InputSchema.Properties])
    agentPrintTools agentName rest st

/-- The number `ollamaNumParallel` of `runAgent`. -/
def numParallel (env : Agent3Env) : Int :=
  match strconvParseInt env.DSPY_NUM_PARALLEL with
  | none => DEFAULT_PARALLEL
  | some n => if n ≤ 0 then DEFAULT_PARALLEL else n

/-- Source `runAgent`: how the process ends inside the call (`none` when the
call returns) and the state after it. `ConvertToOllamaTools` of this file is
the same function as the one of `core/tools.go`. -/
def runAgent {σ : Type} (env : Agent3Env) (aw : Agent3World σ) (thought : String)
    (ps : ProcState σ) : Option Termination × ProcState σ :=
  let st := ps.run
  let st := st.emit (.printf "[%s] Using DSPY_NUM_PARALLEL: %d\n"
    [.str env.agentName, .int (numParallel env)])
  let st := st.emit (.printf "[%s] Parsed URL: %s\n" [.str env.agentName, .str DSPY_HOST])
  let st := st.emit (.mcpNewClient "./swechain-mcp-server")
  match aw.NewStdioMCPClient st.world "./swechain-mcp-server" with
  | (some err, world) =>
    let st : RunState σ := { st with world := world }
    let st := st.emit (.logFatalf "[%s] \u00f0\u0178\u02dc\u00a1 Failed to create client: %v" [.str env.agentName, .str err])
    (some (.exit 1), { ps with run := st })
  | (none, world) =>
    let st : RunState σ := { st with world := world }
    let st := st.emit (.printf "[%s] \u00f0\u0178\u0161\u20ac Initializing mcp client...\n" [.str env.agentName])
    let initRequest : InitializeRequest :=
      { ProtocolVersion := aw.LATEST_PROTOCOL_VERSION
        ClientInfo := { Name := env.agentName, Version := "1.0.0" } }
    let st := st.emit (.mcpInitialize initRequest)
    match aw.Initialize st.world initRequest with
    | (.error err, world) =>
      let st : RunState σ := { st with world := world }
      let st := st.emit (.logFatalf "[%s] Failed to initialize: %v" [.str env.agentName, .str err])
      (some (.exit 1), { ps with run := st })
    | (.ok initResult, world) =>
      let st : RunState σ := { st with world := world }
      let st := st.emit (.printf "[%s] \u00f0\u0178\u017d\u2030 Initialized with server: %s %s\n\n"
        [.str env.agentName, .str initResult.ServerInfo.Name,
         .str initResult.ServerInfo.Version])
      let st := st.emit (.printf "[%s] \u00f0\u0178\u203a\u00a0\u00ef\u00b8 Available tools...\n" [.str env.agentName])
      let st := st.emit .mcpListTools
      match aw.ListTools st.world with
      | (.error err, world) =>
        let st : RunState σ := { st with world := world }
        let st := st.emit (.logFatalf "[%s] \u00f0\u0178\u02dc\u00a1 Failed to list tools: %v" [.str env.agentName, .str err])
        (some (.exit 1), { ps with run := st })
      | (.ok tools, world) =>
        let st : RunState σ := { st with world := world }
        let st := agentPrintTools env.agentName tools st
        let st := st.emit (.println [])
        let ollamaTools := ConvertToOllamaTools tools
        let st := st.emit (.printf "[%s] \u00f0\u0178\u00a6\u2122 DSPy tools prepared\n" [.str env.agentName])
        let req := agentToolRequest env thought ollamaTools
        match ChatProc aw.toWorld req
            (fun resp content st =>
              agentToolCalls aw.toWorld env.agentName resp.Message.ToolCalls content st)
            "" st with
        | (.error (.exit status), _, st) => (some (.exit status), { ps with run := st })
        | (.error (.panic msg), _, st) =>
          (some (.panic msg), { ps with run := st.emit .mcpClose })
        | (.ok (some err), _, st) =>
          let st := st.emit (.logFatalln [.str "\u00f0\u0178\u02dc\u00a1", .str err])
          (some (.exit 1), { ps with run := st })
        | (.ok none, _, st) =>
          let st := st.emit (.println [.str "\u00e2\u00b3 Generating the completion..."])
          let action := "Check balances and send tokens if necessary."
          let observation := "Balances checked. Tokens sent successfully."
          let (store, trace) := saveInteraction env (env.clock ps.ticks) (env.mkdirErr ps.ticks)
            (env.attemptOutcome ps.ticks) thought action observation ps.store st.trace
          let st : RunState σ := { st with trace := trace }
          let st := st.emit (.printf "Agent performed action: %s\n" [.str action])
          let st := st.emit (.printf "Observation: %s\n" [.str observation])
          let st := st.emit .mcpClose
          (none, { run := st, store := store, ticks := ps.ticks + 1 })

/-- The loop `for` of `main`, for at most `cycles` iterations: how the process
ends (`none` when it is still running after them) and the state then. -/
def mainLoop {σ : Type} (env : Agent3Env) (aw : Agent3World σ) :
    Nat → ProcState σ → Option Termination × ProcState σ
  | 0, ps => (none, ps)
  | cycles + 1, ps =>
    let ps := ps.emit (.printf "[%s] Starting agent iteration...\n" [.str env.agentName])
    match thinkAboutAction env aw.toWorld ps with
    | (thought, ps) =>
      let ps := ps.emit (.printf "[%s] Agent is thinking: %s\n" [.str env.agentName, .str thought])
      match runAgent env aw thought ps with
      | (some t, ps) => (some t, ps)
      | (none, ps) =>
        let ps := ps.emit (.printf "[%s] Iteration complete. Waiting for 1 second...\n"
          [.str env.agentName])
        let ps := ps.emit (.sleep 1000)
        mainLoop env aw cycles ps

/-- Source `main` of the long-running agent, with `argc` command-line
arguments, for at most `cycles` iterations of its loop; `env` holds the
arguments and the environment at the start of the process. -/
def agentMain {σ : Type} (env : Agent3Env) (aw : Agent3World σ) (argc cycles : Nat)
    (ps : ProcState σ) : Option Termination × ProcState σ :=
  if argc < 3 then
    (some (.exit 1),
      ps.emit (.println [.str "Usage: go run agent.go <agent_name> <cosmos_address>"]))
  else
    let ps := ps.emit (.printf "Starting agent '%s' with Cosmos address: %s\n"
      [.str env.agentName, .str env.cosmosAddress])
    let ps := ps.emit (.printf "History directory: %s\n" [.str (historyDirOf env.agentName)])
    let env : Agent3Env :=
      if env.DSPY_NUM_PARALLEL = "" then
        { env with DSPY_NUM_PARALLEL := formatInt DEFAULT_PARALLEL }
      else env
    mainLoop env aw cycles ps

/-- The number of iterations of the loop of `main` that a trace shows started. -/
def cyclesStarted : List Event → Nat
  | [] => 0
  | .printf "[%s] Starting agent iteration...\n" _ :: rest => cyclesStarted rest + 1
  | _ :: rest => cyclesStarted rest

/-- The handshake request of `runAgent`. -/
def agentInitRequest {σ : Type} (env : Agent3Env) (aw : Agent3World σ) : InitializeRequest :=
  { ProtocolVersion := aw.LATEST_PROTOCOL_VERSION
    ClientInfo := { Name := env.agentName, Version := "1.0.0" } }

/-- The tool server answering the invocations of `toolCalls` of `runAgent` one
after the other from the state `s`: the texts in order and the state after the
last one, or `none` as soon as an invocation fails or its result has no text to
read. -/
def agentToolTexts {σ : Type} (w : World σ) : List ToolCall → σ → Option (List String × σ)
  | [], s => some ([], s)
  | toolCall :: rest, s =>
    match w.CallTool s (fetchRequestOf toolCall) with
    | (.error _, _) => none
    | (.ok result, s') =>
      match firstText result with
      | .error _ => none
      | .ok text =>
        match agentToolTexts w rest s' with
        | none => none
        | some (texts, s'') => some (text :: texts, s'')

/-- A cycle of `runAgent` started in the state `s` of the world meets a failure
of the tool-server handshake, of the tool listing, of a tool call, or of the
tool-phase model call, each returned as an error by the library call;
`fatal` is the `log.Fatalf` or `log.Fatalln` call that reports it. -/
inductive ToolSideFailure {σ : Type} (env : Agent3Env) (aw : Agent3World σ)
    (thought : String) (s : σ) : Event → Prop where
  | handshake (s₁ s₂ : σ) (err : String)
      (hnew : aw.NewStdioMCPClient s "./swechain-mcp-server" = (none, s₁))
      (hinit : aw.Initialize s₁ (agentInitRequest env aw) = (.error err, s₂)) :
      ToolSideFailure env aw thought s
        (.logFatalf "[%s] Failed to initialize: %v" [.str env.agentName, .str err])
  | listing (s₁ s₂ s₃ : σ) (initResult : InitializeResult) (err : String)
      (hnew : aw.NewStdioMCPClient s "./swechain-mcp-server" = (none, s₁))
      (hinit : aw.Initialize s₁ (agentInitRequest env aw) = (.ok initResult, s₂))
      (hlist : aw.ListTools s₂ = (.error err, s₃)) :
      ToolSideFailure env aw thought s
        (.logFatalf "[%s] \u00f0\u0178\u02dc\u00a1 Failed to list tools: %v"
          [.str env.agentName, .str err])
  | toolCall (s₁ s₂ s₃ s₄ s₅ s₆ : σ) (initResult : InitializeResult) (tools : List McpTool)
      (responses : List ChatResponse) (backendErr : Option String)
      (pre : List ToolCall) (bad : ToolCall) (post : List ToolCall) (texts : List String)
      (err : String)
      (hnew : aw.NewStdioMCPClient s "./swechain-mcp-server" = (none, s₁))
      (hinit : aw.Initialize s₁ (agentInitRequest env aw) = (.ok initResult, s₂))
      (hlist : aw.ListTools s₂ = (.ok tools, s₃))
      (hchat : aw.Chat s₃ (agentToolRequest env thought (ConvertToOllamaTools tools)) =
        ((responses, backendErr), s₄))
      (hsplit : requestedCalls responses = pre ++ bad :: post)
      (hpre : agentToolTexts aw.toWorld pre s₄ = some (texts, s₅))
      (hbad : aw.CallTool s₅ (fetchRequestOf bad) = (.error err, s₆)) :
      ToolSideFailure env aw thought s
        (.logFatalf "[%s] \u00f0\u0178\u02dc\u00a1 Failed to call the tool: %v"
          [.str env.agentName, .str err])
  | toolPhase (s₁ s₂ s₃ s₄ s₅ : σ) (initResult : InitializeResult) (tools : List McpTool)
      (responses : List ChatResponse) (texts : List String) (err : String)
      (hnew : aw.NewStdioMCPClient s "./swechain-mcp-server" = (none, s₁))
      (hinit : aw.Initialize s₁ (agentInitRequest env aw) = (.ok initResult, s₂))
      (hlist : aw.ListTools s₂ = (.ok tools, s₃))
      (hchat : aw.Chat s₃ (agentToolRequest env thought (ConvertToOllamaTools tools)) =
        ((responses, some err), s₄))
      (hcalls : agentToolTexts aw.toWorld (requestedCalls responses) s₄ = some (texts, s₅)) :
      ToolSideFailure env aw thought s (.logFatalln [.str "\u00f0\u0178\u02dc\u00a1", .str err])

/-- In a cycle of `runAgent` started in the state `s` of the world a tool
handler fails and the tool server reports it inside the result of the call
(`IsError` set, the error text as content), while the handshake, the listing,
the tool-phase model call and every other invocation succeed. -/
inductive ReportedToolFailure {σ : Type} (env : Agent3Env) (aw : Agent3World σ)
    (thought : String) (s : σ) : Prop where
  | intro (s₁ s₂ s₃ s₄ s₅ s₆ s₇ : σ) (initResult : InitializeResult) (tools : List McpTool)
      (responses : List ChatResponse)
      (pre : List ToolCall) (bad : ToolCall) (post : List ToolCall)
      (texts texts' : List String) (result : CallToolResult) (text : String)
      (hnew : aw.NewStdioMCPClient s "./swechain-mcp-server" = (none, s₁))
      (hinit : aw.Initialize s₁ (agentInitRequest env aw) = (.ok initResult, s₂))
      (hlist : aw.ListTools s₂ = (.ok tools, s₃))
      (hchat : aw.Chat s₃ (agentToolRequest env thought (ConvertToOllamaTools tools)) =
        ((responses, none), s₄))
      (hsplit : requestedCalls responses = pre ++ bad :: post)
      (hpre : agentToolTexts aw.toWorld pre s₄ = some (texts, s₅))
      (hbad : aw.CallTool s₅ (fetchRequestOf bad) = (.ok result, s₆))
      (hflag : result.IsError = true)
      (htext : firstText result = .ok text)
      (hpost : agentToolTexts aw.toWorld post s₆ = some (texts', s₇)) :
      ReportedToolFailure env aw thought s

/-- The state of the process when `runAgent` is called in an iteration of the
loop of `main` started in `ps`, and the thought it is called with. -/
def cycleStart {σ : Type} (env : Agent3Env) (aw : Agent3World σ) (ps : ProcState σ) :
    String × ProcState σ :=
  let ps := ps.emit (.printf "[%s] Starting agent iteration...\n" [.str env.agentName])
  match thinkAboutAction env aw.toWorld ps with
  | (thought, ps) =>
    (thought,
      ps.emit (.printf "[%s] Agent is thinking: %s\n" [.str env.agentName, .str thought]))

/-! ## Observations on the failure reports of `Run` -/

/-- The handshake requests sent to the tool server, in the order of the trace. -/
def initializeRequests : List Event → List InitializeRequest
  | [] => []
  | .mcpInitialize req :: rest => req :: initializeRequests rest
  | _ :: rest => initializeRequests rest

/-- The number of `ListTools` calls in a trace. -/
def listToolsCalls : List Event → Nat
  | [] => 0
  | .mcpListTools :: rest => listToolsCalls rest + 1
  | _ :: rest => listToolsCalls rest

/-- The handshake request `Initialize` builds from the configuration. -/
def initializeRequestOf {σ : Type} (w : World σ) (config : Config) : InitializeRequest :=
  { ProtocolVersion := w.LATEST_PROTOCOL_VERSION
    ClientInfo := { Name := config.AgentName, Version := config.AgentVersion } }

/-- The tool phase of `Run`, from `contentForThePrompt := ""` to the end of the
call of the tool model: the error of the call, the final value of
`contentForThePrompt`, and the state. -/
def toolPhase {σ : Type} (w : World σ) (config : Config) (userPrompt : String)
    (ollamaTools : List OllamaTool) (st : RunState σ) : Option String × String × RunState σ :=
  Chat w (toolRequest config userPrompt ollamaTools)
    (fun resp content st => runToolCalls w resp.Message.ToolCalls content st) "" st

/-- The state in which the answer phase of `Run` starts, after the tool phase
has ended in `st`: the progress line has been printed. -/
def answerStart {σ : Type} (st : RunState σ) : RunState σ :=
  st.emit (.println [.str "⏳ Generating the completion..."])

/-- The file names passed to `os.OpenFile`, in the order of the trace. -/
def openedFiles : List Event → List String
  | [] => []
  | .openFile name :: rest => name :: openedFiles rest
  | _ :: rest => openedFiles rest

/-! ## Library `encoding/json` on the lines of the trajectory store -/

/-- The four hexadecimal digits of a number below 65536, in lower case. -/
def hex4 (n : Nat) : List Char :=
  [Nat.digitChar (n / 4096 % 16), Nat.digitChar (n / 256 % 16),
   Nat.digitChar (n / 16 % 16), Nat.digitChar (n % 16)]

/-- What `json.Marshal` writes for one character of a string (HTML escaping
is on, as by default): the quote, the backslash and the control characters
with a short form are escaped with a backslash; the other control characters,
`<`, `>`, `&`, U+2028 and U+2029 are written `\uXXXX`; every other character is
written as it is. -/
def jsonEscapeChar (c : Char) : List Char :=
  if c = '"' then ['\\', '"']
  else if c = '\\' then ['\\', '\\']
  else if c = '\x08' then ['\\', 'b']
  else if c = '\x0c' then ['\\', 'f']
  else if c = '\n' then ['\\', 'n']
  else if c = '\r' then ['\\', 'r']
  else if c = '\t' then ['\\', 't']
  else if c.toNat < 0x20 ∨ c = '<' ∨ c = '>' ∨ c = '&' ∨ c.toNat = 0x2028 ∨ c.toNat = 0x2029 then
    '\\' :: 'u' :: hex4 c.toNat
  else [c]

/-- The JSON text of a string. A `String` is a sequence of Unicode characters,
so Go strings that are not valid UTF-8 are outside the model. -/
def jsonQuote (s : String) : List Char :=
  '"' :: (s.data.flatMap jsonEscapeChar ++ ['"'])

/-- The members of a JSON object of strings, after the opening brace; the list
is not empty. -/
def encodeMembers : List (String × String) → List Char
  | [] => []
  | (k, v) :: rest =>
    jsonQuote k ++ ':' :: (jsonQuote v ++
      (if rest.isEmpty then ['\x7d'] else ',' :: encodeMembers rest))

/-- The JSON text of an object whose members are strings, in the given order. -/
def jsonObject (members : List (String × String)) : List Char :=
  '\x7b' :: (if members.isEmpty then ['\x7d'] else encodeMembers members)

/-- Go `<` on strings, on their characters: the order of the code points, which
is the order of the UTF-8 bytes. -/
def charsLess : List Char → List Char → Bool
  | _, [] => false
  | [], _ :: _ => true
  | a :: as, b :: bs =>
    if a.toNat < b.toNat then true
    else if b.toNat < a.toNat then false
    else charsLess as bs

/-- One member put in its place among members sorted by key. -/
def insertMember (kv : String × GoValue) : List (String × GoValue) → List (String × GoValue)
  | [] => [kv]
  | kv' :: rest =>
    if charsLess kv.1.data kv'.1.data then kv :: kv' :: rest else kv' :: insertMember kv rest

/-- The entries of a map sorted by key, the order in which `json.Marshal`
writes them. -/
def sortMembers : GoMap GoValue → GoMap GoValue
  | [] => []
  | kv :: rest => insertMember kv (sortMembers rest)

/-- The members of a map all of whose values are strings. -/
def stringMembers : GoMap GoValue → Option (List (String × String))
  | [] => some []
  | (k, .string v) :: rest =>
    match stringMembers rest with
    | some members => some ((k, v) :: members)
    | none => none
  | _ :: _ => none

/-- Library `json.Marshal` on a `map[string]interface{}` all of whose values
are strings, which are the maps `saveInteraction` passes: the members sorted
by key, without white space. A map with a value that is not a string is
outside this model and is answered by an error. -/
def jsonMarshalStrings (m : GoMap GoValue) : Except String String :=
  match stringMembers (sortMembers m) with
  | some members => .ok (String.mk (jsonObject members))
  | none => .error "json: value outside the model"

/-- The value of a hexadecimal digit, of either case. -/
def hexValue (c : Char) : Option Nat :=
  if '0' ≤ c ∧ c ≤ '9' then some (c.toNat - 48)
  else if 'a' ≤ c ∧ c ≤ 'f' then some (c.toNat - 87)
  else if 'A' ≤ c ∧ c ≤ 'F' then some (c.toNat - 55)
  else none

/-- The number written by four hexadecimal digits. -/
def getu4 (a b c d : Char) : Option Nat :=
  match hexValue a, hexValue b, hexValue c, hexValue d with
  | some x, some y, some z, some w => some (((x * 16 + y) * 16 + z) * 16 + w)
  | _, _, _, _ => none

/-- The low surrogate written `\uXXXX` at the head of a text, if there is one. -/
def lowSurrogate (cs : List Char) : Option Nat :=
  match cs with
  | b₁ :: b₂ :: a :: b :: c :: d :: _ =>
    if b₁ = '\\' ∧ b₂ = 'u' then
      match getu4 a b c d with
      | some m => if 0xDC00 ≤ m ∧ m < 0xE000 then some m else none
      | none => none
    else none
  | _ => none

/-- The escape that follows a backslash in a JSON string: the character it
stands for and the number of characters it takes. A `\uXXXX` that is a
surrogate stands with the low surrogate that follows it for one character, and
alone for U+FFFD. -/
def decodeEscape (rest : List Char) : Option (Char × Nat) :=
  match rest with
  | [] => none
  | e :: rest =>
    if e = '"' then some ('"', 1)
    else if e = '\\' then some ('\\', 1)
    else if e = '/' then some ('/', 1)
    else if e = 'b' then some ('\x08', 1)
    else if e = 'f' then some ('\x0c', 1)
    else if e = 'n' then some ('\n', 1)
    else if e = 'r' then some ('\r', 1)
    else if e = 't' then some ('\t', 1)
    else if e = 'u' then
      match rest with
      | a :: b :: c :: d :: rest =>
        match getu4 a b c d with
        | none => none
        | some n =>
          if 0xD800 ≤ n ∧ n < 0xE000 then
            match (if n < 0xDC00 then lowSurrogate rest else none) with
            | some m =>
              some (Char.ofNat (0x10000 + (n - 0xD800) * 0x400 + (m - 0xDC00)), 11)
            | none => some (Char.ofNat 0xFFFD, 5)
          else some (Char.ofNat n, 5)
      | _ => none
    else none

/-- A JSON string read from after its opening quote, `skip` characters of an
escape still to pass over: the string and the text after the closing quote. A
control character inside the string, or an unknown escape, is a syntax error. -/
def unquoteBody : List Char → Nat → List Char → Option (String × List Char)
  | [], _, _ => none
  | _ :: rest, skip + 1, acc => unquoteBody rest skip acc
  | c :: rest, 0, acc =>
    if c = '"' then some (String.mk acc, rest)
    else if c = '\\' then
      match decodeEscape rest with
      | none => none
      | some (decoded, skip) => unquoteBody rest skip (acc ++ [decoded])
    else if c.toNat < 0x20 then none
    else unquoteBody rest 0 (acc ++ [c])

/-- JSON white space passed over. -/
def skipSpace : List Char → List Char
  | [] => []
  | c :: cs => if c = ' ' ∨ c = '\t' ∨ c = '\r' ∨ c = '\n' then skipSpace cs else c :: cs

/-- The decimal digits at the head of a text, and the text after them. -/
def takeDigits : List Char → List Char × List Char
  | [] => ([], [])
  | c :: cs =>
    if '0' ≤ c ∧ c ≤ '9' then (c :: (takeDigits cs).1, (takeDigits cs).2) else ([], c :: cs)

/-- The text after the literal `lit`, when the text starts with it. -/
def dropLiteral : List Char → List Char → Option (List Char)
  | [], cs => some cs
  | _ :: _, [] => none
  | l :: lit, c :: cs => if l = c then dropLiteral lit cs else none

/-- The optional fraction of a JSON number passed over. -/
def scanFraction (cs : List Char) : Option (List Char) :=
  match cs with
  | [] => some []
  | c :: rest =>
    if c = '.' then
      if (takeDigits rest).1 = [] then none else some (takeDigits rest).2
    else some (c :: rest)

/-- The optional exponent of a JSON number passed over. -/
def scanExponent (cs : List Char) : Option (List Char) :=
  match cs with
  | [] => some []
  | c :: rest =>
    if c = 'e' ∨ c = 'E' then
      let rest :=
        match rest with
        | [] => []
        | s :: rest' => if s = '+' ∨ s = '-' then rest' else s :: rest'
      if (takeDigits rest).1 = [] then none else some (takeDigits rest).2
    else some (c :: rest)

/-- A JSON number at the head of a text. The payload kept is its integer part:
the embedded code never inspects the payload of a number. -/
def scanNumber (cs : List Char) : Option (GoValue × List Char) :=
  let negative := cs.head? = some '-'
  let cs := if negative then cs.tail else cs
  let ds := (takeDigits cs).1
  if ds = [] ∨ (ds.head? = some '0' ∧ 1 < ds.length) then none
  else
    match parseDigits ds 0 with
    | none => none
    | some n =>
      match scanFraction (takeDigits cs).2 with
      | none => none
      | some rest =>
        match scanExponent rest with
        | none => none
        | some rest => some (.number (if negative then -(n : Int) else n), rest)

/-- What the JSON reader is about to read: a value, the members of an object
after those in `acc`, or the elements of an array after those in `acc`. -/
inductive ParseTask where
  | value
  | members (acc : List (String × GoValue))
  | elements (acc : List GoValue)

/-- The JSON grammar: the value read at the head of a text and the text after
it, `none` on a syntax error. `fuel` bounds the number of steps; every step
takes at least one character. -/
def parseJson : Nat → ParseTask → List Char → Option (GoValue × List Char)
  | 0, _, _ => none
  | fuel + 1, .value, cs =>
    match skipSpace cs with
    | [] => none
    | c :: rest =>
      if c = '"' then
        match unquoteBody rest 0 [] with
        | none => none
        | some (s, rest) => some (.string s, rest)
      else if c = '\x7b' then
        match skipSpace rest with
        | [] => none
        | d :: rest' =>
          if d = '\x7d' then some (.map [], rest')
          else parseJson fuel (.members []) (d :: rest')
      else if c = '[' then
        match skipSpace rest with
        | [] => none
        | d :: rest' =>
          if d = ']' then some (.slice [], rest')
          else parseJson fuel (.elements []) (d :: rest')
      else if c = 't' then
        match dropLiteral ['r', 'u', 'e'] rest with
        | none => none
        | some rest => some (.bool true, rest)
      else if c = 'f' then
        match dropLiteral ['a', 'l', 's', 'e'] rest with
        | none => none
        | some rest => some (.bool false, rest)
      else if c = 'n' then
        match dropLiteral ['u', 'l', 'l'] rest with
        | none => none
        | some rest => some (.null, rest)
      else scanNumber (c :: rest)
  | fuel + 1, .members acc, cs =>
    match skipSpace cs with
    | [] => none
    | c :: rest =>
      if c = '"' then
        match unquoteBody rest 0 [] with
        | none => none
        | some (key, rest) =>
          match skipSpace rest with
          | [] => none
          | d :: rest =>
            if d = ':' then
              match parseJson fuel .value rest with
              | none => none
              | some (v, rest) =>
                match skipSpace rest with
                | [] => none
                | e :: rest =>
                  if e = ',' then parseJson fuel (.members (acc ++ [(key, v)])) rest
                  else if e = '\x7d' then some (.map (acc ++ [(key, v)]), rest)
                  else none
            else none
      else none
  | fuel + 1, .elements acc, cs =>
    match parseJson fuel .value cs with
    | none => none
    | some (v, rest) =>
      match skipSpace rest with
      | [] => none
      | e :: rest =>
        if e = ',' then parseJson fuel (.elements (acc ++ [v])) rest
        else if e = ']' then some (.slice (acc ++ [v]), rest)
        else none

/-- The JSON value of a text, `none` when the text is not one JSON value
between optional white space: the grammar `json.Unmarshal` checks before
it decodes. -/
def jsonParse (text : String) : Option GoValue :=
  match parseJson (text.length + 1) .value text.data with
  | none => none
  | some (v, rest) => if skipSpace rest = [] then some v else none

/-- The records `loadInteractionHistory` reads from the files of `files` that
it selects, in order; a file is given by its name and its lines. -/
def selectedRecords (unmarshal : String → Except String Interaction)
    (todayEpochDay maxDays : Int) (files : List (String × List String)) : List Interaction :=
  (files.filter fun f => partitionSelected todayEpochDay maxDays f.1).flatMap
    fun f => recordsOfLines unmarshal f.2

/-! ## Concrete inputs -/

/-- The spec scenario descriptor `balance` with one string parameter `account`. -/
def balanceTool : McpTool :=
  { Name := "balance"
    Description := "query the balance of an account"
    InputSchema :=
      { Typ := "object"
        Properties :=
          [("account", .map [("type", .string "string"),
                             ("description", .string "account to query")])]
        Required := some ["account"] } }

/-- A parameter object whose `enum` entry lists numbers. -/
def levelParam : GoMap GoValue :=
  [("type", .string "integer"), ("enum", .slice [.number 1, .number 2])]

/-- A descriptor with the parameter `levelParam` and a parameter that is not an object. -/
def levelTool : McpTool :=
  { Name := "setLevel"
    Description := "set the level"
    InputSchema :=
      { Typ := "object"
        Properties := [("level", .map levelParam), ("note", .string "free text")]
        Required := none } }

/-- A parameter object whose `enum` entry lists strings. -/
def denomParam : GoMap GoValue :=
  [("type", .string "string"), ("description", .number 7),
   ("enum", .slice [.string "usdc", .string "atom"])]

/-- The concatenation, in delivery order, of the content fragments of the
responses of one streamed call. -/
def concatFragments (responses : List ChatResponse) : String :=
  responses.foldl (fun answer resp => answer ++ resp.Message.Content) ""

/-- The `fmt.Print` events of the fragments of one streamed call, in delivery order. -/
def fragmentPrints (responses : List ChatResponse) : List Event :=
  responses.map fun resp => Event.print [.str resp.Message.Content]

/-- The default configuration of `NewConfig`. -/
def demoConfig : Config :=
  { OllamaHost := "http://127.0.0.1:11434"
    MCPServerPath := "./bin/swechain-mcp-server"
    ChatModel := "llama3.2:3b"
    ToolsModel := "llama3.2:3b-instruct-fp16"
    AgentName := "agent"
    AgentVersion := "1.0.0" }

/-- The spec scenario content item with the text `42usdc`. -/
def balanceContent : Content :=
  .json (.map [("type", .string "text"), ("text", .string "42usdc")])

/-- A world in which every operation succeeds: the server lists `balanceTool`,
the tool model asks for one `balance` call, the tool returns `balanceContent`
and the chat model streams two fragments. -/
def demoWorld : World Unit :=
  { LATEST_PROTOCOL_VERSION := "2024-11-05"
    Initialize := fun _ _ => (.ok { ServerInfo := { Name := "swechain", Version := "0.1.0" } }, ())
    ListTools := fun _ => (.ok [balanceTool], ())
    CallTool := fun _ _ => (.ok { Content := [balanceContent] }, ())
    Chat := fun _ req =>
      if req.Stream = some true then
        (([{ Message := { Role := "assistant", Content := "The balance " } },
           { Message := { Role := "assistant", Content := "is 42usdc" } }], none), ())
      else
        (([{ Message :=
              { Role := "assistant"
                Content := ""
                ToolCalls :=
                  [{ Function :=
                      { Name := "balance"
                        Arguments := [("account", .string "alice")] } }] } }], none), ()) }

/-- A content item that is an object without a `text` field. -/
def imageContent : GoValue :=
  .map [("type", .string "image"), ("data", .string "aGVsbG8=")]

/-- A stand-in for the JSON decoder in examples: it accepts exactly the lines
that start with an opening brace and keeps the line as the `thought`. -/
def demoUnmarshal (line : String) : Except String Interaction :=
  if line.data.head? = some '\x7b' then .ok [("thought", line)]
  else .error "invalid character looking for beginning of value"

/-- The state of the cycle in `demoWorld` after `Initialize`. -/
def demoAfterInit : RunState Unit :=
  (Initialize demoWorld demoConfig { world := (), trace := [] }).2

/-- The state of the cycle in `demoWorld` after the tool phase. -/
def demoAfterTools : RunState Unit :=
  (Chat demoWorld
    (toolRequest demoConfig "balance of alice?" (ConvertToOllamaTools [balanceTool]))
    (fun resp content st => runToolCalls demoWorld resp.Message.ToolCalls content st)
    "" demoAfterInit).2.2

/-- The two fragments the chat model of `demoWorld` streams. -/
def demoFragments : List ChatResponse :=
  [{ Message := { Role := "assistant", Content := "The balance " } },
   { Message := { Role := "assistant", Content := "is 42usdc" } }]

/-- A `balance` request of the model for `account`. -/
def balanceCall (account : String) : ToolCall :=
  { Function := { Name := "balance", Arguments := [("account", .string account)] } }

/-- A request of the model for `transfer`, a tool that no world below lists. -/
def transferCall : ToolCall :=
  { Function := { Name := "transfer", Arguments := [("amount", .string "5usdc")] } }

/-- A world whose tool server lists only `balanceTool` and answers every
invocation, whatever its name; the tool model asks for `transfer`. -/
def rogueWorld : World Unit :=
  { LATEST_PROTOCOL_VERSION := "2024-11-05"
    Initialize := fun _ _ => (.ok { ServerInfo := { Name := "swechain", Version := "0.1.0" } }, ())
    ListTools := fun _ => (.ok [balanceTool], ())
    CallTool := fun _ _ => (.ok { Content := [.json (.map [("text", .string "sent 5usdc")])] }, ())
    Chat := fun _ req =>
      if req.Stream = some true then
        (([{ Message := { Role := "assistant", Content := "done" } }], none), ())
      else
        (([{ Message := { Role := "assistant", Content := "", ToolCalls := [transferCall] } }],
          none), ()) }

/-- A world whose tool server lists only `balanceTool` and rejects every other
name; the tool model asks for `balance`, then `transfer`, then `balance`. -/
def strictWorld : World Unit :=
  { LATEST_PROTOCOL_VERSION := "2024-11-05"
    Initialize := fun _ _ => (.ok { ServerInfo := { Name := "swechain", Version := "0.1.0" } }, ())
    ListTools := fun _ => (.ok [balanceTool], ())
    CallTool := fun _ req =>
      if req.Name = "balance" then (.ok { Content := [balanceContent] }, ())
      else (.error ("tool not found: " ++ req.Name), ())
    Chat := fun _ req =>
      if req.Stream = some true then
        (([{ Message := { Role := "assistant", Content := "done" } }], none), ())
      else
        (([{ Message :=
              { Role := "assistant"
                Content := ""
                ToolCalls := [balanceCall "alice", transferCall, balanceCall "bob"] } }],
          none), ()) }

/-- The content of a result by which a tool handler reports its own failure,
as `mcp.NewToolResultError("exit status 1")` builds it. -/
def errorContent : Content :=
  .json (.map [("type", .string "text"), ("text", .string "exit status 1")])

/-- The response of the tool model of `inbandWorld`. -/
def inbandToolResponse : ChatResponse :=
  { Message :=
      { Role := "assistant"
        Content := ""
        ToolCalls := [balanceCall "alice", balanceCall "nobody", balanceCall "bob"] } }

/-- A world whose tool server answers as the server of this repository does:
the handler of `balance` fails for the account `nobody` and reports it inside
its result, with `IsError` set and no error of the call. The tool model asks
for the balances of `alice`, `nobody` and `bob`. -/
def inbandWorld : World Unit :=
  { LATEST_PROTOCOL_VERSION := "2024-11-05"
    Initialize := fun _ _ => (.ok { ServerInfo := { Name := "swechain", Version := "0.1.0" } }, ())
    ListTools := fun _ => (.ok [balanceTool], ())
    CallTool := fun _ req =>
      match GoMap.get req.Arguments "account" with
      | some (.string "nobody") => (.ok { Content := [errorContent], IsError := true }, ())
      | _ => (.ok { Content := [balanceContent] }, ())
    Chat := fun _ req =>
      if req.Stream = some true then
        (([{ Message := { Role := "assistant", Content := "done" } }], none), ())
      else (([inbandToolResponse], none), ()) }

/-- The response of the tool model of `demoWorld`. -/
def demoToolResponse : ChatResponse :=
  { Message := { Role := "assistant", Content := "", ToolCalls := [balanceCall "alice"] } }

/-- The response of the tool model of `strictWorld`. -/
def strictToolResponse : ChatResponse :=
  { Message :=
      { Role := "assistant"
        Content := ""
        ToolCalls := [balanceCall "alice", transferCall, balanceCall "bob"] } }

/-- The server information every world above answers the handshake with. -/
def demoInitResult : InitializeResult :=
  { ServerInfo := { Name := "swechain", Version := "0.1.0" } }

/-- The errors (`none` for nil) that `n` successive calls of the backend with
the request `req` end with, from the state `s` on. -/
def chatAttempts {σ : Type} (w : World σ) (req : ChatRequest) : Nat → σ → List (Option String)
  | 0, _ => []
  | n + 1, s =>
    match w.Chat s req with
    | ((_, err), s') => err :: chatAttempts w req n s'

/-- The responses the backend delivers to the callback in the call number
`n + 1` of successive calls with the request `req`, from the state `s` on. -/
def attemptResponses {σ : Type} (w : World σ) (req : ChatRequest) : Nat → σ → List ChatResponse
  | 0, s => (w.Chat s req).1.1
  | n + 1, s => attemptResponses w req n (w.Chat s req).2

/-- The concatenation of the content fragments the backend delivers in `n`
successive calls with the request `req`, from the state `s` on. -/
def deliveredFragments {σ : Type} (w : World σ) (req : ChatRequest) : Nat → σ → String
  | 0, _ => ""
  | n + 1, s =>
    concatFragments (w.Chat s req).1.1 ++ deliveredFragments w req n (w.Chat s req).2

/-- The thought of the example record, with quotes and a newline. -/
def demoThought : String := "say \"hi\"\nnow"

/-- The line of the example record, as `json.Marshal` writes it. -/
def demoLine : String :=
  "\x7b\"action\":\"a\",\"address\":\"cosmos1alice\",\"agent\":\"alice\",\"observation\":\"o\",\"thought\":\"say \\\"hi\\\"\\nnow\",\"timestamp\":\"2024-03-19T01:00:00Z\"\x7d"

/-- An example line with known fields and, between them, the unknown field
`retries`, a number. -/
def retriesLine : String :=
  "\x7b\"action\":\"a\",\"observation\":\"o\",\"retries\":3,\"thought\":\"t\"\x7d"

/-- An example line with known fields and, between them, the unknown field
`note`, a string. -/
def noteLine : String :=
  "\x7b\"action\":\"a\",\"note\":\"n\",\"observation\":\"o\",\"thought\":\"t\"\x7d"

/-- An environment for examples: the agent `alice`, a clock that stands at
2024-03-19T01:00:00Z (epoch day 19801), no failure of `os.MkdirAll`, and
open-and-write attempts that succeed. -/
def demoEnv : Agent3Env :=
  { agentName := "alice"
    cosmosAddress := "cosmos1alice"
    DSPY_NUM_PARALLEL := ""
    TOOLS_LLM := none
    rfc3339 := fun _ => "2024-03-19T01:00:00Z"
    marshal := jsonMarshalStrings
    parse := jsonParse
    clock := fun _ => 1710810000
    mkdirErr := fun _ => none
    attemptOutcome := fun _ _ => .succeeds }

/-- The empty store, whose directory exists. -/
def emptyStore : Store := { present := true, files := [] }

/-- A world whose model backend refuses every call. -/
def downWorld : World Unit :=
  { LATEST_PROTOCOL_VERSION := "2024-11-05"
    Initialize := fun _ _ => (.ok demoInitResult, ())
    ListTools := fun _ => (.ok [balanceTool], ())
    CallTool := fun _ _ => (.ok { Content := [balanceContent] }, ())
    Chat := fun _ _ => (([], some "connection refused"), ()) }

/-- A world whose state counts the calls of the model backend: the first two
deliver a fragment and then fail, the later ones succeed. -/
def flakyWorld : World Nat :=
  { LATEST_PROTOCOL_VERSION := "2024-11-05"
    Initialize := fun s _ => (.ok demoInitResult, s)
    ListTools := fun s => (.ok [balanceTool], s)
    CallTool := fun s _ => (.ok { Content := [balanceContent] }, s)
    Chat := fun s _ =>
      if s < 2 then
        (([{ Message := { Role := "assistant", Content := "I thi" } }],
          some "unexpected EOF"), s + 1)
      else
        (([{ Message := { Role := "assistant", Content := "check the balance" } }], none),
          s + 1) }

/-- The state of the process at its start, on the empty store. -/
def demoProc {σ : Type} (world : σ) : ProcState σ :=
  { run := { world := world, trace := [] }, store := emptyStore, ticks := 0 }

/-- Open-and-write attempts of which the first fails at the open, the second
fails in the write after four characters, and the later ones succeed. -/
def demoOutcome (attempt : Nat) : AttemptOutcome :=
  if attempt = 0 then .openFails "too many open files"
  else if attempt = 1 then .writeFails "no space left on device" "\x7b\"ac"
  else .succeeds

/-- The record `loadInteractionHistory` decodes from the line of
`interactionOf`: its members sorted by key, as `json.Marshal` writes them. -/
def recordOf (env : Agent3Env) (now : Int) (thought action observation : String) :
    Interaction :=
  [("action", action),
   ("address", env.cosmosAddress),
   ("agent", env.agentName),
   ("observation", observation),
   ("thought", thought),
   ("timestamp", env.rfc3339 now)]

/-- Open-and-write attempts of which the first fails in the write after four
characters and the later ones succeed. -/
def tornOutcome (attempt : Nat) : AttemptOutcome :=
  if attempt = 0 then .writeFails "no space left on device" "\x7b\"ac" else .succeeds

/-- Open-and-write attempts of which the first fails at the open and the later
ones succeed. -/
def retryOutcome (attempt : Nat) : AttemptOutcome :=
  if attempt = 0 then .openFails "too many open files" else .succeeds

/-- A world of the long-running agent whose model backend answers and whose
tool server starts but fails the handshake. -/
def deadServer : Agent3World Unit :=
  { LATEST_PROTOCOL_VERSION := "2024-11-05"
    Initialize := fun _ _ => (.error "transport error: connection closed", ())
    ListTools := fun _ => (.ok [balanceTool], ())
    CallTool := fun _ _ => (.ok { Content := [balanceContent] }, ())
    Chat := fun _ _ =>
      (([{ Message := { Role := "assistant", Content := "check the balance" } }], none), ())
    NewStdioMCPClient := fun _ _ => (none, ()) }

/-- A world of the long-running agent whose tool server is that of
`inbandWorld`. -/
def inbandServer : Agent3World Unit :=
  { toWorld := inbandWorld, NewStdioMCPClient := fun _ _ => (none, ()) }

/-! ## Theorems -/

/-! ### Maps -/

theorem GoMap.get_set_self {β : Type} (m : GoMap β) (k : String) (v : β) :
    (m.set k v).get k = some v := by
  induction m with
  | nil => simp [GoMap.set, GoMap.get]
  | cons e rest ih =>
    obtain ⟨k', v'⟩ := e
    by_cases h : k' = k
    · simp [GoMap.set, GoMap.get, h]
    · simp [GoMap.set, GoMap.get, h, ih]

theorem GoMap.get_set_ne {β : Type} (m : GoMap β) (k k' : String) (v : β) (h : k ≠ k') :
    (m.set k v).get k' = m.get k' := by
  induction m with
  | nil => simp [GoMap.set, GoMap.get, h]
  | cons e rest ih =>
    obtain ⟨k₀, v₀⟩ := e
    by_cases h₀ : k₀ = k
    · subst h₀
      simp [GoMap.set, GoMap.get, h]
    · by_cases h₁ : k₀ = k'
      · subst h₁
        simp [GoMap.set, GoMap.get, h₀]
      · simp [GoMap.set, GoMap.get, h₀, h₁, ih]

theorem GoMap.get_eq_none_of_not_mem {β : Type} (m : GoMap β) (k : String)
    (h : k ∉ GoMap.keys m) : m.get k = none := by
  induction m with
  | nil => rfl
  | cons e rest ih =>
    obtain ⟨k', v'⟩ := e
    simp only [GoMap.keys, List.map_cons, List.mem_cons, not_or] at h
    have hne : ¬ k' = k := fun hk => h.1 hk.symm
    simp only [GoMap.get, hne, if_false]
    exact ih h.2

theorem GoMap.get_of_mem {β : Type} (m : GoMap β) (hwf : GoMap.WF m) (k : String) (v : β)
    (h : (k, v) ∈ m) : m.get k = some v := by
  induction m with
  | nil => simp at h
  | cons e rest ih =>
    obtain ⟨k', v'⟩ := e
    simp only [GoMap.WF, GoMap.keys, List.map_cons, List.nodup_cons] at hwf
    rcases List.mem_cons.mp h with heq | hmem
    · cases heq
      simp [GoMap.get]
    · have hk : k ∈ GoMap.keys rest := List.mem_map.mpr ⟨(k, v), hmem, rfl⟩
      have hne : ¬ k' = k := fun hk' => hwf.1 (by rw [hk']; exact hk)
      simp only [GoMap.get, hne, if_false]
      exact ih hwf.2 hmem

theorem GoMap.mem_of_get {β : Type} (m : GoMap β) (k : String) (v : β)
    (h : m.get k = some v) : (k, v) ∈ m := by
  induction m with
  | nil => simp [GoMap.get] at h
  | cons e rest ih =>
    obtain ⟨k', v'⟩ := e
    by_cases hk : k' = k
    · simp only [GoMap.get, hk, if_true, Option.some.injEq] at h
      simp [hk, h]
    · simp only [GoMap.get, hk, if_false] at h
      exact List.mem_cons_of_mem _ (ih h)

/-! ### `core/tools.go` -/

theorem get_foldl_convertStep (props : GoMap GoValue) (hwf : GoMap.WF props)
    (acc : GoMap OllamaProperty) (name : String) :
    (props.foldl convertStep acc).get name =
      match props.get name with
      | some (.map propMap) => some (convertProperty propMap)
      | _ => acc.get name := by
  induction props generalizing acc with
  | nil => simp [GoMap.get]
  | cons e rest ih =>
    obtain ⟨k, v⟩ := e
    simp only [GoMap.WF, GoMap.keys, List.map_cons, List.nodup_cons] at hwf
    rw [List.foldl_cons, ih hwf.2]
    by_cases hk : k = name
    · subst hk
      rw [GoMap.get_eq_none_of_not_mem rest k hwf.1]
      cases v <;> simp [GoMap.get, convertStep, GoMap.get_set_self]
    · simp only [GoMap.get, hk, if_false]
      have : (convertStep acc (k, v)).get name = acc.get name := by
        cases v <;> simp [convertStep, GoMap.get_set_ne _ _ _ _ hk]
      rw [this]

theorem get_convertProperties (props : GoMap GoValue) (hwf : GoMap.WF props) (name : String) :
    (convertProperties props).get name = translatedEntry props name := by
  unfold convertProperties translatedEntry
  rw [get_foldl_convertStep props hwf]
  cases props.get name with
  | none => rfl
  | some v => cases v <;> rfl

theorem GoMap.mem_keys_iff_get {β : Type} (m : GoMap β) (k : String) :
    k ∈ GoMap.keys m ↔ ∃ v, m.get k = some v := by
  constructor
  · intro h
    cases hg : m.get k with
    | some v => exact ⟨v, rfl⟩
    | none =>
      exfalso
      induction m with
      | nil => simp [GoMap.keys] at h
      | cons e rest ih =>
        obtain ⟨k', v'⟩ := e
        by_cases hk : k' = k
        · simp [GoMap.get, hk] at hg
        · simp only [GoMap.get, hk, if_false] at hg
          simp only [GoMap.keys, List.map_cons, List.mem_cons] at h
          rcases h with h | h
          · exact hk h.symm
          · exact ih h hg
  · rintro ⟨v, hv⟩
    exact List.mem_map.mpr ⟨(k, v), GoMap.mem_of_get m k v hv, rfl⟩

theorem collectEnum_eq (enum : Option (List String)) (xs : List GoValue) :
    collectEnum enum xs =
      match stringsOf xs with
      | [] => enum
      | s :: ss => some (sliceElems enum ++ s :: ss) := by
  induction xs generalizing enum with
  | nil => rfl
  | cons x rest ih =>
    cases x with
    | string str =>
      simp only [collectEnum, stringsOf]
      rw [ih]
      cases stringsOf rest <;> simp [appendStr, sliceElems]
    | null => simpa [collectEnum, stringsOf] using ih enum
    | bool b => simpa [collectEnum, stringsOf] using ih enum
    | number n => simpa [collectEnum, stringsOf] using ih enum
    | slice ys => simpa [collectEnum, stringsOf] using ih enum
    | map m => simpa [collectEnum, stringsOf] using ih enum

theorem stringsOf_eq_nil_iff (xs : List GoValue) :
    stringsOf xs = [] ↔ ∀ s, GoValue.string s ∉ xs := by
  induction xs with
  | nil => simp [stringsOf]
  | cons x rest ih =>
    cases x with
    | string str =>
      constructor
      · intro h
        simp [stringsOf] at h
      · intro h
        exact absurd (List.mem_cons_self _ _) (h str)
    | null => simp [stringsOf, ih]
    | bool b => simp [stringsOf, ih]
    | number n => simp [stringsOf, ih]
    | slice ys => simp [stringsOf, ih]
    | map m => simp [stringsOf, ih]

theorem stringsOf_map_string (ss : List String) :
    stringsOf (ss.map GoValue.string) = ss := by
  induction ss with
  | nil => rfl
  | cons s rest ih => simp [stringsOf, ih]

theorem convertProperty_enum_slice (propMap : GoMap GoValue) (enumRaw : List GoValue)
    (h : propMap.get "enum" = some (.slice enumRaw)) :
    (convertProperty propMap).Enum =
      if stringsOf enumRaw = [] then none else some (stringsOf enumRaw) := by
  unfold convertProperty
  simp only [h, collectEnum_eq]
  cases stringsOf enumRaw <;> simp [sliceElems]

theorem convertProperty_enum_other (propMap : GoMap GoValue)
    (h : ∀ enumRaw, propMap.get "enum" ≠ some (.slice enumRaw)) :
    (convertProperty propMap).Enum = none := by
  unfold convertProperty
  cases hg : propMap.get "enum" with
  | none => rfl
  | some v =>
    cases v with
    | slice enumRaw => exact absurd hg (h enumRaw)
    | null => rfl
    | bool b => rfl
    | number n => rfl
    | string s => rfl
    | map m => rfl

/-- C1: `ConvertToOllamaTools` returns a list of the same length, and at every
index the function name, description and required list of the entry are those
of the input descriptor at that index. -/
theorem convertToOllamaTools_preserves (tools : List McpTool) :
    (ConvertToOllamaTools tools).length = tools.length ∧
    ∀ i : Nat,
      ((ConvertToOllamaTools tools)[i]?).map
          (fun t => (t.Function.Name, t.Function.Description, t.Function.Parameters.Required)) =
        (tools[i]?).map (fun d => (d.Name, d.Description, d.InputSchema.Required)) := by
  refine ⟨by simp [ConvertToOllamaTools], fun i => ?_⟩
  simp only [ConvertToOllamaTools, List.getElem?_map]
  cases tools[i]? <;> rfl

theorem translatedProperties_get (tools : List McpTool) (i : Nat) (tool : McpTool)
    (htool : tools[i]? = some tool) (hwf : GoMap.WF tool.InputSchema.Properties)
    (name : String) :
    (translatedProperties tools i).bind (fun ps => ps.get name) =
      translatedEntry tool.InputSchema.Properties name := by
  simp only [translatedProperties, ConvertToOllamaTools, List.getElem?_map, htool,
    Option.map_some', Option.some_bind]
  exact get_convertProperties _ hwf name

/-- C2 (as stated) fails: the parameter `level` of `levelTool` has an `enum`
entry, a list of numbers, and its translation has no enumerated-values field. -/
theorem enum_absent_iff_counterexample :
    (translatedProperties [levelTool] 0).bind (fun ps => ps.get "level") =
        some { Typ := "integer", Description := "", Enum := none } ∧
      ¬ ((convertProperty levelParam).Enum = none ↔ GoMap.get levelParam "enum" = none) := by
  constructor
  · rfl
  · simp [convertProperty, levelParam, GoMap.get, collectEnum]

/-- C2 (amended): for every object-valued parameter of a descriptor, the
translated parameter exists, its `Enum` is never the empty list, and `Enum` is
absent exactly when the input `enum` entry is missing, is not a list, or is a
list without any string element; in particular it is absent when the input has
no `enum` entry. -/
theorem enum_absent_iff (tools : List McpTool) (i : Nat) (tool : McpTool) (name : String)
    (propMap : GoMap GoValue) (htool : tools[i]? = some tool)
    (hwf : GoMap.WF tool.InputSchema.Properties)
    (hparam : (name, GoValue.map propMap) ∈ tool.InputSchema.Properties) :
    ∃ p : OllamaProperty,
      (translatedProperties tools i).bind (fun ps => ps.get name) = some p ∧
      p.Enum ≠ some [] ∧
      (p.Enum = none ↔
        ∀ enumRaw, propMap.get "enum" = some (.slice enumRaw) →
          ∀ s, GoValue.string s ∉ enumRaw) ∧
      (propMap.get "enum" = none → p.Enum = none) := by
  refine ⟨convertProperty propMap, ?_, ?_, ?_, ?_⟩
  · rw [translatedProperties_get tools i tool htool hwf, translatedEntry,
      GoMap.get_of_mem _ hwf _ _ hparam]
  · by_cases h : ∃ enumRaw, propMap.get "enum" = some (.slice enumRaw)
    · obtain ⟨enumRaw, he⟩ := h
      rw [convertProperty_enum_slice propMap enumRaw he]
      split_ifs with hs
      · simp
      · intro hc
        exact hs (Option.some.inj hc)
    · rw [convertProperty_enum_other propMap (fun xs hx => h ⟨xs, hx⟩)]
      simp
  · by_cases h : ∃ enumRaw, propMap.get "enum" = some (.slice enumRaw)
    · obtain ⟨enumRaw, he⟩ := h
      rw [convertProperty_enum_slice propMap enumRaw he]
      constructor
      · intro hn xs hxs
        rw [he] at hxs
        cases hxs
        apply (stringsOf_eq_nil_iff enumRaw).mp
        by_contra hs
        simp [hs] at hn
      · intro hall
        simp [(stringsOf_eq_nil_iff enumRaw).mpr (hall enumRaw he)]
    · rw [convertProperty_enum_other propMap (fun xs hx => h ⟨xs, hx⟩)]
      simp only [true_iff]
      intro xs hxs
      exact absurd ⟨xs, hxs⟩ h
  · intro h
    exact convertProperty_enum_other propMap (fun xs hx => by simp [h] at hx)

/-- C2 (amended), applied to the parameter `level` of `levelTool`. -/
theorem enum_absent_iff_witness :
    ∃ p : OllamaProperty,
      (translatedProperties [levelTool] 0).bind (fun ps => ps.get "level") = some p ∧
      p.Enum ≠ some [] ∧
      (p.Enum = none ↔
        ∀ enumRaw, GoMap.get levelParam "enum" = some (.slice enumRaw) →
          ∀ s, GoValue.string s ∉ enumRaw) ∧
      (GoMap.get levelParam "enum" = none → p.Enum = none) :=
  enum_absent_iff [levelTool] 0 levelTool "level" levelParam rfl (by decide)
    (by simp [levelTool])

theorem get_convertProperties_of_mem (props : GoMap GoValue) (hwf : GoMap.WF props)
    (name : String) (propMap : GoMap GoValue) (h : (name, GoValue.map propMap) ∈ props) :
    (convertProperties props).get name = some (convertProperty propMap) := by
  rw [get_convertProperties props hwf, translatedEntry, GoMap.get_of_mem props hwf _ _ h]

/-- C3: `convertProperties` is total, and on a property mapping the names of
the result are exactly the input names bound to an object; every object-valued
entry is translated and every other entry (string, number, list, null) is
left out. -/
theorem convertProperties_names (props : GoMap GoValue) (hwf : GoMap.WF props) :
    (∀ name, name ∈ GoMap.keys (convertProperties props) ↔
        ∃ propMap, (name, GoValue.map propMap) ∈ props) ∧
    (∀ name propMap, (name, GoValue.map propMap) ∈ props →
        (convertProperties props).get name = some (convertProperty propMap)) ∧
    (∀ name v, (name, v) ∈ props → (∀ propMap, v ≠ GoValue.map propMap) →
        (convertProperties props).get name = none) := by
  refine ⟨fun name => ?_, fun name propMap h => ?_, fun name v h hv => ?_⟩
  · rw [GoMap.mem_keys_iff_get, get_convertProperties props hwf, translatedEntry]
    constructor
    · rintro ⟨p, hp⟩
      cases hg : props.get name with
      | none => simp [hg] at hp
      | some v =>
        cases v with
        | map propMap => exact ⟨propMap, GoMap.mem_of_get props name _ hg⟩
        | null => simp [hg] at hp
        | bool b => simp [hg] at hp
        | number n => simp [hg] at hp
        | string s => simp [hg] at hp
        | slice xs => simp [hg] at hp
    · rintro ⟨propMap, hmem⟩
      exact ⟨convertProperty propMap, by rw [GoMap.get_of_mem props hwf _ _ hmem]⟩
  · rw [get_convertProperties props hwf, translatedEntry, GoMap.get_of_mem props hwf _ _ h]
  · rw [get_convertProperties props hwf, translatedEntry, GoMap.get_of_mem props hwf _ _ h]
    cases v with
    | map propMap => exact absurd rfl (hv propMap)
    | null => rfl
    | bool b => rfl
    | number n => rfl
    | string s => rfl
    | slice xs => rfl

/-- C3 on the properties of `levelTool`: `level` is an object, `note` is a string. -/
theorem convertProperties_names_witness :
    (∀ name, name ∈ GoMap.keys (convertProperties levelTool.InputSchema.Properties) ↔
        ∃ propMap, (name, GoValue.map propMap) ∈ levelTool.InputSchema.Properties) ∧
    (∀ name propMap, (name, GoValue.map propMap) ∈ levelTool.InputSchema.Properties →
        (convertProperties levelTool.InputSchema.Properties).get name =
          some (convertProperty propMap)) ∧
    (∀ name v, (name, v) ∈ levelTool.InputSchema.Properties →
        (∀ propMap, v ≠ GoValue.map propMap) →
        (convertProperties levelTool.InputSchema.Properties).get name = none) :=
  convertProperties_names levelTool.InputSchema.Properties (by decide)

theorem getString_of_string (m : GoMap GoValue) (key s : String)
    (h : m.get key = some (.string s)) : getString m key = s := by
  simp [getString, h]

theorem getString_of_not_string (m : GoMap GoValue) (key : String)
    (h : ∀ s, m.get key ≠ some (.string s)) : getString m key = "" := by
  unfold getString
  cases hg : m.get key with
  | none => rfl
  | some v =>
    cases v with
    | string s => exact absurd hg (h s)
    | null => rfl
    | bool b => rfl
    | number n => rfl
    | slice xs => rfl
    | map m => rfl

theorem convertProperty_fields (propMap : GoMap GoValue) :
    (convertProperty propMap).Typ = getString propMap "type" ∧
    (convertProperty propMap).Description = getString propMap "description" := by
  unfold convertProperty
  cases propMap.get "enum" with
  | none => exact ⟨rfl, rfl⟩
  | some v => cases v <;> exact ⟨rfl, rfl⟩

/-- C4: for every object-valued parameter the translated type and description
are the strings under `type` and `description` of the input object, and are the
empty string when that entry is missing or is not a string. -/
theorem convertProperties_type_description (props : GoMap GoValue) (hwf : GoMap.WF props)
    (name : String) (propMap : GoMap GoValue) (hparam : (name, GoValue.map propMap) ∈ props) :
    ∃ p : OllamaProperty, (convertProperties props).get name = some p ∧
      (∀ s, propMap.get "type" = some (.string s) → p.Typ = s) ∧
      ((∀ s, propMap.get "type" ≠ some (.string s)) → p.Typ = "") ∧
      (∀ s, propMap.get "description" = some (.string s) → p.Description = s) ∧
      ((∀ s, propMap.get "description" ≠ some (.string s)) → p.Description = "") := by
  refine ⟨convertProperty propMap, get_convertProperties_of_mem props hwf name propMap hparam,
    ?_, ?_, ?_, ?_⟩
  · intro s h
    rw [(convertProperty_fields propMap).1, getString_of_string _ _ _ h]
  · intro h
    rw [(convertProperty_fields propMap).1, getString_of_not_string _ _ h]
  · intro s h
    rw [(convertProperty_fields propMap).2, getString_of_string _ _ _ h]
  · intro h
    rw [(convertProperty_fields propMap).2, getString_of_not_string _ _ h]

/-- C4 on `denomParam`, whose `type` is a string and whose `description` is a number. -/
theorem convertProperties_type_description_witness :
    ∃ p : OllamaProperty,
      (convertProperties [("denom", GoValue.map denomParam)]).get "denom" = some p ∧
      (∀ s, GoMap.get denomParam "type" = some (.string s) → p.Typ = s) ∧
      ((∀ s, GoMap.get denomParam "type" ≠ some (.string s)) → p.Typ = "") ∧
      (∀ s, GoMap.get denomParam "description" = some (.string s) → p.Description = s) ∧
      ((∀ s, GoMap.get denomParam "description" ≠ some (.string s)) → p.Description = "") :=
  convertProperties_type_description [("denom", GoValue.map denomParam)] (by decide)
    "denom" denomParam (by simp)

/-- C5: when the `enum` entry of an object-valued parameter is a list of
strings, the translated enumerated values are that list, same elements in the
same order (for a non-empty list the `Enum` slice is exactly that list). -/
theorem convertProperties_enum_strings (props : GoMap GoValue) (hwf : GoMap.WF props)
    (name : String) (propMap : GoMap GoValue) (values : List String)
    (hparam : (name, GoValue.map propMap) ∈ props)
    (henum : propMap.get "enum" = some (.slice (values.map GoValue.string))) :
    ∃ p : OllamaProperty, (convertProperties props).get name = some p ∧
      sliceElems p.Enum = values ∧ (values ≠ [] → p.Enum = some values) := by
  refine ⟨convertProperty propMap, get_convertProperties_of_mem props hwf name propMap hparam,
    ?_, ?_⟩
  · rw [convertProperty_enum_slice propMap _ henum, stringsOf_map_string]
    split_ifs with h
    · simp [sliceElems, h]
    · simp [sliceElems]
  · intro hne
    rw [convertProperty_enum_slice propMap _ henum, stringsOf_map_string]
    simp [hne]

/-- C5 on `denomParam`, whose `enum` is `["usdc", "atom"]`. -/
theorem convertProperties_enum_strings_witness :
    ∃ p : OllamaProperty,
      (convertProperties [("denom", GoValue.map denomParam)]).get "denom" = some p ∧
      sliceElems p.Enum = ["usdc", "atom"] ∧
      (["usdc", "atom"] ≠ [] → p.Enum = some ["usdc", "atom"]) :=
  convertProperties_enum_strings [("denom", GoValue.map denomParam)] (by decide)
    "denom" denomParam ["usdc", "atom"] (by simp) (by rfl)

/-! ### `core/cognition.go` -/

/-- C8: for every content item whose JSON form is an object with a
string-valued `text` field `s`, whatever its other fields, `ExtractTextContent`
returns `s` and no error. -/
theorem extractTextContent_text (m : GoMap GoValue) (s : String)
    (h : m.get "text" = some (.string s)) :
    ExtractTextContent (.json (.map m)) = .ok s := by
  simp [ExtractTextContent, jsonMarshal, jsonUnmarshalMap, h]

/-- C8 on the scenario content: it extracts to `42usdc`. -/
theorem extractTextContent_text_witness :
    ExtractTextContent balanceContent = .ok "42usdc" :=
  extractTextContent_text [("type", .string "text"), ("text", .string "42usdc")] "42usdc" rfl

/-- C9 (as stated) fails: a content item that is a JSON string has no `text`
field, and the error is the unmarshal failure, not `text field not found in
content`. -/
theorem extractTextContent_no_text_counterexample :
    ExtractTextContent (.json (.string "42usdc")) =
        .error ("failed to unmarshal content: " ++
          "json: cannot unmarshal string into Go value of type map[string]interface \x7b\x7d") ∧
      ExtractTextContent (.json (.string "42usdc")) ≠
        .error "text field not found in content" := by
  constructor
  · rfl
  · simp [ExtractTextContent, jsonMarshal, jsonUnmarshalMap]

/-- C9 (amended): for every content item with a JSON form of any shape that has
no `text` field, `ExtractTextContent` returns an error and never a string; the
error is `text field not found in content` when the item is an object or null,
and is `failed to unmarshal content: ...` when it is a string, number, boolean
or list. -/
theorem extractTextContent_no_text (v : GoValue)
    (h : ∀ m, v = GoValue.map m → GoMap.get m "text" = none) :
    (∃ err, ExtractTextContent (.json v) = .error err) ∧
    ((v = GoValue.null ∨ ∃ m, v = GoValue.map m) →
      ExtractTextContent (.json v) = .error "text field not found in content") ∧
    ((v ≠ GoValue.null ∧ ∀ m, v ≠ GoValue.map m) →
      ∃ kind, ExtractTextContent (.json v) =
        .error ("failed to unmarshal content: json: cannot unmarshal " ++ kind ++
          " into Go value of type map[string]interface \x7b\x7d")) := by
  cases v with
  | null =>
    refine ⟨⟨_, rfl⟩, fun _ => rfl, fun hne => absurd rfl hne.1⟩
  | map m =>
    have hm : ExtractTextContent (.json (.map m)) = .error "text field not found in content" := by
      simp [ExtractTextContent, jsonMarshal, jsonUnmarshalMap, h m rfl]
    exact ⟨⟨_, hm⟩, fun _ => hm, fun hne => absurd rfl (hne.2 m)⟩
  | bool b =>
    refine ⟨⟨_, rfl⟩, fun hc => ?_, fun _ => ⟨"bool", rfl⟩⟩
    rcases hc with hc | ⟨m, hc⟩ <;> cases hc
  | number n =>
    refine ⟨⟨_, rfl⟩, fun hc => ?_, fun _ => ⟨"number", rfl⟩⟩
    rcases hc with hc | ⟨m, hc⟩ <;> cases hc
  | string s =>
    refine ⟨⟨_, rfl⟩, fun hc => ?_, fun _ => ⟨"string", rfl⟩⟩
    rcases hc with hc | ⟨m, hc⟩ <;> cases hc
  | slice xs =>
    refine ⟨⟨_, rfl⟩, fun hc => ?_, fun _ => ⟨"array", rfl⟩⟩
    rcases hc with hc | ⟨m, hc⟩ <;> cases hc

/-- C9 (amended) on `imageContent`, an object without a `text` field. -/
theorem extractTextContent_no_text_witness :
    (∃ err, ExtractTextContent (.json imageContent) = .error err) ∧
    ((imageContent = GoValue.null ∨ ∃ m, imageContent = GoValue.map m) →
      ExtractTextContent (.json imageContent) = .error "text field not found in content") ∧
    ((imageContent ≠ GoValue.null ∧ ∀ m, imageContent ≠ GoValue.map m) →
      ∃ kind, ExtractTextContent (.json imageContent) =
        .error ("failed to unmarshal content: json: cannot unmarshal " ++ kind ++
          " into Go value of type map[string]interface \x7b\x7d")) :=
  extractTextContent_no_text imageContent (by
    intro m hm
    cases hm
    rfl)

theorem deliver_answerCallback {σ : Type} (responses : List ChatResponse) (answer : String)
    (st : RunState σ) :
    deliver answerCallback responses answer st =
      (none, responses.foldl (fun answer resp => answer ++ resp.Message.Content) answer,
        { st with trace := st.trace ++ fragmentPrints responses }) := by
  induction responses generalizing answer st with
  | nil => simp [deliver, fragmentPrints]
  | cons resp rest ih =>
    simp only [deliver, answerCallback, ih, List.foldl_cons, RunState.emit, fragmentPrints,
      List.map_cons, List.append_assoc, List.singleton_append]

theorem answerPhase_eq {σ : Type} (w : World σ) (config : Config)
    (userPrompt contentForThePrompt : String) (st : RunState σ)
    (responses : List ChatResponse) (backendErr : Option String) (world : σ)
    (h : w.Chat st.world (chatRequest config userPrompt contentForThePrompt) =
      ((responses, backendErr), world)) :
    answerPhase w config userPrompt contentForThePrompt st =
      (backendErr, concatFragments responses,
        { world := world
          trace := st.trace ++ [.ollamaChat (chatRequest config userPrompt contentForThePrompt)]
            ++ fragmentPrints responses }) := by
  simp only [answerPhase, Chat, RunState.emit, h, deliver_answerCallback, concatFragments]

/-- C10 (as stated) fails: in `demoWorld` every step of the cycle succeeds and
the accumulated answer is `The balance is 42usdc`, yet what `Run` returns is the
nil error: no text reaches the caller through the return value. -/
theorem run_returns_answer_counterexample :
    (answerPhase demoWorld demoConfig "balance of alice?" "42usdc" ⟨(), []⟩).2.1 =
        "The balance is 42usdc" ∧
      (Run demoWorld demoConfig "balance of alice?" ⟨(), []⟩).1 = none := by
  constructor
  · decide
  · rfl

/-- C10 (amended): in every cycle in which initialization, the tool phase with
all its tool calls, and the answer phase succeed, `Run` returns the nil error;
the local `answer` ends as the concatenation, in delivery order, of the streamed
fragments, and each fragment is printed to standard output in that order right
after the answer-phase request, the last events of the cycle. -/
theorem run_success {σ : Type} (w : World σ) (config : Config) (userPrompt : String)
    (st st₁ st₂ : RunState σ) (ollamaTools : List OllamaTool) (contentForThePrompt : String)
    (responses : List ChatResponse) (world : σ)
    (hinit : Initialize w config st = (.ok ollamaTools, st₁))
    (htool : Chat w (toolRequest config userPrompt ollamaTools)
        (fun resp content st => runToolCalls w resp.Message.ToolCalls content st) "" st₁ =
      (none, contentForThePrompt, st₂))
    (hanswer : w.Chat st₂.world (chatRequest config userPrompt contentForThePrompt) =
      ((responses, none), world)) :
    Run w config userPrompt st =
        (none,
          { world := world
            trace := st₂.trace ++
              [.println [.str "⏳ Generating the completion..."],
               .ollamaChat (chatRequest config userPrompt contentForThePrompt)] ++
              fragmentPrints responses }) ∧
      (answerPhase w config userPrompt contentForThePrompt
          (st₂.emit (.println [.str "⏳ Generating the completion..."]))).2.1 =
        concatFragments responses := by
  have hphase := answerPhase_eq w config userPrompt contentForThePrompt
    (st₂.emit (.println [.str "⏳ Generating the completion..."])) responses none world hanswer
  refine ⟨?_, by rw [hphase]⟩
  simp only [Run, hinit, htool, hphase]
  simp [RunState.emit]


/-! ### `hacks/agent3.go`: partition names -/

theorem digitValue_digitChar (d : Nat) (h : d < 10) : digitValue (Nat.digitChar d) = some d := by
  interval_cases d <;> rfl

theorem digitChar_ne (d : Nat) (h : d < 10) :
    Nat.digitChar d ≠ '_' ∧ Nat.digitChar d ≠ '-' ∧ Nat.digitChar d ≠ '+' := by
  interval_cases d <;> decide

theorem parseDigits_append (xs ys : List Char) (acc : Nat) :
    parseDigits (xs ++ ys) acc = (parseDigits xs acc).bind (parseDigits ys) := by
  induction xs generalizing acc with
  | nil => rfl
  | cons c cs ih =>
    simp only [List.cons_append, parseDigits]
    cases digitValue c with
    | none => rfl
    | some d => exact ih _

theorem parseDigits_natDigits (fuel n : Nat) (h : n < fuel) :
    parseDigits (natDigits fuel n) 0 = some n := by
  induction fuel generalizing n with
  | zero => omega
  | succ fuel ih =>
    unfold natDigits
    split_ifs with hn
    · simp [parseDigits, digitValue_digitChar n hn]
    · rw [parseDigits_append, ih (n / 10) (by omega)]
      simp only [Option.some_bind, parseDigits, digitValue_digitChar (n % 10) (by omega)]
      congr 1
      omega

theorem natDigits_ne_nil (fuel n : Nat) : natDigits (fuel + 1) n ≠ [] := by
  unfold natDigits
  split_ifs <;> simp

theorem mem_natDigits (fuel n : Nat) (c : Char) (h : c ∈ natDigits fuel n) :
    ∃ d, d < 10 ∧ c = Nat.digitChar d := by
  induction fuel generalizing n with
  | zero => simp [natDigits] at h
  | succ fuel ih =>
    unfold natDigits at h
    split_ifs at h with hn
    · exact ⟨n, hn, by simpa using h⟩
    · rcases List.mem_append.mp h with h | h
      · exact ih _ h
      · exact ⟨n % 10, by omega, by simpa using h⟩

theorem wrapInt64_of_range (x : Int) (h : Int64Range x) : wrapInt64 x = x := by
  unfold Int64Range at h
  unfold wrapInt64
  norm_num at h ⊢
  omega

theorem epochDayOf_range (unix : Int) (h : Int64Range unix) : EpochDayRange (epochDayOf unix) := by
  unfold Int64Range at h
  unfold EpochDayRange epochDayOf
  norm_num at h
  rcases le_or_lt 0 unix with h0 | h0
  · rw [Int.tdiv_eq_ediv h0 (by norm_num)]
    omega
  · have : unix = -(-unix) := by omega
    rw [this, Int.neg_tdiv, Int.tdiv_eq_ediv (by omega) (by norm_num)]
    omega

theorem strconvParseInt_formatInt (d : Int) (h : Int64Range d) :
    strconvParseInt (formatInt d) = some d := by
  unfold Int64Range at h
  norm_num at h
  have hparse := parseDigits_natDigits (d.natAbs + 1) d.natAbs (Nat.lt_succ_self _)
  have hne := natDigits_ne_nil d.natAbs d.natAbs
  unfold formatInt strconvParseInt
  split_ifs with hd
  · simp only [hne, if_false, hparse]
    have : d.natAbs ≤ 2 ^ 63 := by norm_num; omega
    simp only [this, if_true]
    congr 1
    omega
  · cases hds : natDigits (d.natAbs + 1) d.natAbs with
    | nil => exact absurd hds hne
    | cons c cs =>
      obtain ⟨k, hk, hc⟩ := mem_natDigits _ _ c (by rw [hds]; exact List.mem_cons_self _ _)
      obtain ⟨_, hminus, hplus⟩ := digitChar_ne k hk
      rw [← hc] at hminus hplus
      have hlt : d.natAbs < 2 ^ 63 := by norm_num; omega
      rw [hds] at hparse
      split
      · rename_i heq
        simp at heq
      · rename_i ds heq
        simp only [List.cons.injEq] at heq
        exact absurd heq.1 hminus
      · rename_i c' cs' hnot heq
        simp only [List.cons.injEq] at heq
        obtain ⟨rfl, rfl⟩ := heq
        simp only [hplus, if_false, hparse, hlt, if_true, reduceCtorEq]
        congr 1
        omega

theorem splitOn_append_sep (sep : Char) (xs ys : List Char) (h : sep ∉ xs) :
    splitOn sep (xs ++ sep :: ys) = (xs, (splitOn sep ys).1 :: (splitOn sep ys).2) := by
  induction xs with
  | nil => simp [splitOn]
  | cons c cs ih =>
    simp only [List.mem_cons, not_or] at h
    have hc : ¬ c = sep := fun hc => h.1 hc.symm
    simp [splitOn, hc, ih h.2]

theorem splitOn_of_not_mem (sep : Char) (xs : List Char) (h : sep ∉ xs) :
    splitOn sep xs = (xs, []) := by
  induction xs with
  | nil => rfl
  | cons c cs ih =>
    simp only [List.mem_cons, not_or] at h
    have hc : ¬ c = sep := fun hc => h.1 hc.symm
    simp [splitOn, hc, ih h.2]

theorem underscore_not_mem_formatInt (d : Int) : '_' ∉ (formatInt d).data := by
  have hdig : '_' ∉ natDigits (d.natAbs + 1) d.natAbs := by
    intro hmem
    obtain ⟨k, hk, hc⟩ := mem_natDigits _ _ _ hmem
    exact (digitChar_ne k hk).1 hc.symm
  unfold formatInt
  split_ifs
  · simp only [List.mem_cons, not_or]
    exact ⟨by decide, hdig⟩
  · exact hdig

theorem stringsSplit_partitionName (d : Int) :
    (stringsSplit (partitionName d) '_').headD "" = formatInt d := by
  unfold stringsSplit partitionName
  rw [String.data_append]
  have : ("_traj.jsonl" : String).data = '_' :: ("traj.jsonl" : String).data := rfl
  rw [this, splitOn_append_sep '_' _ _ (underscore_not_mem_formatInt d)]
  rfl

theorem stringsHasSuffix_partitionName (d : Int) :
    stringsHasSuffix (partitionName d) "_traj.jsonl" = true := by
  unfold stringsHasSuffix partitionName
  rw [List.isSuffixOf_iff_suffix, String.data_append]
  exact List.suffix_append _ _

theorem partitionSelected_partitionName (todayEpochDay maxDays d : Int)
    (htoday : EpochDayRange todayEpochDay) (hd : EpochDayRange d) :
    partitionSelected todayEpochDay maxDays (partitionName d) =
      decide (maxDays ≤ 0 ∨ todayEpochDay - d < maxDays) := by
  unfold EpochDayRange at htoday hd
  have hrange : Int64Range d := by unfold Int64Range; norm_num; omega
  have hdiff : Int64Range (todayEpochDay - d) := by unfold Int64Range; norm_num; omega
  unfold partitionSelected
  rw [stringsHasSuffix_partitionName, stringsSplit_partitionName,
    strconvParseInt_formatInt d hrange]
  simp only [Bool.not_true, Bool.false_eq_true, if_false, wrapInt64_of_range _ hdiff]
  by_cases h : maxDays ≤ 0 ∨ todayEpochDay - d < maxDays
  · have : ¬ (maxDays > 0 ∧ todayEpochDay - d ≥ maxDays) := by omega
    simp [this, h]
  · have : maxDays > 0 ∧ todayEpochDay - d ≥ maxDays := by omega
    simp [this, h]

/-! ### `hacks/agent3.go`: loading -/

theorem loadLines_append (unmarshal : String → Except String Interaction)
    (lines : List String) (history : List Interaction) :
    loadLines unmarshal lines history = history ++ loadLines unmarshal lines [] := by
  induction lines generalizing history with
  | nil => simp [loadLines]
  | cons line rest ih =>
    unfold loadLines
    split_ifs with hline
    · exact ih history
    · cases unmarshal line with
      | error e => exact ih history
      | ok interaction =>
        simp only
        rw [ih (history ++ [interaction]), ih ([] ++ [interaction])]
        simp

theorem loadLines_eq_records (unmarshal : String → Except String Interaction)
    (lines : List String) :
    loadLines unmarshal lines [] = recordsOfLines unmarshal lines := by
  induction lines with
  | nil => rfl
  | cons line rest ih =>
    unfold loadLines recordsOfLines
    by_cases hline : line = ""
    · simp only [hline, if_true]
      rw [ih]
      simp [recordsOfLines, List.filter_cons, wellFormedLine]
    · simp only [hline, if_false]
      cases hu : unmarshal line with
      | error e =>
        simp only
        rw [ih]
        simp [recordsOfLines, List.filter_cons, wellFormedLine, hu, Except.toOption]
      | ok interaction =>
        simp only
        rw [loadLines_append, ih]
        simp [recordsOfLines, List.filter_cons, wellFormedLine, hu, hline, Except.toOption]

theorem splitOn_joinLines (line : String) (rest : List String)
    (h : ∀ l ∈ line :: rest, '\n' ∉ l.data) :
    splitOn '\n' (joinLines (line :: rest)).data = (line.data, rest.map String.data) := by
  induction rest generalizing line with
  | nil =>
    simp only [joinLines, List.map_nil]
    exact splitOn_of_not_mem _ _ (h line (List.mem_cons_self _ _))
  | cons l₂ r ih =>
    have hrest : ∀ l ∈ l₂ :: r, '\n' ∉ l.data := fun l hl => h l (List.mem_cons_of_mem _ hl)
    simp only [joinLines, String.data_append]
    rw [List.append_assoc, List.singleton_append,
      splitOn_append_sep _ _ _ (h line (List.mem_cons_self _ _)), ih l₂ hrest]
    rfl

theorem loadLines_stringsSplit_joinLines (unmarshal : String → Except String Interaction)
    (lines : List String) (history : List Interaction)
    (h : ∀ l ∈ lines, '\n' ∉ l.data) :
    loadLines unmarshal (stringsSplit (joinLines lines) '\n') history =
      loadLines unmarshal lines history := by
  cases lines with
  | nil => rfl
  | cons line rest =>
    unfold stringsSplit
    rw [splitOn_joinLines line rest h]
    have : (line.data :: rest.map String.data).map String.mk = line :: rest := by
      simp [List.map_map, Function.comp_def]
    rw [this]

theorem loadFiles_append (unmarshal : String → Except String Interaction)
    (todayEpochDay maxDays : Int) (files : List DirEntry) (history : List Interaction) :
    loadFiles unmarshal todayEpochDay maxDays files history =
      history ++ loadFiles unmarshal todayEpochDay maxDays files [] := by
  induction files generalizing history with
  | nil => simp [loadFiles]
  | cons file rest ih =>
    unfold loadFiles
    split_ifs with hsel
    · exact ih history
    · cases file.data with
      | none => exact ih history
      | some data =>
        simp only
        rw [ih, loadLines_append, ih (loadLines unmarshal _ []), List.append_assoc]

theorem loadFiles_cons (unmarshal : String → Except String Interaction)
    (todayEpochDay maxDays : Int) (name data : String) (rest : List DirEntry) :
    loadFiles unmarshal todayEpochDay maxDays ({ name := name, data := some data } :: rest) [] =
      (if partitionSelected todayEpochDay maxDays name
        then recordsOfLines unmarshal (stringsSplit data '\n') else []) ++
        loadFiles unmarshal todayEpochDay maxDays rest [] := by
  rw [loadFiles]
  cases partitionSelected todayEpochDay maxDays name with
  | false => simp
  | true =>
    simp only [Bool.not_true, Bool.false_eq_true, if_false, if_true]
    rw [loadFiles_append, loadLines_eq_records]

theorem loadFiles_partitions (unmarshal : String → Except String Interaction)
    (todayEpochDay maxDays : Int) (parts : List (Int × String))
    (htoday : EpochDayRange todayEpochDay) (hparts : ∀ p ∈ parts, EpochDayRange p.1) :
    loadFiles unmarshal todayEpochDay maxDays
        (parts.map fun p => { name := partitionName p.1, data := some p.2 }) [] =
      (parts.filter fun p => decide (maxDays ≤ 0 ∨ todayEpochDay - p.1 < maxDays)).flatMap
        fun p => recordsOfLines unmarshal (stringsSplit p.2 '\n') := by
  induction parts with
  | nil => rfl
  | cons p rest ih =>
    have hp := hparts p (List.mem_cons_self _ _)
    have hrest : ∀ q ∈ rest, EpochDayRange q.1 := fun q hq => hparts q (List.mem_cons_of_mem _ hq)
    rw [List.map_cons, loadFiles_cons, ih hrest,
      partitionSelected_partitionName _ _ _ htoday hp, List.filter_cons]
    split_ifs <;> simp [List.flatMap_cons]

/-- C6: for partition files named `<epochDay>_traj.jsonl` (epoch days of
`int64` Unix times) and every current time, `loadInteractionHistory(n)` with
`n > 0` returns the records of exactly the partitions with
`today - epochDay < n`, in directory order, and with `n <= 0` the records of
all partitions. -/
theorem loadInteractionHistory_lookback (unmarshal : String → Except String Interaction)
    (now maxDays : Int) (parts : List (Int × String))
    (hnow : Int64Range now) (hparts : ∀ p ∈ parts, EpochDayRange p.1) :
    (0 < maxDays →
      loadInteractionHistory unmarshal now (partitionsDir parts) maxDays =
        .ok ((parts.filter fun p => decide (epochDayOf now - p.1 < maxDays)).flatMap
          fun p => recordsOfLines unmarshal (stringsSplit p.2 '\n'))) ∧
    (maxDays ≤ 0 →
      loadInteractionHistory unmarshal now (partitionsDir parts) maxDays =
        .ok (parts.flatMap fun p => recordsOfLines unmarshal (stringsSplit p.2 '\n'))) := by
  have hall := loadFiles_partitions unmarshal (epochDayOf now) maxDays parts
    (epochDayOf_range now hnow) hparts
  constructor
  · intro hpos
    simp only [loadInteractionHistory, partitionsDir, hall]
    have : ¬ maxDays ≤ 0 := by omega
    simp [this]
  · intro hle
    simp only [loadInteractionHistory, partitionsDir, hall]
    simp [hle]

/-- C6 on the scenario: partitions of days 19800 and 19801, lookback 1,
evaluated on day 19801, give only the day-19801 record. -/
theorem loadInteractionHistory_lookback_witness :
    epochDayOf 1710810000 = 19801 ∧
    loadInteractionHistory demoUnmarshal 1710810000
        (partitionsDir [(19800, "\x7b\"thought\":\"old\"\x7d\n"), (19801, "\x7b\"thought\":\"new\"\x7d\n")])
        1 =
      .ok [[("thought", "\x7b\"thought\":\"new\"\x7d")]] :=
  ⟨by decide,
    ((loadInteractionHistory_lookback demoUnmarshal 1710810000 1
      [(19800, "\x7b\"thought\":\"old\"\x7d\n"), (19801, "\x7b\"thought\":\"new\"\x7d\n")]
      (by unfold Int64Range; norm_num)
      (by intro p hp; simp at hp; rcases hp with rfl | rfl <;> (unfold EpochDayRange; norm_num))).1
      (by decide)).trans (by rfl)⟩

theorem flatMap_selected_eq (unmarshal : String → Except String Interaction)
    (sel : String → Bool) (files : List (String × List String)) :
    (files.filter fun f => sel f.1).flatMap (fun f => recordsOfLines unmarshal f.2) =
      ((files.map fun f => (f.1, f.2.filter (wellFormedLine unmarshal))).filter
        fun q => sel q.1).flatMap
        fun q => q.2.filterMap fun line => (unmarshal line).toOption := by
  induction files with
  | nil => rfl
  | cons f rest ih =>
    simp only [List.filter_cons, List.map_cons]
    cases sel f.1 with
    | false => simpa using ih
    | true =>
      simp only [if_true, List.flatMap_cons, ih]
      rfl

theorem loadFiles_lines (unmarshal : String → Except String Interaction)
    (todayEpochDay maxDays : Int) (files : List (String × List String))
    (hlines : ∀ f ∈ files, ∀ l ∈ f.2, '\n' ∉ l.data) :
    loadFiles unmarshal todayEpochDay maxDays
        (files.map fun f => { name := f.1, data := some (joinLines f.2) }) [] =
      (files.filter fun f => partitionSelected todayEpochDay maxDays f.1).flatMap
        fun f => recordsOfLines unmarshal f.2 := by
  induction files with
  | nil => rfl
  | cons f rest ih =>
    have hf := hlines f (List.mem_cons_self _ _)
    have hrest : ∀ g ∈ rest, ∀ l ∈ g.2, '\n' ∉ l.data :=
      fun g hg => hlines g (List.mem_cons_of_mem _ hg)
    rw [List.map_cons, loadFiles_cons, ih hrest, List.filter_cons,
      ← loadLines_eq_records, loadLines_stringsSplit_joinLines _ _ _ hf, loadLines_eq_records]
    split_ifs <;> simp [List.flatMap_cons]

/-- C7: for files whose text is any interleaving of well-formed and malformed
lines, `loadInteractionHistory` returns exactly the records of the well-formed
lines of the selected partitions, in file order; two directories that differ
only in their malformed lines (inserted, removed or moved) load to the same
result. -/
theorem loadInteractionHistory_malformed_lines
    (unmarshal : String → Except String Interaction) (now maxDays : Int)
    (files files' : List (String × List String))
    (hlines : ∀ f ∈ files, ∀ l ∈ f.2, '\n' ∉ l.data)
    (hlines' : ∀ f ∈ files', ∀ l ∈ f.2, '\n' ∉ l.data)
    (hsame : (files.map fun f => (f.1, f.2.filter (wellFormedLine unmarshal))) =
      files'.map fun f => (f.1, f.2.filter (wellFormedLine unmarshal))) :
    loadInteractionHistory unmarshal now (linesDir files) maxDays =
        .ok ((files.filter fun f => partitionSelected (epochDayOf now) maxDays f.1).flatMap
          fun f => recordsOfLines unmarshal f.2) ∧
      loadInteractionHistory unmarshal now (linesDir files') maxDays =
        loadInteractionHistory unmarshal now (linesDir files) maxDays := by
  have h := loadFiles_lines unmarshal (epochDayOf now) maxDays files hlines
  have h' := loadFiles_lines unmarshal (epochDayOf now) maxDays files' hlines'
  refine ⟨by simp only [loadInteractionHistory, linesDir, h], ?_⟩
  simp only [loadInteractionHistory, linesDir, h, h']
  rw [flatMap_selected_eq unmarshal (partitionSelected (epochDayOf now) maxDays) files,
    flatMap_selected_eq unmarshal (partitionSelected (epochDayOf now) maxDays) files', hsame]

/-- C7 on one partition read twice, with different malformed lines around the
same two well-formed lines. -/
theorem loadInteractionHistory_malformed_lines_witness :
    loadInteractionHistory demoUnmarshal 1710810000
        (linesDir [("19801_traj.jsonl", ["\x7ba\x7d", "garbage", "\x7bb\x7d"])]) 7 =
        .ok [[("thought", "\x7ba\x7d")], [("thought", "\x7bb\x7d")]] ∧
      loadInteractionHistory demoUnmarshal 1710810000
        (linesDir [("19801_traj.jsonl", ["not json", "", "\x7ba\x7d", "\x7bb\x7d", "]trailing"])]) 7 =
        loadInteractionHistory demoUnmarshal 1710810000
          (linesDir [("19801_traj.jsonl", ["\x7ba\x7d", "garbage", "\x7bb\x7d"])]) 7 :=
  ⟨(loadInteractionHistory_malformed_lines demoUnmarshal 1710810000 7
      [("19801_traj.jsonl", ["\x7ba\x7d", "garbage", "\x7bb\x7d"])]
      [("19801_traj.jsonl", ["not json", "", "\x7ba\x7d", "\x7bb\x7d", "]trailing"])]
      (by decide) (by decide) (by decide)).1.trans (by rfl),
   (loadInteractionHistory_malformed_lines demoUnmarshal 1710810000 7
      [("19801_traj.jsonl", ["\x7ba\x7d", "garbage", "\x7bb\x7d"])]
      [("19801_traj.jsonl", ["not json", "", "\x7ba\x7d", "\x7bb\x7d", "]trailing"])]
      (by decide) (by decide) (by decide)).2⟩

/-- C10 (amended) on the cycle in `demoWorld`. -/
theorem run_success_witness :
    Run demoWorld demoConfig "balance of alice?" { world := (), trace := [] } =
        (none,
          { world := ()
            trace := demoAfterTools.trace ++
              [.println [.str "⏳ Generating the completion..."],
               .ollamaChat (chatRequest demoConfig "balance of alice?" "42usdc")] ++
              fragmentPrints demoFragments }) ∧
      (answerPhase demoWorld demoConfig "balance of alice?" "42usdc"
          (demoAfterTools.emit (.println [.str "⏳ Generating the completion..."]))).2.1 =
        concatFragments demoFragments :=
  run_success demoWorld demoConfig "balance of alice?" { world := (), trace := [] }
    demoAfterInit demoAfterTools (ConvertToOllamaTools [balanceTool]) "42usdc" demoFragments ()
    rfl rfl rfl

/-- The spec scenario of the translator: `balance` keeps its name, description
and required list, and has the single string property `account` without `Enum`. -/
theorem convertToOllamaTools_balance :
    ConvertToOllamaTools [balanceTool] =
      [{ Typ := "function"
         Function :=
           { Name := "balance"
             Description := "query the balance of an account"
             Parameters :=
               { Typ := "object"
                 Required := some ["account"]
                 Properties :=
                   [("account",
                     { Typ := "string", Description := "account to query", Enum := none })] } } }] := by
  rfl

/-! ### `core/cognition.go`: the requests of a cycle -/

theorem chatRequests_append (xs ys : List Event) :
    chatRequests (xs ++ ys) = chatRequests xs ++ chatRequests ys := by
  induction xs with
  | nil => rfl
  | cons e rest ih => cases e <;> simp [chatRequests, ih]

theorem callToolRequests_append (xs ys : List Event) :
    callToolRequests (xs ++ ys) = callToolRequests xs ++ callToolRequests ys := by
  induction xs with
  | nil => rfl
  | cons e rest ih => cases e <;> simp [callToolRequests, ih]

theorem chatRequests_fragmentPrints (responses : List ChatResponse) :
    chatRequests (fragmentPrints responses) = [] := by
  induction responses with
  | nil => rfl
  | cons resp rest ih => simpa [fragmentPrints, chatRequests] using ih

theorem callToolRequests_fragmentPrints (responses : List ChatResponse) :
    callToolRequests (fragmentPrints responses) = [] := by
  induction responses with
  | nil => rfl
  | cons resp rest ih => simpa [fragmentPrints, callToolRequests] using ih

theorem printTools_observe {σ : Type} (tools : List McpTool) (st : RunState σ) :
    (printTools tools st).world = st.world ∧
    chatRequests (printTools tools st).trace = chatRequests st.trace ∧
    callToolRequests (printTools tools st).trace = callToolRequests st.trace := by
  induction tools generalizing st with
  | nil => exact ⟨rfl, rfl, rfl⟩
  | cons tool rest ih =>
    obtain ⟨h₁, h₂, h₃⟩ := ih ((st.emit (.printf "- %s: %s\n"
      [.str tool.Name, .str tool.Description])).emit
        (.println [.str "Arguments:", .args tool.InputSchema.Properties]))
    refine ⟨by rw [printTools, h₁]; rfl, ?_, ?_⟩
    · rw [printTools, h₂]
      simp [RunState.emit, chatRequests_append, chatRequests]
    · rw [printTools, h₃]
      simp [RunState.emit, callToolRequests_append, callToolRequests]

theorem Initialize_observe {σ : Type} (w : World σ) (config : Config) (st : RunState σ) :
    chatRequests (Initialize w config st).2.trace = chatRequests st.trace ∧
    callToolRequests (Initialize w config st).2.trace = callToolRequests st.trace := by
  unfold Initialize
  simp only [RunState.emit]
  split
  · simp [chatRequests_append, callToolRequests_append, chatRequests, callToolRequests]
  · split
    · simp [chatRequests_append, callToolRequests_append, chatRequests, callToolRequests]
    · rename_i tools world _
      simp only [chatRequests_append, callToolRequests_append]
      rw [(printTools_observe tools _).2.1, (printTools_observe tools _).2.2]
      simp [chatRequests_append, callToolRequests_append, chatRequests, callToolRequests]

theorem Initialize_ok {σ : Type} (w : World σ) (config : Config) (st : RunState σ)
    (initResult : InitializeResult) (tools : List McpTool) (s₁ s₂ : σ)
    (hinit : w.Initialize st.world
        { ProtocolVersion := w.LATEST_PROTOCOL_VERSION
          ClientInfo := { Name := config.AgentName, Version := config.AgentVersion } } =
      (.ok initResult, s₁))
    (hlist : w.ListTools s₁ = (.ok tools, s₂)) :
    (Initialize w config st).1 = .ok (ConvertToOllamaTools tools) ∧
    (Initialize w config st).2.world = s₂ := by
  unfold Initialize
  simp only [RunState.emit, hinit, hlist]
  exact ⟨trivial, (printTools_observe tools _).1⟩

theorem foldl_append_texts (texts : List String) (acc : String) :
    texts.foldl (fun acc text => acc ++ text) acc = acc ++ concatTexts texts := by
  unfold concatTexts
  induction texts generalizing acc with
  | nil => simp
  | cons t rest ih =>
    simp only [List.foldl_cons]
    rw [ih (acc ++ t), ih ("" ++ t)]
    simp [String.append_assoc]

theorem runToolCalls_append {σ : Type} (w : World σ) (xs ys : List ToolCall)
    (content : String) (st : RunState σ) :
    runToolCalls w (xs ++ ys) content st =
      match runToolCalls w xs content st with
      | (some err, content', st') => (some err, content', st')
      | (none, content', st') => runToolCalls w ys content' st' := by
  induction xs generalizing content st with
  | nil => simp [runToolCalls]
  | cons toolCall rest ih =>
    simp only [List.cons_append, runToolCalls]
    split
    · rfl
    · split
      · exact ih _ _
      · split
        · rfl
        · exact ih _ _

theorem deliver_runToolCalls {σ : Type} (w : World σ) (responses : List ChatResponse)
    (content : String) (st : RunState σ) :
    deliver (fun resp content st => runToolCalls w resp.Message.ToolCalls content st)
        responses content st =
      runToolCalls w (requestedCalls responses) content st := by
  induction responses generalizing content st with
  | nil => rfl
  | cons resp rest ih =>
    simp only [deliver, requestedCalls, List.flatMap_cons]
    rw [runToolCalls_append]
    rcases h : runToolCalls w resp.Message.ToolCalls content st with ⟨err, content', st'⟩
    cases err with
    | some e => rfl
    | none => exact ih content' st'

theorem runToolCalls_of_toolTexts {σ : Type} (w : World σ) (calls : List ToolCall)
    (content : String) (st : RunState σ) (texts : List String) (s' : σ)
    (h : toolTexts w calls st.world = some (texts, s')) :
    ∃ st' : RunState σ,
      runToolCalls w calls content st = (none, content ++ concatTexts texts, st') ∧
      st'.world = s' ∧
      callToolRequests st'.trace = callToolRequests st.trace ++ calls.map fetchRequestOf ∧
      chatRequests st'.trace = chatRequests st.trace := by
  induction calls generalizing content st texts with
  | nil =>
    simp only [toolTexts, Option.some.injEq, Prod.mk.injEq] at h
    obtain ⟨rfl, rfl⟩ := h
    exact ⟨st, by simp [runToolCalls, concatTexts], rfl, by simp, rfl⟩
  | cons toolCall rest ih =>
    simp only [toolTexts] at h
    rcases hc : w.CallTool st.world (fetchRequestOf toolCall) with ⟨res, s₁⟩
    rw [hc] at h
    cases res with
    | error e => simp at h
    | ok result =>
      simp only at h
      cases hr : resultText result with
      | none => simp [hr] at h
      | some text =>
        rw [hr] at h
        simp only at h
        cases ht : toolTexts w rest s₁ with
        | none => simp [ht] at h
        | some p =>
          obtain ⟨texts', s''⟩ := p
          rw [ht] at h
          simp only [Option.some.injEq, Prod.mk.injEq] at h
          obtain ⟨rfl, rfl⟩ := h
          have hc' : w.CallTool st.world
              { Method := "tools/call", Name := toolCall.Function.Name,
                Arguments := toolCall.Function.Arguments } = (.ok result, s₁) := hc
          have hcat : ∀ t : String, content ++ concatTexts (t :: texts') =
              (content ++ t) ++ concatTexts texts' := by
            intro t
            rw [← foldl_append_texts, ← foldl_append_texts]
            rfl
          unfold runToolCalls
          simp only [RunState.emit, hc']
          cases hcontent : result.Content with
          | nil =>
            have htext : text = "" := by
              simp [resultText, hcontent] at hr
              exact hr.symm
            subst htext
            obtain ⟨st', h₁, h₂, h₃, h₄⟩ := ih content
              { world := s₁
                trace := st.trace ++
                  [.println [.str "🦙🛠️", .str toolCall.Function.Name,
                    .args toolCall.Function.Arguments]] ++
                  [.println [.str "📣 calling", .str toolCall.Function.Name]] ++
                  [.mcpCallTool
                    { Method := "tools/call", Name := toolCall.Function.Name,
                      Arguments := toolCall.Function.Arguments }] ++
                  [.println [.str "🌍 content of the result:"]] } texts' ht
            refine ⟨st', ?_, h₂, ?_, ?_⟩
            · rw [h₁, hcat]
              simp
            · rw [h₃]
              simp [callToolRequests_append, callToolRequests, fetchRequestOf]
            · rw [h₄]
              simp [chatRequests_append, chatRequests]
          | cons first more =>
            have hx : ExtractTextContent first = .ok text := by
              simp only [resultText, hcontent] at hr
              cases he : ExtractTextContent first with
              | error e => simp [he, Except.toOption] at hr
              | ok t =>
                simp only [he, Except.toOption, Option.some.injEq] at hr
                rw [hr]
            simp only [hx]
            obtain ⟨st', h₁, h₂, h₃, h₄⟩ := ih (content ++ text)
              { world := s₁
                trace := st.trace ++
                  [.println [.str "🦙🛠️", .str toolCall.Function.Name,
                    .args toolCall.Function.Arguments]] ++
                  [.println [.str "📣 calling", .str toolCall.Function.Name]] ++
                  [.mcpCallTool
                    { Method := "tools/call", Name := toolCall.Function.Name,
                      Arguments := toolCall.Function.Arguments }] ++
                  [.println [.str "🌍 content of the result:"]] ++
                  [.println [.str (content ++ text)]] } texts' ht
            refine ⟨st', ?_, h₂, ?_, ?_⟩
            · rw [h₁, hcat]
            · rw [h₃]
              simp [callToolRequests_append, callToolRequests, fetchRequestOf]
            · rw [h₄]
              simp [chatRequests_append, chatRequests]

theorem runToolCalls_head_fails {σ : Type} (w : World σ) (bad : ToolCall)
    (post : List ToolCall) (content : String) (st : RunState σ)
    (hbad : InvocationFails w st.world bad) :
    ∃ (err : String) (st' : RunState σ),
      runToolCalls w (bad :: post) content st = (some err, content, st') ∧
      callToolRequests st'.trace = callToolRequests st.trace ++ [fetchRequestOf bad] ∧
      chatRequests st'.trace = chatRequests st.trace := by
  unfold InvocationFails at hbad
  rcases hc : w.CallTool st.world (fetchRequestOf bad) with ⟨res, s₁⟩
  rw [hc] at hbad
  cases res with
  | error e =>
    have hc' : w.CallTool st.world
        { Method := "tools/call", Name := bad.Function.Name,
          Arguments := bad.Function.Arguments } = (.error e, s₁) := hc
    refine ⟨_, _, by unfold runToolCalls; simp only [RunState.emit, hc']; rfl, ?_, ?_⟩
    · simp [callToolRequests_append, callToolRequests, fetchRequestOf]
    · simp [chatRequests_append, chatRequests]
  | ok result =>
    have hc' : w.CallTool st.world
        { Method := "tools/call", Name := bad.Function.Name,
          Arguments := bad.Function.Arguments } = (.ok result, s₁) := hc
    simp only at hbad
    cases hcontent : result.Content with
    | nil => simp [resultText, hcontent] at hbad
    | cons first more =>
      simp only [resultText, hcontent] at hbad
      cases he : ExtractTextContent first with
      | ok t => simp [he, Except.toOption] at hbad
      | error e =>
        refine ⟨_, _, by unfold runToolCalls; simp only [RunState.emit, hc', hcontent, he]; rfl,
          ?_, ?_⟩
        · simp [callToolRequests_append, callToolRequests, fetchRequestOf]
        · simp [chatRequests_append, chatRequests]

theorem runToolCalls_fails {σ : Type} (w : World σ) (pre : List ToolCall) (bad : ToolCall)
    (post : List ToolCall) (content : String) (st : RunState σ) (texts : List String) (s₁ : σ)
    (hpre : toolTexts w pre st.world = some (texts, s₁))
    (hbad : InvocationFails w s₁ bad) :
    ∃ (err content' : String) (st' : RunState σ),
      runToolCalls w (pre ++ bad :: post) content st = (some err, content', st') ∧
      callToolRequests st'.trace =
        callToolRequests st.trace ++ (pre ++ [bad]).map fetchRequestOf ∧
      chatRequests st'.trace = chatRequests st.trace := by
  obtain ⟨st₁, h₁, h₂, h₃, h₄⟩ := runToolCalls_of_toolTexts w pre content st texts s₁ hpre
  obtain ⟨err, st', g₁, g₂, g₃⟩ :=
    runToolCalls_head_fails w bad post (content ++ concatTexts texts) st₁ (by rw [h₂]; exact hbad)
  refine ⟨err, content ++ concatTexts texts, st', ?_, ?_, ?_⟩
  · rw [runToolCalls_append, h₁]
    exact g₁
  · rw [g₂, h₃]
    simp
  · rw [g₃, h₄]

/-- The tool phase of `Run` as one call, for the lemmas below. -/
theorem toolPhase_eq {σ : Type} (w : World σ) (req : ChatRequest) (st : RunState σ)
    (responses : List ChatResponse) (backendErr : Option String) (s₁ : σ)
    (h : w.Chat st.world req = ((responses, backendErr), s₁)) :
    Chat w req (fun resp content st => runToolCalls w resp.Message.ToolCalls content st) "" st =
      match runToolCalls w (requestedCalls responses) ""
          { world := s₁, trace := st.trace ++ [.ollamaChat req] } with
      | (some err, content, st') => (some err, content, st')
      | (none, content, st') => (backendErr, content, st') := by
  simp only [Chat, RunState.emit, h, deliver_runToolCalls]
  rcases runToolCalls w (requestedCalls responses) ""
      { world := s₁, trace := st.trace ++ [.ollamaChat req] } with ⟨err, content, st'⟩
  cases err <;> rfl

theorem Initialize_of_ok {σ : Type} (w : World σ) (config : Config)
    (st : RunState σ) (initResult : InitializeResult) (tools : List McpTool) (s₁ s₂ : σ)
    (hinit : w.Initialize st.world
        { ProtocolVersion := w.LATEST_PROTOCOL_VERSION
          ClientInfo := { Name := config.AgentName, Version := config.AgentVersion } } =
      (.ok initResult, s₁))
    (hlist : w.ListTools s₁ = (.ok tools, s₂)) :
    ∃ st₁ : RunState σ,
      Initialize w config st = (.ok (ConvertToOllamaTools tools), st₁) ∧
      st₁.world = s₂ ∧
      chatRequests st₁.trace = chatRequests st.trace ∧
      callToolRequests st₁.trace = callToolRequests st.trace := by
  obtain ⟨h₁, h₂⟩ := Initialize_ok w config st initResult tools s₁ s₂ hinit hlist
  obtain ⟨h₃, h₄⟩ := Initialize_observe w config st
  refine ⟨(Initialize w config st).2, ?_, h₂, h₃, h₄⟩
  rw [← h₁]

theorem runToolCalls_observe {σ : Type} (w : World σ) (calls : List ToolCall)
    (content : String) (st : RunState σ) :
    chatRequests (runToolCalls w calls content st).2.2.trace = chatRequests st.trace ∧
    ∃ sent, sent <+: calls ∧
      callToolRequests (runToolCalls w calls content st).2.2.trace =
        callToolRequests st.trace ++ sent.map fetchRequestOf := by
  induction calls generalizing content st with
  | nil => exact ⟨rfl, [], List.prefix_refl _, by simp [runToolCalls]⟩
  | cons toolCall rest ih =>
    have hstep : ∀ (extra : List Event) (c : String) (s : σ),
        chatRequests extra = [] → callToolRequests extra = [] →
        chatRequests (runToolCalls w rest c
          { world := s, trace := st.trace ++
            [.println [.str "🦙🛠️", .str toolCall.Function.Name,
              .args toolCall.Function.Arguments],
             .println [.str "📣 calling", .str toolCall.Function.Name],
             .mcpCallTool (fetchRequestOf toolCall)] ++ extra }).2.2.trace =
          chatRequests st.trace ∧
        ∃ sent, sent <+: toolCall :: rest ∧
          callToolRequests (runToolCalls w rest c
            { world := s, trace := st.trace ++
              [.println [.str "🦙🛠️", .str toolCall.Function.Name,
                .args toolCall.Function.Arguments],
               .println [.str "📣 calling", .str toolCall.Function.Name],
               .mcpCallTool (fetchRequestOf toolCall)] ++ extra }).2.2.trace =
            callToolRequests st.trace ++ sent.map fetchRequestOf := by
      intro extra c s h₁ h₂
      obtain ⟨g₁, sent, g₂, g₃⟩ := ih c
        { world := s, trace := st.trace ++
          [.println [.str "🦙🛠️", .str toolCall.Function.Name,
            .args toolCall.Function.Arguments],
           .println [.str "📣 calling", .str toolCall.Function.Name],
           .mcpCallTool (fetchRequestOf toolCall)] ++ extra }
      refine ⟨?_, toolCall :: sent, (List.prefix_cons_inj toolCall).mpr g₂, ?_⟩
      · rw [g₁]
        simp [chatRequests_append, chatRequests, h₁]
      · rw [g₃]
        simp [callToolRequests_append, callToolRequests, h₂]
    unfold runToolCalls
    simp only [RunState.emit]
    split
    · refine ⟨by simp [chatRequests_append, chatRequests], [toolCall], ?_, ?_⟩
      · simp
      · simp [callToolRequests_append, callToolRequests, fetchRequestOf]
    · rename_i result world hc
      split
      · have := hstep [.println [.str "🌍 content of the result:"]] content world rfl rfl
        simpa [fetchRequestOf] using this
      · split
        · refine ⟨by simp [chatRequests_append, chatRequests], [toolCall], ?_, ?_⟩
          · simp
          · simp [callToolRequests_append, callToolRequests, fetchRequestOf]
        · rename_i text he
          have := hstep [.println [.str "🌍 content of the result:"],
            .println [.str (content ++ text)]] (content ++ text) world rfl rfl
          simpa [fetchRequestOf] using this

theorem toolTexts_cons_ok {σ : Type} (w : World σ) (toolCall : ToolCall)
    (rest : List ToolCall) (s s' s'' : σ) (result : CallToolResult) (text : String)
    (texts : List String)
    (hc : w.CallTool s (fetchRequestOf toolCall) = (.ok result, s'))
    (hr : resultText result = some text)
    (ht : toolTexts w rest s' = some (texts, s'')) :
    toolTexts w (toolCall :: rest) s = some (text :: texts, s'') := by
  simp only [toolTexts, hc, hr, ht]

theorem toolTexts_dichotomy {σ : Type} (w : World σ) (calls : List ToolCall) (s : σ) :
    (∃ texts s', toolTexts w calls s = some (texts, s')) ∨
    (∃ pre bad post texts s₁, calls = pre ++ bad :: post ∧
      toolTexts w pre s = some (texts, s₁) ∧ InvocationFails w s₁ bad) := by
  induction calls generalizing s with
  | nil => exact Or.inl ⟨[], s, rfl⟩
  | cons toolCall rest ih =>
    rcases hc : w.CallTool s (fetchRequestOf toolCall) with ⟨res, s'⟩
    cases res with
    | error e =>
      refine Or.inr ⟨[], toolCall, rest, [], s, rfl, rfl, ?_⟩
      simp [InvocationFails, hc]
    | ok result =>
      cases hr : resultText result with
      | none =>
        refine Or.inr ⟨[], toolCall, rest, [], s, rfl, rfl, ?_⟩
        simp [InvocationFails, hc, hr]
      | some text =>
        rcases ih s' with ⟨texts, s'', ht⟩ | ⟨pre, bad, post, texts, s₁, hsplit, hpre, hbad⟩
        · exact Or.inl ⟨text :: texts, s'', toolTexts_cons_ok w _ _ _ _ _ _ _ _ hc hr ht⟩
        · refine Or.inr ⟨toolCall :: pre, bad, post, text :: texts, s₁, ?_, ?_, hbad⟩
          · rw [hsplit]
            rfl
          · exact toolTexts_cons_ok w _ _ _ _ _ _ _ _ hc hr hpre

theorem toolTexts_names {σ : Type} (w : World σ) (names : List String)
    (hreject : ∀ s req, req.Name ∉ names → ∃ err s', w.CallTool s req = (.error err, s'))
    (calls : List ToolCall) (s : σ) (texts : List String) (s' : σ)
    (h : toolTexts w calls s = some (texts, s')) :
    ∀ toolCall ∈ calls, toolCall.Function.Name ∈ names := by
  induction calls generalizing s texts with
  | nil => simp
  | cons toolCall rest ih =>
    simp only [toolTexts] at h
    rcases hc : w.CallTool s (fetchRequestOf toolCall) with ⟨res, s₁⟩
    rw [hc] at h
    cases res with
    | error e => simp at h
    | ok result =>
      simp only at h
      cases hr : resultText result with
      | none => simp [hr] at h
      | some text =>
        rw [hr] at h
        simp only at h
        cases ht : toolTexts w rest s₁ with
        | none => simp [ht] at h
        | some p =>
          obtain ⟨texts', s''⟩ := p
          rw [ht] at h
          simp only [Option.some.injEq, Prod.mk.injEq] at h
          obtain ⟨_, rfl⟩ := h
          intro tc htc
          rcases List.mem_cons.mp htc with rfl | hmem
          · by_contra hname
            obtain ⟨err, s₂, hrej⟩ := hreject s (fetchRequestOf tc) hname
            rw [hrej] at hc
            cases hc
          · exact ih s₁ texts' ht tc hmem

theorem invocationFails_of_reject {σ : Type} (w : World σ) (names : List String)
    (hreject : ∀ s req, req.Name ∉ names → ∃ err s', w.CallTool s req = (.error err, s'))
    (s : σ) (bad : ToolCall) (hname : bad.Function.Name ∉ names) :
    InvocationFails w s bad := by
  obtain ⟨err, s', h⟩ := hreject s (fetchRequestOf bad) hname
  simp [InvocationFails, h]

/-- The cycle of `Run` once initialization and the tool phase have succeeded. -/
theorem Run_after_tools {σ : Type} (w : World σ) (config : Config) (userPrompt : String)
    (st st₁ st₂ : RunState σ) (ollamaTools : List OllamaTool) (content : String)
    (hinit : Initialize w config st = (.ok ollamaTools, st₁))
    (htool : Chat w (toolRequest config userPrompt ollamaTools)
        (fun resp content st => runToolCalls w resp.Message.ToolCalls content st) "" st₁ =
      (none, content, st₂)) :
    chatRequests (Run w config userPrompt st).2.trace =
        chatRequests st₂.trace ++ [chatRequest config userPrompt content] ∧
      callToolRequests (Run w config userPrompt st).2.trace = callToolRequests st₂.trace := by
  rcases hb : w.Chat st₂.world (chatRequest config userPrompt content)
    with ⟨⟨responses, backendErr⟩, s⟩
  have hphase := answerPhase_eq w config userPrompt content
    (st₂.emit (.println [.str "⏳ Generating the completion..."])) responses backendErr s hb
  simp only [Run, hinit, htool, hphase]
  cases backendErr <;>
    simp [RunState.emit, chatRequests_append, callToolRequests_append, chatRequests,
      callToolRequests, chatRequests_fragmentPrints, callToolRequests_fragmentPrints]

/-- The cycle of `Run` once the tool phase has failed. -/
theorem Run_tools_failed {σ : Type} (w : World σ) (config : Config) (userPrompt : String)
    (st st₁ st₂ : RunState σ) (ollamaTools : List OllamaTool) (err content : String)
    (hinit : Initialize w config st = (.ok ollamaTools, st₁))
    (htool : Chat w (toolRequest config userPrompt ollamaTools)
        (fun resp content st => runToolCalls w resp.Message.ToolCalls content st) "" st₁ =
      (some err, content, st₂)) :
    Run w config userPrompt st = (some ("tool execution failed: " ++ err), st₂) := by
  simp only [Run, hinit, htool]

/-- C11: when every invocation requested by the tool phase succeeds, the third
message of the answer-phase request carries the concatenation, in request
order, of the texts extracted from the results (nothing for a result without
content block), the tool server has been invoked once per request in that
order, and the answer phase is invoked, with the empty string when no tool
call was requested. -/
theorem run_tool_output {σ : Type} (w : World σ) (config : Config) (userPrompt : String)
    (st : RunState σ) (initResult : InitializeResult) (tools : List McpTool)
    (s₁ s₂ s₃ s₄ : σ) (responses : List ChatResponse) (texts : List String)
    (hinit : w.Initialize st.world
        { ProtocolVersion := w.LATEST_PROTOCOL_VERSION
          ClientInfo := { Name := config.AgentName, Version := config.AgentVersion } } =
      (.ok initResult, s₁))
    (hlist : w.ListTools s₁ = (.ok tools, s₂))
    (htool : w.Chat s₂ (toolRequest config userPrompt (ConvertToOllamaTools tools)) =
      ((responses, none), s₃))
    (hcalls : toolTexts w (requestedCalls responses) s₃ = some (texts, s₄)) :
    chatRequests (Run w config userPrompt st).2.trace =
        chatRequests st.trace ++
          [toolRequest config userPrompt (ConvertToOllamaTools tools),
           chatRequest config userPrompt (concatTexts texts)] ∧
      (chatRequest config userPrompt (concatTexts texts)).Messages[2]? =
        some { Role := "user", Content := concatTexts texts } ∧
      callToolRequests (Run w config userPrompt st).2.trace =
        callToolRequests st.trace ++ (requestedCalls responses).map fetchRequestOf ∧
      (requestedCalls responses = [] → concatTexts texts = "") := by
  obtain ⟨st₁, hI, hw, hcr, hct⟩ := Initialize_of_ok w config st initResult tools s₁ s₂ hinit hlist
  have hphase := toolPhase_eq w (toolRequest config userPrompt (ConvertToOllamaTools tools))
    st₁ responses none s₃ (by rw [hw]; exact htool)
  obtain ⟨st₂, hrun, _, hct₂, hcr₂⟩ := runToolCalls_of_toolTexts w (requestedCalls responses) ""
    { world := s₃
      trace := st₁.trace ++
        [.ollamaChat (toolRequest config userPrompt (ConvertToOllamaTools tools))] } texts s₄
    hcalls
  rw [hrun] at hphase
  have hcontent : "" ++ concatTexts texts = concatTexts texts := by simp
  rw [hcontent] at hphase
  obtain ⟨h₁, h₂⟩ := Run_after_tools w config userPrompt st st₁ st₂ _ _ hI hphase
  refine ⟨?_, rfl, ?_, ?_⟩
  · rw [h₁, hcr₂]
    simp [chatRequests_append, chatRequests, hcr]
  · rw [h₂, hct₂]
    simp [callToolRequests_append, callToolRequests, hct]
  · intro hnil
    rw [hnil] at hcalls
    simp only [toolTexts, Option.some.injEq, Prod.mk.injEq] at hcalls
    rw [← hcalls.1]
    rfl

/-- C11 on the cycle in `demoWorld`: one `balance` call, whose text `42usdc` is
the third message of the answer-phase request. -/
theorem run_tool_output_witness :
    chatRequests (Run demoWorld demoConfig "balance of alice?"
        { world := (), trace := [] }).2.trace =
        [toolRequest demoConfig "balance of alice?" (ConvertToOllamaTools [balanceTool]),
         chatRequest demoConfig "balance of alice?" "42usdc"] ∧
      (chatRequest demoConfig "balance of alice?" "42usdc").Messages[2]? =
        some { Role := "user", Content := "42usdc" } ∧
      callToolRequests (Run demoWorld demoConfig "balance of alice?"
        { world := (), trace := [] }).2.trace =
        [fetchRequestOf (balanceCall "alice")] ∧
      (requestedCalls [demoToolResponse] = [] → concatTexts ["42usdc"] = "") :=
  run_tool_output demoWorld demoConfig "balance of alice?" { world := (), trace := [] }
    demoInitResult [balanceTool] () () () () [demoToolResponse] ["42usdc"] rfl rfl rfl rfl

theorem toolTexts_append {σ : Type} (w : World σ) (xs ys : List ToolCall) (s s' s'' : σ)
    (texts texts' : List String)
    (hx : toolTexts w xs s = some (texts, s'))
    (hy : toolTexts w ys s' = some (texts', s'')) :
    toolTexts w (xs ++ ys) s = some (texts ++ texts', s'') := by
  induction xs generalizing s texts with
  | nil =>
    simp only [toolTexts, Option.some.injEq, Prod.mk.injEq] at hx
    obtain ⟨rfl, rfl⟩ := hx
    simpa using hy
  | cons toolCall rest ih =>
    simp only [toolTexts] at hx
    rcases hc : w.CallTool s (fetchRequestOf toolCall) with ⟨res, s₁⟩
    rw [hc] at hx
    cases res with
    | error e => simp at hx
    | ok result =>
      simp only at hx
      cases hr : resultText result with
      | none => simp [hr] at hx
      | some text =>
        rw [hr] at hx
        simp only at hx
        cases ht : toolTexts w rest s₁ with
        | none => simp [ht] at hx
        | some p =>
          obtain ⟨texts₁, s₂⟩ := p
          rw [ht] at hx
          simp only [Option.some.injEq, Prod.mk.injEq] at hx
          obtain ⟨rfl, rfl⟩ := hx
          exact toolTexts_cons_ok w toolCall (rest ++ ys) s s₁ s'' result text
            (texts₁ ++ texts') hc hr (ih s₁ texts₁ ht)

/-- The requests of a cycle of `Run` in which every requested invocation gives
a result with a text to extract. -/
theorem Run_tools_ok {σ : Type} (w : World σ) (config : Config) (userPrompt : String)
    (st : RunState σ) (initResult : InitializeResult) (tools : List McpTool)
    (s₁ s₂ s₃ s₄ : σ) (responses : List ChatResponse) (texts : List String)
    (hinit : w.Initialize st.world
        { ProtocolVersion := w.LATEST_PROTOCOL_VERSION
          ClientInfo := { Name := config.AgentName, Version := config.AgentVersion } } =
      (.ok initResult, s₁))
    (hlist : w.ListTools s₁ = (.ok tools, s₂))
    (htool : w.Chat s₂ (toolRequest config userPrompt (ConvertToOllamaTools tools)) =
      ((responses, none), s₃))
    (hcalls : toolTexts w (requestedCalls responses) s₃ = some (texts, s₄)) :
    chatRequests (Run w config userPrompt st).2.trace =
        chatRequests st.trace ++
          [toolRequest config userPrompt (ConvertToOllamaTools tools),
           chatRequest config userPrompt (concatTexts texts)] ∧
      callToolRequests (Run w config userPrompt st).2.trace =
        callToolRequests st.trace ++ (requestedCalls responses).map fetchRequestOf := by
  obtain ⟨st₁, hI, hw, hcr, hct⟩ := Initialize_of_ok w config st initResult tools s₁ s₂ hinit hlist
  have hphase := toolPhase_eq w (toolRequest config userPrompt (ConvertToOllamaTools tools))
    st₁ responses none s₃ (by rw [hw]; exact htool)
  obtain ⟨st₂, hrun, _, hct₂, hcr₂⟩ := runToolCalls_of_toolTexts w (requestedCalls responses) ""
    { world := s₃
      trace := st₁.trace ++
        [.ollamaChat (toolRequest config userPrompt (ConvertToOllamaTools tools))] } texts s₄
    hcalls
  rw [hrun] at hphase
  have hcontent : "" ++ concatTexts texts = concatTexts texts := by simp
  rw [hcontent] at hphase
  obtain ⟨h₁, h₂⟩ := Run_after_tools w config userPrompt st st₁ st₂ _ _ hI hphase
  constructor
  · rw [h₁, hcr₂]
    simp [chatRequests_append, chatRequests, hcr]
  · rw [h₂, hct₂]
    simp [callToolRequests_append, callToolRequests, hct]

/-- C12 (as stated) fails: in `inbandWorld` the second of three invocations
fails at the tool server, which reports it inside the result (`IsError`);
`Run` returns nil, all three invocations are sent, and the answer-phase call is
made, with the error text among the tool output. -/
theorem run_tool_failure_counterexample :
    (inbandWorld.CallTool () (fetchRequestOf (balanceCall "nobody"))).1 =
        .ok { Content := [errorContent], IsError := true } ∧
      (Run inbandWorld demoConfig "balances?" { world := (), trace := [] }).1 = none ∧
      callToolRequests (Run inbandWorld demoConfig "balances?"
        { world := (), trace := [] }).2.trace =
        [fetchRequestOf (balanceCall "alice"), fetchRequestOf (balanceCall "nobody"),
         fetchRequestOf (balanceCall "bob")] ∧
      chatRequests (Run inbandWorld demoConfig "balances?" { world := (), trace := [] }).2.trace =
        [toolRequest demoConfig "balances?" (ConvertToOllamaTools [balanceTool]),
         chatRequest demoConfig "balances?" "42usdcexit status 142usdc"] := by
  refine ⟨by rfl, by rfl, by rfl, by rfl⟩

/-- C12 (amended): when the `k`-th requested invocation is the first to fail
with an error of the call to the tool server, or for want of an extractable
text in its first content block, `Run` returns an error, the tool server has
been invoked for exactly the requests `1..k` in that order, and no answer-phase
request is made. A failure that the tool handler reports inside its result
(`IsError` set, with a text) is not detected: when the other invocations give
a text as well, all the requests are invoked in order and the answer-phase
request is made, with the text of the failed result among the tool output. -/
theorem run_tool_failure {σ : Type} (w : World σ) (config : Config) (userPrompt : String)
    (st : RunState σ) (initResult : InitializeResult) (tools : List McpTool)
    (s₁ s₂ s₃ s₄ : σ) (responses : List ChatResponse) (backendErr : Option String)
    (pre : List ToolCall) (bad : ToolCall) (post : List ToolCall) (texts : List String)
    (hinit : w.Initialize st.world
        { ProtocolVersion := w.LATEST_PROTOCOL_VERSION
          ClientInfo := { Name := config.AgentName, Version := config.AgentVersion } } =
      (.ok initResult, s₁))
    (hlist : w.ListTools s₁ = (.ok tools, s₂))
    (htool : w.Chat s₂ (toolRequest config userPrompt (ConvertToOllamaTools tools)) =
      ((responses, backendErr), s₃))
    (hsplit : requestedCalls responses = pre ++ bad :: post)
    (hpre : toolTexts w pre s₃ = some (texts, s₄)) :
    (InvocationFails w s₄ bad →
      (∃ err, (Run w config userPrompt st).1 = some err) ∧
      callToolRequests (Run w config userPrompt st).2.trace =
        callToolRequests st.trace ++ (pre ++ [bad]).map fetchRequestOf ∧
      chatRequests (Run w config userPrompt st).2.trace =
        chatRequests st.trace ++
          [toolRequest config userPrompt (ConvertToOllamaTools tools)]) ∧
    (∀ (result : CallToolResult) (text : String) (texts' : List String) (s₅ s₆ : σ),
      backendErr = none →
      w.CallTool s₄ (fetchRequestOf bad) = (.ok result, s₅) →
      result.IsError = true →
      resultText result = some text →
      toolTexts w post s₅ = some (texts', s₆) →
      callToolRequests (Run w config userPrompt st).2.trace =
        callToolRequests st.trace ++ (pre ++ bad :: post).map fetchRequestOf ∧
      chatRequests (Run w config userPrompt st).2.trace =
        chatRequests st.trace ++
          [toolRequest config userPrompt (ConvertToOllamaTools tools),
           chatRequest config userPrompt (concatTexts (texts ++ text :: texts'))]) := by
  constructor
  · intro hbad
    obtain ⟨st₁, hI, hw, hcr, hct⟩ :=
      Initialize_of_ok w config st initResult tools s₁ s₂ hinit hlist
    have hphase := toolPhase_eq w (toolRequest config userPrompt (ConvertToOllamaTools tools))
      st₁ responses backendErr s₃ (by rw [hw]; exact htool)
    obtain ⟨err, content', st₂, hrun, hct₂, hcr₂⟩ := runToolCalls_fails w pre bad post ""
      { world := s₃
        trace := st₁.trace ++
          [.ollamaChat (toolRequest config userPrompt (ConvertToOllamaTools tools))] } texts s₄
      hpre hbad
    rw [hsplit, hrun] at hphase
    have hRun := Run_tools_failed w config userPrompt st st₁ st₂ _ err content' hI hphase
    rw [hRun]
    refine ⟨⟨_, rfl⟩, ?_, ?_⟩
    · rw [hct₂]
      simp [callToolRequests_append, callToolRequests, hct]
    · rw [hcr₂]
      simp [chatRequests_append, chatRequests, hcr]
  · intro result text texts' s₅ s₆ hnone hcall _ htext hpost
    subst hnone
    have hall : toolTexts w (requestedCalls responses) s₃ =
        some (texts ++ text :: texts', s₆) := by
      rw [hsplit]
      exact toolTexts_append w pre (bad :: post) s₃ s₄ s₆ texts (text :: texts') hpre
        (toolTexts_cons_ok w bad post s₄ s₅ s₆ result text texts' hcall htext hpost)
    obtain ⟨h₁, h₂⟩ := Run_tools_ok w config userPrompt st initResult tools s₁ s₂ s₃ s₆
      responses (texts ++ text :: texts') hinit hlist htool hall
    rw [hsplit] at h₂
    exact ⟨h₂, h₁⟩

/-- C12 (amended) on the cycle in `strictWorld`, where the second of three
requests is rejected with an error of the call, and on the cycle in
`inbandWorld`, where the failure of the second is reported inside its result. -/
theorem run_tool_failure_witness :
    ((∃ err, (Run strictWorld demoConfig "pay bob" { world := (), trace := [] }).1 = some err) ∧
      callToolRequests (Run strictWorld demoConfig "pay bob"
        { world := (), trace := [] }).2.trace =
        [fetchRequestOf (balanceCall "alice"), fetchRequestOf transferCall] ∧
      chatRequests (Run strictWorld demoConfig "pay bob" { world := (), trace := [] }).2.trace =
        [toolRequest demoConfig "pay bob" (ConvertToOllamaTools [balanceTool])]) ∧
    (callToolRequests (Run inbandWorld demoConfig "balances?"
        { world := (), trace := [] }).2.trace =
        [fetchRequestOf (balanceCall "alice"), fetchRequestOf (balanceCall "nobody"),
         fetchRequestOf (balanceCall "bob")] ∧
      chatRequests (Run inbandWorld demoConfig "balances?" { world := (), trace := [] }).2.trace =
        [toolRequest demoConfig "balances?" (ConvertToOllamaTools [balanceTool]),
         chatRequest demoConfig "balances?"
           (concatTexts (["42usdc"] ++ "exit status 1" :: ["42usdc"]))]) :=
  ⟨(run_tool_failure strictWorld demoConfig "pay bob" { world := (), trace := [] }
      demoInitResult [balanceTool] () () () () [strictToolResponse] none
      [balanceCall "alice"] transferCall [balanceCall "bob"] ["42usdc"] rfl rfl rfl rfl rfl).1
      (by simp [InvocationFails, strictWorld, fetchRequestOf, transferCall]),
   (run_tool_failure inbandWorld demoConfig "balances?" { world := (), trace := [] }
      demoInitResult [balanceTool] () () () () [inbandToolResponse] none
      [balanceCall "alice"] (balanceCall "nobody") [balanceCall "bob"] ["42usdc"]
      rfl rfl rfl rfl rfl).2
      { Content := [errorContent], IsError := true } "exit status 1" ["42usdc"] () ()
      rfl rfl rfl rfl rfl⟩

/-- The requests of a cycle of `Run` in terms of the run of the requested tool
calls, once initialization has succeeded and the tool model has answered. -/
theorem Run_cases {σ : Type} (w : World σ) (config : Config) (userPrompt : String)
    (st st₁ : RunState σ) (ollamaTools : List OllamaTool) (responses : List ChatResponse)
    (backendErr : Option String) (s₃ : σ)
    (hI : Initialize w config st = (.ok ollamaTools, st₁))
    (hchat : w.Chat st₁.world (toolRequest config userPrompt ollamaTools) =
      ((responses, backendErr), s₃))
    (err : Option String) (content : String) (st₂ : RunState σ)
    (hrun : runToolCalls w (requestedCalls responses) ""
        { world := s₃
          trace := st₁.trace ++ [.ollamaChat (toolRequest config userPrompt ollamaTools)] } =
      (err, content, st₂)) :
    callToolRequests (Run w config userPrompt st).2.trace = callToolRequests st₂.trace ∧
    ((err = none ∧ backendErr = none) →
      chatRequests (Run w config userPrompt st).2.trace =
        chatRequests st₂.trace ++ [chatRequest config userPrompt content]) ∧
    ((err ≠ none ∨ backendErr ≠ none) →
      chatRequests (Run w config userPrompt st).2.trace = chatRequests st₂.trace ∧
      ∃ e, (Run w config userPrompt st).1 = some e) := by
  have hphase := toolPhase_eq w (toolRequest config userPrompt ollamaTools) st₁ responses
    backendErr s₃ hchat
  rw [hrun] at hphase
  cases err with
  | some e =>
    have hRun := Run_tools_failed w config userPrompt st st₁ st₂ _ e content hI hphase
    rw [hRun]
    exact ⟨rfl, fun h => by simp at h, fun _ => ⟨rfl, _, rfl⟩⟩
  | none =>
    cases backendErr with
    | some e =>
      have hRun := Run_tools_failed w config userPrompt st st₁ st₂ _ e content hI hphase
      rw [hRun]
      exact ⟨rfl, fun h => by simp at h, fun _ => ⟨rfl, _, rfl⟩⟩
    | none =>
      obtain ⟨h₁, h₂⟩ := Run_after_tools w config userPrompt st st₁ st₂ _ content hI hphase
      exact ⟨h₂, fun _ => h₁, fun h => by simp at h⟩

theorem chatRequest_content_inj (config : Config) (userPrompt content content' : String)
    (h : chatRequest config userPrompt content = chatRequest config userPrompt content') :
    content = content' := by
  have hm : (chatRequest config userPrompt content).Messages[2]? =
      (chatRequest config userPrompt content').Messages[2]? := by rw [h]
  simp only [chatRequest, List.getElem?_cons_succ, List.getElem?_cons_zero,
    Option.some.injEq, Message.mk.injEq] at hm
  exact hm.2.1

/-- C13 (as stated) fails: `transfer` is not in the descriptor set of
`rogueWorld` nor of `strictWorld`, yet in both the invocation of `transfer` is
sent to the tool server, and in `rogueWorld`, whose server answers it, its text
is the tool output of the answer phase. -/
theorem run_tool_names_counterexample :
    "transfer" ∉ [balanceTool].map (fun tool => tool.Name) ∧
      callToolRequests (Run rogueWorld demoConfig "pay bob" { world := (), trace := [] }).2.trace =
        [fetchRequestOf transferCall] ∧
      chatRequests (Run rogueWorld demoConfig "pay bob" { world := (), trace := [] }).2.trace =
        [toolRequest demoConfig "pay bob" (ConvertToOllamaTools [balanceTool]),
         chatRequest demoConfig "pay bob" "sent 5usdc"] ∧
      callToolRequests (Run strictWorld demoConfig "pay bob" { world := (), trace := [] }).2.trace =
        [fetchRequestOf (balanceCall "alice"), fetchRequestOf transferCall] := by
  refine ⟨by decide, rfl, rfl, rfl⟩

/-- C13 (amended): in every cycle the invocations sent to the tool server are
those of a prefix of the model's requests, in order, under the requested names:
`Run` does not check a name against the descriptor set. When the tool server
rejects every name outside the set listed in this cycle, the tool output of an
answer phase that is reached is the concatenation of texts of successful
invocations, all of listed tools; and a request naming a tool outside the set
is still sent, `Run` then returns an error and the answer phase is not reached. -/
theorem run_tool_names {σ : Type} (w : World σ) (config : Config) (userPrompt : String)
    (st : RunState σ) (initResult : InitializeResult) (tools : List McpTool)
    (s₁ s₂ s₃ : σ) (responses : List ChatResponse) (backendErr : Option String)
    (hinit : w.Initialize st.world
        { ProtocolVersion := w.LATEST_PROTOCOL_VERSION
          ClientInfo := { Name := config.AgentName, Version := config.AgentVersion } } =
      (.ok initResult, s₁))
    (hlist : w.ListTools s₁ = (.ok tools, s₂))
    (htool : w.Chat s₂ (toolRequest config userPrompt (ConvertToOllamaTools tools)) =
      ((responses, backendErr), s₃)) :
    (∃ sent, sent <+: requestedCalls responses ∧
      callToolRequests (Run w config userPrompt st).2.trace =
        callToolRequests st.trace ++ sent.map fetchRequestOf) ∧
    ((∀ s req, req.Name ∉ tools.map (fun tool => tool.Name) →
        ∃ err s', w.CallTool s req = (.error err, s')) →
      (∀ content,
        chatRequests (Run w config userPrompt st).2.trace =
          chatRequests st.trace ++
            [toolRequest config userPrompt (ConvertToOllamaTools tools),
             chatRequest config userPrompt content] →
        (∃ texts s₄, toolTexts w (requestedCalls responses) s₃ = some (texts, s₄) ∧
          content = concatTexts texts) ∧
        ∀ toolCall ∈ requestedCalls responses,
          toolCall.Function.Name ∈ tools.map (fun tool => tool.Name)) ∧
      (∀ pre bad post texts s₄, requestedCalls responses = pre ++ bad :: post →
        toolTexts w pre s₃ = some (texts, s₄) →
        bad.Function.Name ∉ tools.map (fun tool => tool.Name) →
        (∃ err, (Run w config userPrompt st).1 = some err) ∧
        callToolRequests (Run w config userPrompt st).2.trace =
          callToolRequests st.trace ++ (pre ++ [bad]).map fetchRequestOf ∧
        chatRequests (Run w config userPrompt st).2.trace =
          chatRequests st.trace ++
            [toolRequest config userPrompt (ConvertToOllamaTools tools)])) := by
  obtain ⟨st₁, hI, hw, hcr, hct⟩ := Initialize_of_ok w config st initResult tools s₁ s₂ hinit hlist
  have hchat : w.Chat st₁.world (toolRequest config userPrompt (ConvertToOllamaTools tools)) =
      ((responses, backendErr), s₃) := by rw [hw]; exact htool
  have hstart : chatRequests (st₁.trace ++
      [.ollamaChat (toolRequest config userPrompt (ConvertToOllamaTools tools))]) =
      chatRequests st.trace ++ [toolRequest config userPrompt (ConvertToOllamaTools tools)] := by
    simp [chatRequests_append, chatRequests, hcr]
  have hstart' : callToolRequests (st₁.trace ++
      [.ollamaChat (toolRequest config userPrompt (ConvertToOllamaTools tools))]) =
      callToolRequests st.trace := by
    simp [callToolRequests_append, callToolRequests, hct]
  refine ⟨?_, fun hreject => ⟨fun content htrace => ?_, fun pre bad post texts s₄ hsplit hpre hname => ?_⟩⟩
  · rcases hrun : runToolCalls w (requestedCalls responses) ""
        { world := s₃
          trace := st₁.trace ++
            [.ollamaChat (toolRequest config userPrompt (ConvertToOllamaTools tools))] }
      with ⟨err, content, st₂⟩
    obtain ⟨_, sent, hsent, htr⟩ := runToolCalls_observe w (requestedCalls responses) ""
      { world := s₃
        trace := st₁.trace ++
          [.ollamaChat (toolRequest config userPrompt (ConvertToOllamaTools tools))] }
    rw [hrun] at htr
    refine ⟨sent, hsent, ?_⟩
    rw [(Run_cases w config userPrompt st st₁ _ responses backendErr s₃ hI hchat err content st₂
      hrun).1, htr, hstart']
  · rcases toolTexts_dichotomy w (requestedCalls responses) s₃ with
      ⟨texts, s₄, ht⟩ | ⟨pre, bad, post, texts, s₄, hsplit, hpre, hbad⟩
    · obtain ⟨st₂, hrun, _, _, hcr₂⟩ := runToolCalls_of_toolTexts w (requestedCalls responses) ""
        { world := s₃
          trace := st₁.trace ++
            [.ollamaChat (toolRequest config userPrompt (ConvertToOllamaTools tools))] }
        texts s₄ ht
      obtain ⟨_, hok, hfail⟩ := Run_cases w config userPrompt st st₁ _ responses backendErr s₃
        hI hchat none _ st₂ hrun
      refine ⟨⟨texts, s₄, ht, ?_⟩, toolTexts_names w _ hreject _ _ _ _ ht⟩
      cases backendErr with
      | some e =>
        have := (hfail (Or.inr (by simp))).1
        rw [this, hcr₂, hstart] at htrace
        simp at htrace
      | none =>
        have := hok ⟨rfl, rfl⟩
        rw [this, hcr₂, hstart] at htrace
        simp only [List.append_assoc, List.singleton_append, List.append_cancel_left_eq,
          List.cons.injEq, and_true, true_and] at htrace
        have hc := chatRequest_content_inj _ _ _ _ htrace
        rw [← hc]
        simp
    · exfalso
      obtain ⟨err, content', st₂, hrun, _, hcr₂⟩ := runToolCalls_fails w pre bad post ""
        { world := s₃
          trace := st₁.trace ++
            [.ollamaChat (toolRequest config userPrompt (ConvertToOllamaTools tools))] }
        texts s₄ hpre hbad
      rw [← hsplit] at hrun
      have := ((Run_cases w config userPrompt st st₁ _ responses backendErr s₃ hI hchat
        (some err) content' st₂ hrun).2.2 (Or.inl (by simp))).1
      rw [this, hcr₂, hstart] at htrace
      simp at htrace
  · have hbad := invocationFails_of_reject w _ hreject s₄ bad hname
    obtain ⟨err, content', st₂, hrun, hct₂, hcr₂⟩ := runToolCalls_fails w pre bad post ""
      { world := s₃
        trace := st₁.trace ++
          [.ollamaChat (toolRequest config userPrompt (ConvertToOllamaTools tools))] }
      texts s₄ hpre hbad
    rw [← hsplit] at hrun
    obtain ⟨h₁, _, h₃⟩ := Run_cases w config userPrompt st st₁ _ responses backendErr s₃ hI hchat
      (some err) content' st₂ hrun
    obtain ⟨h₄, h₅⟩ := h₃ (Or.inl (by simp))
    exact ⟨h₅, by rw [h₁, hct₂, hstart'], by rw [h₄, hcr₂, hstart]⟩

/-- C13 (amended) on the cycle in `strictWorld`, whose tool server rejects every
name but `balance`. -/
theorem run_tool_names_witness :
    (∃ sent, sent <+: requestedCalls [strictToolResponse] ∧
      callToolRequests (Run strictWorld demoConfig "pay bob" { world := (), trace := [] }).2.trace =
        callToolRequests [] ++ sent.map fetchRequestOf) ∧
    (∀ pre bad post texts s₄, requestedCalls [strictToolResponse] = pre ++ bad :: post →
      toolTexts strictWorld pre () = some (texts, s₄) →
      bad.Function.Name ∉ [balanceTool].map (fun tool => tool.Name) →
      (∃ err, (Run strictWorld demoConfig "pay bob" { world := (), trace := [] }).1 = some err) ∧
      callToolRequests (Run strictWorld demoConfig "pay bob" { world := (), trace := [] }).2.trace =
        callToolRequests [] ++ (pre ++ [bad]).map fetchRequestOf ∧
      chatRequests (Run strictWorld demoConfig "pay bob" { world := (), trace := [] }).2.trace =
        chatRequests [] ++
          [toolRequest demoConfig "pay bob" (ConvertToOllamaTools [balanceTool])]) :=
  ⟨(run_tool_names strictWorld demoConfig "pay bob" { world := (), trace := [] }
      demoInitResult [balanceTool] () () () [strictToolResponse] none rfl rfl rfl).1,
   ((run_tool_names strictWorld demoConfig "pay bob" { world := (), trace := [] }
      demoInitResult [balanceTool] () () () [strictToolResponse] none rfl rfl rfl).2
      (by
        intro s req hname
        have hne : ¬ req.Name = "balance" := by simpa [balanceTool] using hname
        exact ⟨"tool not found: " ++ req.Name, (), by simp [strictWorld, hne]⟩)).2⟩

/-- C19: the tool-phase request `Run` sends has exactly two messages, the fixed
tool-relevance system instruction and a user message with the user goal
unchanged, streaming disabled, the options `temperature = 0.0` and
`repeat_last_n = 2`, and as tool list the schemas translated from the
descriptors this cycle's `ListTools` returned. -/
theorem run_tool_request {σ : Type} (w : World σ) (config : Config) (userPrompt : String)
    (st : RunState σ) (initResult : InitializeResult) (tools : List McpTool) (s₁ s₂ : σ)
    (hinit : w.Initialize st.world
        { ProtocolVersion := w.LATEST_PROTOCOL_VERSION
          ClientInfo := { Name := config.AgentName, Version := config.AgentVersion } } =
      (.ok initResult, s₁))
    (hlist : w.ListTools s₁ = (.ok tools, s₂)) :
    ∃ later,
      chatRequests (Run w config userPrompt st).2.trace =
        chatRequests st.trace ++
          { Model := config.ToolsModel
            Messages :=
              [{ Role := "system", Content := systemMCPInstructions, ToolCalls := [] },
               { Role := "user", Content := userPrompt, ToolCalls := [] }]
            Options := [("temperature", .number 0), ("repeat_last_n", .number 2)]
            Tools := some (ConvertToOllamaTools tools)
            Stream := some false } :: later := by
  obtain ⟨st₁, hI, hw, hcr, hct⟩ := Initialize_of_ok w config st initResult tools s₁ s₂ hinit hlist
  rcases hchat : w.Chat st₁.world (toolRequest config userPrompt (ConvertToOllamaTools tools))
    with ⟨⟨responses, backendErr⟩, s₃⟩
  rcases hrun : runToolCalls w (requestedCalls responses) ""
      { world := s₃
        trace := st₁.trace ++
          [.ollamaChat (toolRequest config userPrompt (ConvertToOllamaTools tools))] }
    with ⟨err, content, st₂⟩
  have hobs := (runToolCalls_observe w (requestedCalls responses) ""
    { world := s₃
      trace := st₁.trace ++
        [.ollamaChat (toolRequest config userPrompt (ConvertToOllamaTools tools))] }).1
  rw [hrun] at hobs
  simp only [chatRequests_append, chatRequests, hcr] at hobs
  obtain ⟨_, hok, hfail⟩ := Run_cases w config userPrompt st st₁ _ responses backendErr s₃
    hI hchat err content st₂ hrun
  by_cases hcase : err = none ∧ backendErr = none
  · refine ⟨[chatRequest config userPrompt content], ?_⟩
    rw [hok hcase, hobs]
    simp [toolRequest]
  · refine ⟨[], ?_⟩
    have hor : err ≠ none ∨ backendErr ≠ none := by
      by_contra hn
      push_neg at hn
      exact hcase hn
    rw [(hfail hor).1, hobs]
    simp [toolRequest]

/-- C19 on the cycle in `demoWorld`. -/
theorem run_tool_request_witness :
    ∃ later,
      chatRequests (Run demoWorld demoConfig "balance of alice?"
          { world := (), trace := [] }).2.trace =
        chatRequests [] ++
          { Model := "llama3.2:3b-instruct-fp16"
            Messages :=
              [{ Role := "system", Content := systemMCPInstructions, ToolCalls := [] },
               { Role := "user", Content := "balance of alice?", ToolCalls := [] }]
            Options := [("temperature", .number 0), ("repeat_last_n", .number 2)]
            Tools := some (ConvertToOllamaTools [balanceTool])
            Stream := some false } :: later :=
  run_tool_request demoWorld demoConfig "balance of alice?" { world := (), trace := [] }
    demoInitResult [balanceTool] () () rfl rfl

/-- C20: once the tool phase has succeeded with the accumulated tool output
`contentForThePrompt`, the request `Run` sends next, the answer-phase request,
has exactly three messages in this order, the fixed answer system instruction,
a user message with the original user goal and a user message with the
accumulated tool output, streaming enabled, the options `temperature = 0.0`
and `repeat_last_n = -1`, and no tool schemas. -/
theorem run_answer_request {σ : Type} (w : World σ) (config : Config) (userPrompt : String)
    (st st₁ st₂ : RunState σ) (ollamaTools : List OllamaTool) (contentForThePrompt : String)
    (hinit : Initialize w config st = (.ok ollamaTools, st₁))
    (htool : Chat w (toolRequest config userPrompt ollamaTools)
        (fun resp content st => runToolCalls w resp.Message.ToolCalls content st) "" st₁ =
      (none, contentForThePrompt, st₂)) :
    chatRequests (Run w config userPrompt st).2.trace =
      chatRequests st₂.trace ++
        [{ Model := config.ChatModel
           Messages :=
             [{ Role := "system", Content := systemChatInstructions, ToolCalls := [] },
              { Role := "user", Content := userPrompt, ToolCalls := [] },
              { Role := "user", Content := contentForThePrompt, ToolCalls := [] }]
           Options := [("temperature", .number 0), ("repeat_last_n", .number (-1))]
           Tools := none
           Stream := some true }] :=
  (Run_after_tools w config userPrompt st st₁ st₂ ollamaTools contentForThePrompt hinit htool).1

/-- C20 on the cycle in `demoWorld`, whose tool output is `42usdc`. -/
theorem run_answer_request_witness :
    chatRequests (Run demoWorld demoConfig "balance of alice?"
        { world := (), trace := [] }).2.trace =
      chatRequests demoAfterTools.trace ++
        [{ Model := "llama3.2:3b"
           Messages :=
             [{ Role := "system", Content := systemChatInstructions, ToolCalls := [] },
              { Role := "user", Content := "balance of alice?", ToolCalls := [] },
              { Role := "user", Content := "42usdc", ToolCalls := [] }]
           Options := [("temperature", .number 0), ("repeat_last_n", .number (-1))]
           Tools := none
           Stream := some true }] :=
  run_answer_request demoWorld demoConfig "balance of alice?" { world := (), trace := [] }
    demoAfterInit demoAfterTools (ConvertToOllamaTools [balanceTool]) "42usdc" rfl rfl

/-! ### Library `encoding/json`: decoding what was encoded -/

theorem hexValue_digitChar (k : Nat) (hk : k < 16) : hexValue (Nat.digitChar k) = some k := by
  interval_cases k <;> rfl

theorem getu4_hex4 (n : Nat) (hn : n < 65536) :
    getu4 (Nat.digitChar (n / 4096 % 16)) (Nat.digitChar (n / 256 % 16))
      (Nat.digitChar (n / 16 % 16)) (Nat.digitChar (n % 16)) = some n := by
  unfold getu4
  rw [hexValue_digitChar _ (Nat.mod_lt _ (by decide)),
    hexValue_digitChar _ (Nat.mod_lt _ (by decide)),
    hexValue_digitChar _ (Nat.mod_lt _ (by decide)),
    hexValue_digitChar _ (Nat.mod_lt _ (by decide))]
  simp only [Option.some.injEq]
  omega

theorem decodeEscape_hex (c : Char) (rest : List Char) (hlow : c.toNat < 0xD800) :
    decodeEscape ('u' :: (hex4 c.toNat ++ rest)) = some (c, 5) := by
  have hn : c.toNat < 65536 := by omega
  have hsur : ¬ (0xD800 ≤ c.toNat ∧ c.toNat < 0xE000) := by omega
  simp only [hex4, List.cons_append, List.nil_append, decodeEscape]
  simp only [getu4_hex4 c.toNat hn, hsur, if_false, Char.ofNat_toNat]
  simp

theorem unquoteBody_hex (c : Char) (rest acc : List Char)
    (hlow : c.toNat < 0xD800) :
    unquoteBody ('\\' :: 'u' :: hex4 c.toNat ++ rest) 0 acc =
      unquoteBody rest 0 (acc ++ [c]) := by
  have h := decodeEscape_hex c rest hlow
  simp only [List.cons_append] at h ⊢
  rw [unquoteBody.eq_3, h]
  simp [hex4, unquoteBody]

theorem unquoteBody_escape (c : Char) (rest acc : List Char) :
    unquoteBody (jsonEscapeChar c ++ rest) 0 acc = unquoteBody rest 0 (acc ++ [c]) := by
  unfold jsonEscapeChar
  split_ifs with h₁ h₂ h₃ h₄ h₅ h₆ h₇ h₈
  · subst h₁; simp [unquoteBody, decodeEscape]
  · subst h₂; simp [unquoteBody, decodeEscape]
  · subst h₃; simp [unquoteBody, decodeEscape]
  · subst h₄; simp [unquoteBody, decodeEscape]
  · subst h₅; simp [unquoteBody, decodeEscape]
  · subst h₆; simp [unquoteBody, decodeEscape]
  · subst h₇; simp [unquoteBody, decodeEscape]
  · apply unquoteBody_hex
    rcases h₈ with h | h | h | h | h | h
    · omega
    · subst h; decide
    · subst h; decide
    · subst h; decide
    · omega
    · omega
  · have hctl : ¬ c.toNat < 0x20 := fun h => h₈ (Or.inl h)
    simp [unquoteBody, h₁, h₂, hctl]

theorem unquoteBody_quote (s rest acc : List Char) :
    unquoteBody (s.flatMap jsonEscapeChar ++ '"' :: rest) 0 acc =
      some (String.mk (acc ++ s), rest) := by
  induction s generalizing acc with
  | nil => simp [unquoteBody]
  | cons c cs ih =>
    rw [List.flatMap_cons, List.append_assoc, unquoteBody_escape, ih]
    simp

theorem parseJson_quote (fuel : Nat) (s : String) (rest : List Char) :
    parseJson (fuel + 1) .value (jsonQuote s ++ rest) = some (.string s, rest) := by
  simp only [jsonQuote, List.cons_append, List.append_assoc, List.singleton_append, parseJson,
    skipSpace]
  simp [unquoteBody_quote]

theorem parseJson_members (members : List (String × String)) (hne : members ≠ [])
    (fuel : Nat) (hfuel : members.length < fuel) (acc : List (String × GoValue))
    (rest : List Char) :
    parseJson fuel (.members acc) (encodeMembers members ++ rest) =
      some (.map (acc ++ members.map fun kv => (kv.1, GoValue.string kv.2)), rest) := by
  induction members generalizing fuel acc with
  | nil => exact absurd rfl hne
  | cons kv ms ih =>
    obtain ⟨k, v⟩ := kv
    obtain ⟨f, rfl⟩ : ∃ f, fuel = f + 1 := ⟨fuel - 1, by simp at hfuel; omega⟩
    have hvalue : ∀ tail : List Char,
        parseJson f .value (jsonQuote v ++ tail) = some (.string v, tail) := by
      intro tail
      obtain ⟨g, rfl⟩ : ∃ g, f = g + 1 := ⟨f - 1, by simp at hfuel; omega⟩
      exact parseJson_quote g v tail
    have hkey : ∀ tail : List Char,
        unquoteBody (k.data.flatMap jsonEscapeChar ++ '"' :: tail) 0 [] = some (k, tail) := by
      intro tail
      rw [unquoteBody_quote]
      simp
    have hin : encodeMembers ((k, v) :: ms) ++ rest =
        '"' :: (k.data.flatMap jsonEscapeChar ++ '"' :: ':' :: (jsonQuote v ++
          ((if ms.isEmpty then ['\x7d'] else ',' :: encodeMembers ms) ++ rest))) := by
      simp [encodeMembers, jsonQuote]
    rw [hin, parseJson]
    simp only [skipSpace, Char.reduceEq, or_self, if_false, if_true, hkey, hvalue]
    cases ms with
    | nil => simp [skipSpace]
    | cons kv' ms' =>
      simp only [List.isEmpty_cons, Bool.false_eq_true, if_false, List.cons_append, skipSpace,
        Char.reduceEq, or_self, if_true]
      have hih := ih (by simp) f (by simp at hfuel ⊢; omega) (acc ++ [(k, GoValue.string v)])
      simp only [List.append_eq] at hih ⊢
      rw [hih]
      simp

theorem encodeMembers_length (members : List (String × String)) :
    members.length ≤ (encodeMembers members).length := by
  induction members with
  | nil => simp [encodeMembers]
  | cons kv ms ih =>
    obtain ⟨k, v⟩ := kv
    cases ms with
    | nil => simp [encodeMembers, jsonQuote]
    | cons kv' ms' =>
      simp only [encodeMembers, jsonQuote, List.length_cons, List.length_append,
        List.isEmpty_cons, Bool.false_eq_true, if_false] at ih ⊢
      omega

/-- Decoding gives back the members of an encoded object of strings. -/
theorem jsonParse_jsonObject (members : List (String × String)) :
    jsonParse (String.mk (jsonObject members)) =
      some (.map (members.map fun kv => (kv.1, GoValue.string kv.2))) := by
  unfold jsonParse jsonObject
  cases members with
  | nil => rfl
  | cons kv ms =>
    have hlen := encodeMembers_length (kv :: ms)
    have h := parseJson_members (kv :: ms) (by simp) ((encodeMembers (kv :: ms)).length + 1)
      (by omega) [] []
    obtain ⟨tl, htl⟩ : ∃ tl, encodeMembers (kv :: ms) = '"' :: tl :=
      ⟨_, by simp only [encodeMembers, jsonQuote, List.cons_append]; rfl⟩
    simp only [List.append_nil, List.nil_append] at h
    simp only [List.isEmpty_cons, Bool.false_eq_true, if_false, String.length, List.length_cons]
    rw [htl] at h ⊢
    rw [parseJson]
    simp only [skipSpace, Char.reduceEq, or_self, if_false, if_true, h]

theorem digitChar_ne_newline (k : Nat) (hk : k < 16) : Nat.digitChar k ≠ '\n' := by
  interval_cases k <;> decide

theorem newline_not_mem_jsonEscapeChar (c : Char) : '\n' ∉ jsonEscapeChar c := by
  unfold jsonEscapeChar
  split_ifs with h₁ h₂ h₃ h₄ h₅ h₆ h₇ h₈
  all_goals try decide
  · simp only [hex4, List.mem_cons, List.mem_singleton, List.not_mem_nil, or_false, not_or]
    have hd : ∀ k, '\n' ≠ Nat.digitChar (k % 16) :=
      fun k => (digitChar_ne_newline _ (Nat.mod_lt _ (by decide))).symm
    exact ⟨by decide, by decide, hd _, hd _, hd _, hd _⟩
  · simp only [List.mem_singleton]
    exact fun h => h₅ h.symm

theorem newline_not_mem_jsonQuote (s : String) : '\n' ∉ jsonQuote s := by
  unfold jsonQuote
  simp only [List.mem_cons, List.mem_append, List.mem_flatMap, List.mem_singleton,
    List.not_mem_nil, or_false, not_or, not_exists, not_and]
  exact ⟨by decide, fun c _ => newline_not_mem_jsonEscapeChar c, by decide⟩

theorem newline_not_mem_encodeMembers (members : List (String × String)) :
    '\n' ∉ encodeMembers members := by
  induction members with
  | nil => simp [encodeMembers]
  | cons kv ms ih =>
    obtain ⟨k, v⟩ := kv
    simp only [encodeMembers, List.mem_append, List.mem_cons, not_or]
    refine ⟨newline_not_mem_jsonQuote k, by decide, newline_not_mem_jsonQuote v, ?_⟩
    split
    · simp
    · simp only [List.mem_cons, not_or]
      exact ⟨by decide, ih⟩

theorem newline_not_mem_jsonObject (members : List (String × String)) :
    '\n' ∉ jsonObject members := by
  unfold jsonObject
  simp only [List.mem_cons, not_or]
  refine ⟨by decide, ?_⟩
  split
  · simp
  · exact newline_not_mem_encodeMembers members

/-! ### `hacks/agent3.go`: decoding a record -/

theorem GoMap.set_of_not_mem {β : Type} (m : GoMap β) (k : String) (v : β)
    (h : k ∉ GoMap.keys m) : m.set k v = m ++ [(k, v)] := by
  induction m with
  | nil => rfl
  | cons e rest ih =>
    obtain ⟨k', v'⟩ := e
    simp only [GoMap.keys, List.map_cons, List.mem_cons, not_or] at h
    have hne : ¬ k' = k := fun hk => h.1 hk.symm
    simp only [GoMap.set, hne, if_false, List.cons_append]
    rw [ih h.2]

theorem GoMap.get_append_of_get {β : Type} (m m' : GoMap β) (k : String) (v : β)
    (h : m.get k = some v) : GoMap.get (m ++ m') k = some v := by
  induction m with
  | nil => simp [GoMap.get] at h
  | cons e rest ih =>
    obtain ⟨k', v'⟩ := e
    by_cases hk : k' = k
    · simpa [GoMap.get, hk] using h
    · simp only [GoMap.get, hk, if_false, List.cons_append] at h ⊢
      exact ih h

theorem decodeMembers_strings (known : Interaction) (rest : List (String × GoValue))
    (acc : Interaction) (h : (GoMap.keys acc ++ GoMap.keys known).Nodup) :
    decodeMembers (known.map (fun kv => (kv.1, GoValue.string kv.2)) ++ rest) acc =
      decodeMembers rest (acc ++ known) := by
  induction known generalizing acc with
  | nil => simp
  | cons e more ih =>
    obtain ⟨k, v⟩ := e
    have hk : k ∉ GoMap.keys acc := by
      intro hmem
      have := List.nodup_append.mp h
      exact this.2.2 hmem (by simp [GoMap.keys])
    have hstep : decodeMembers
        (((k, v) :: more).map (fun kv => (kv.1, GoValue.string kv.2)) ++ rest) acc =
        decodeMembers (more.map (fun kv => (kv.1, GoValue.string kv.2)) ++ rest)
          (GoMap.set acc k v) := rfl
    rw [hstep, GoMap.set_of_not_mem acc k v hk, ih (acc ++ [(k, v)])]
    · simp
    · simpa [GoMap.keys, List.append_assoc] using h

theorem partitionSelected_today (now maxDays : Int) (hnow : Int64Range now) :
    partitionSelected (epochDayOf now) maxDays (partitionName (epochDayOf now)) = true := by
  rw [partitionSelected_partitionName _ _ _ (epochDayOf_range now hnow)
    (epochDayOf_range now hnow)]
  simp only [sub_self, decide_eq_true_eq]
  omega

theorem load_single_file (unmarshal : String → Except String Interaction) (now maxDays : Int)
    (text : String) (hnow : Int64Range now) :
    loadInteractionHistory unmarshal now
        (.entries [{ name := partitionName (epochDayOf now), data := some text }]) maxDays =
      .ok (recordsOfLines unmarshal (stringsSplit text '\n')) := by
  simp only [loadInteractionHistory]
  rw [loadFiles_cons, partitionSelected_today now maxDays hnow]
  simp [loadFiles]

theorem recordsOfLines_single (unmarshal : String → Except String Interaction)
    (line : String) (hline : line ≠ "") (hnl : '\n' ∉ line.data) :
    recordsOfLines unmarshal (stringsSplit (line ++ "\n") '\n') =
      match unmarshal line with
      | .ok record => [record]
      | .error _ => [] := by
  have hsplit : stringsSplit (line ++ "\n") '\n' = [line, ""] := by
    have hjoin : line ++ "\n" = joinLines [line, ""] := by simp [joinLines]
    rw [hjoin]
    unfold stringsSplit
    rw [splitOn_joinLines line [""] (by
      intro l hl
      simp only [List.mem_cons, List.mem_singleton, List.not_mem_nil, or_false] at hl
      rcases hl with rfl | rfl
      · exact hnl
      · decide)]
    rfl
  rw [hsplit, ← loadLines_eq_records]
  simp only [loadLines, hline, if_false, if_true]
  cases unmarshal line <;> rfl

theorem recordsOfLines_append (unmarshal : String → Except String Interaction)
    (xs ys : List String) :
    recordsOfLines unmarshal (xs ++ ys) =
      recordsOfLines unmarshal xs ++ recordsOfLines unmarshal ys := by
  simp [recordsOfLines]

theorem recordsOfLines_cons (unmarshal : String → Except String Interaction)
    (line : String) (rest : List String) (hline : line ≠ "") :
    recordsOfLines unmarshal (line :: rest) =
      (match unmarshal line with
        | .ok record => [record]
        | .error _ => []) ++ recordsOfLines unmarshal rest := by
  unfold recordsOfLines wellFormedLine
  cases h : unmarshal line <;> simp [h, hline, Except.toOption]

theorem loadInteractionHistory_linesDir (unmarshal : String → Except String Interaction)
    (now maxDays : Int) (files : List (String × List String))
    (hlines : ∀ f ∈ files, ∀ l ∈ f.2, '\n' ∉ l.data) :
    loadInteractionHistory unmarshal now (linesDir files) maxDays =
      .ok (selectedRecords unmarshal (epochDayOf now) maxDays files) := by
  simp only [loadInteractionHistory, linesDir, selectedRecords]
  rw [loadFiles_lines unmarshal (epochDayOf now) maxDays files hlines]

theorem selectedRecords_split (unmarshal : String → Except String Interaction)
    (todayEpochDay maxDays : Int) (before after : List (String × List String))
    (name : String) (lines : List String)
    (hsel : partitionSelected todayEpochDay maxDays name = true) :
    selectedRecords unmarshal todayEpochDay maxDays (before ++ (name, lines) :: after) =
      selectedRecords unmarshal todayEpochDay maxDays before ++
        (recordsOfLines unmarshal lines ++
          selectedRecords unmarshal todayEpochDay maxDays after) := by
  simp [selectedRecords, List.filter_append, List.filter_cons, hsel, List.flatMap_append]

/-- The decoding of an object whose members are strings but for the member
`key`, whose value is `extra`. -/
theorem unmarshalInteraction_member (parse : String → Option GoValue) (line : String)
    (pre post : Interaction) (key : String) (extra : GoValue)
    (hkeys : (GoMap.keys pre ++ key :: GoMap.keys post).Nodup)
    (hparse : parse line =
      some (.map (pre.map (fun kv => (kv.1, GoValue.string kv.2)) ++
        (key, extra) :: post.map (fun kv => (kv.1, GoValue.string kv.2))))) :
    (∀ s, extra = GoValue.string s →
      unmarshalInteraction parse line = .ok (pre ++ (key, s) :: post)) ∧
    (extra = GoValue.null → unmarshalInteraction parse line = .ok (pre ++ (key, "") :: post)) ∧
    ((∀ s, extra ≠ GoValue.string s) → extra ≠ GoValue.null →
      ∃ err, unmarshalInteraction parse line = .error err) := by
  have hpre : (GoMap.keys ([] : Interaction) ++ GoMap.keys pre).Nodup := by
    have := (List.nodup_append.mp hkeys).1
    simpa [GoMap.keys] using this
  have hkey : key ∉ GoMap.keys pre := by
    intro hmem
    exact (List.nodup_append.mp hkeys).2.2 hmem (List.mem_cons_self _ _)
  have hstart : unmarshalInteraction parse line =
      decodeMembers ((key, extra) :: post.map (fun kv => (kv.1, GoValue.string kv.2))) pre := by
    simp only [unmarshalInteraction, hparse, decodeStringMap]
    rw [decodeMembers_strings pre _ [] hpre]
    simp
  have hpost : ∀ v : String,
      decodeMembers (post.map (fun kv => (kv.1, GoValue.string kv.2))) (pre.set key v) =
        .ok (pre ++ (key, v) :: post) := by
    intro v
    rw [GoMap.set_of_not_mem pre key v hkey]
    have h := decodeMembers_strings post [] (pre ++ [(key, v)]) (by
      simpa [GoMap.keys, List.append_assoc] using hkeys)
    simp only [List.append_nil] at h
    rw [h]
    simp [decodeMembers]
  refine ⟨?_, ?_, ?_⟩
  · intro s hs
    subst hs
    rw [hstart]
    exact hpost s
  · intro hs
    subst hs
    rw [hstart]
    exact hpost ""
  · intro hstr hnull
    rw [hstart]
    cases extra with
    | string s => exact absurd rfl (hstr s)
    | null => exact absurd rfl hnull
    | bool b => exact ⟨_, rfl⟩
    | number n => exact ⟨_, rfl⟩
    | slice xs => exact ⟨_, rfl⟩
    | map m => exact ⟨_, rfl⟩

theorem GoMap.get_insert_of_get {β : Type} (pre post : GoMap β) (key : String) (v : β)
    (hkey : key ∉ GoMap.keys post) (field : String) (value : β)
    (h : GoMap.get (pre ++ post) field = some value) :
    GoMap.get (pre ++ (key, v) :: post) field = some value := by
  induction pre with
  | nil =>
    simp only [List.nil_append] at h ⊢
    have hne : ¬ key = field := by
      intro hk
      subst hk
      rw [GoMap.get_eq_none_of_not_mem post key hkey] at h
      cases h
    simp only [GoMap.get, hne, if_false]
    exact h
  | cons e rest ih =>
    obtain ⟨k', v'⟩ := e
    by_cases hk : k' = field
    · simpa [GoMap.get, hk] using h
    · simp only [List.cons_append, GoMap.get, hk, if_false] at h ⊢
      exact ih h

/-- C17 (as stated) fails: `retriesLine` carries the known string fields and,
between them, an unknown field whose value is a number; the decoder rejects
the line and `loadInteractionHistory` returns no record for it, while it
returns the record of the line after it. -/
theorem load_extra_field_counterexample :
    jsonParse retriesLine =
        some (.map [("action", .string "a"), ("observation", .string "o"),
          ("retries", .number 3), ("thought", .string "t")]) ∧
      loadInteractionHistory (unmarshalInteraction jsonParse) 1710810000
        (.entries [{ name := "19801_traj.jsonl", data := some (retriesLine ++ "\n") }]) 7 =
        .ok [] ∧
      loadInteractionHistory (unmarshalInteraction jsonParse) 1710810000
        (linesDir [("19801_traj.jsonl", [retriesLine, noteLine, ""])]) 7 =
        .ok [[("action", "a"), ("note", "n"), ("observation", "o"), ("thought", "t")]] := by
  refine ⟨by rfl, by rfl, by rfl⟩

/-- C17 (amended): for a line of a selected partition, wherever it stands in
the file and the file in the directory, that carries among known string
fields one unknown additional field, wherever it stands in the line,
`loadInteractionHistory` returns the record of the line in its place, with the
known fields intact, when the additional value is a string or `null` (stored
as the empty string); when it is a number, a boolean, a list or an object the
decoder fails and the line is skipped: the result is that of the directory
without the line. -/
theorem load_extra_field (parse : String → Option GoValue) (now maxDays : Int)
    (before after : List (String × List String)) (name : String) (l₁ l₂ : List String)
    (line : String) (pre post : Interaction) (key : String) (extra : GoValue)
    (hlines : ∀ f ∈ before ++ (name, l₁ ++ line :: l₂) :: after, ∀ l ∈ f.2, '\n' ∉ l.data)
    (hsel : partitionSelected (epochDayOf now) maxDays name = true)
    (hline : line ≠ "")
    (hkeys : (GoMap.keys pre ++ key :: GoMap.keys post).Nodup)
    (hparse : parse line =
      some (.map (pre.map (fun kv => (kv.1, GoValue.string kv.2)) ++
        (key, extra) :: post.map (fun kv => (kv.1, GoValue.string kv.2))))) :
    (∀ s, extra = GoValue.string s →
      loadInteractionHistory (unmarshalInteraction parse) now
          (linesDir (before ++ (name, l₁ ++ line :: l₂) :: after)) maxDays =
        .ok (selectedRecords (unmarshalInteraction parse) (epochDayOf now) maxDays before ++
          (recordsOfLines (unmarshalInteraction parse) l₁ ++
            ((pre ++ (key, s) :: post) ::
              (recordsOfLines (unmarshalInteraction parse) l₂ ++
                selectedRecords (unmarshalInteraction parse) (epochDayOf now) maxDays
                  after))))) ∧
    (extra = GoValue.null →
      loadInteractionHistory (unmarshalInteraction parse) now
          (linesDir (before ++ (name, l₁ ++ line :: l₂) :: after)) maxDays =
        .ok (selectedRecords (unmarshalInteraction parse) (epochDayOf now) maxDays before ++
          (recordsOfLines (unmarshalInteraction parse) l₁ ++
            ((pre ++ (key, "") :: post) ::
              (recordsOfLines (unmarshalInteraction parse) l₂ ++
                selectedRecords (unmarshalInteraction parse) (epochDayOf now) maxDays
                  after))))) ∧
    ((∀ s, extra ≠ GoValue.string s) → extra ≠ GoValue.null →
      loadInteractionHistory (unmarshalInteraction parse) now
          (linesDir (before ++ (name, l₁ ++ line :: l₂) :: after)) maxDays =
        .ok (selectedRecords (unmarshalInteraction parse) (epochDayOf now) maxDays before ++
          (recordsOfLines (unmarshalInteraction parse) l₁ ++
            (recordsOfLines (unmarshalInteraction parse) l₂ ++
              selectedRecords (unmarshalInteraction parse) (epochDayOf now) maxDays
                after)))) ∧
    (∀ field value v, GoMap.get (pre ++ post) field = some value →
      GoMap.get (pre ++ (key, v) :: post) field = some value) := by
  obtain ⟨hstr, hnull, hother⟩ :=
    unmarshalInteraction_member parse line pre post key extra hkeys hparse
  have hload := loadInteractionHistory_linesDir (unmarshalInteraction parse) now maxDays
    (before ++ (name, l₁ ++ line :: l₂) :: after) hlines
  rw [selectedRecords_split _ _ _ before after name (l₁ ++ line :: l₂) hsel,
    recordsOfLines_append, recordsOfLines_cons _ line l₂ hline] at hload
  have hkey : key ∉ GoMap.keys post := by
    have h := (List.nodup_append.mp hkeys).2.1
    exact (List.nodup_cons.mp h).1
  refine ⟨?_, ?_, ?_, fun field value v h =>
    GoMap.get_insert_of_get pre post key v hkey field value h⟩
  · intro s hs
    rw [hload, hstr s hs]
    simp
  · intro hs
    rw [hload, hnull hs]
    simp
  · intro h₁ h₂
    obtain ⟨err, herr⟩ := hother h₁ h₂
    rw [hload, herr]
    simp

/-- C17 (amended) on `noteLine`, whose unknown field `note` is a string that
stands between the known fields, as the second line of the second file. -/
theorem load_extra_field_witness :
    loadInteractionHistory (unmarshalInteraction jsonParse) 1710810000
        (linesDir ([("19800_traj.jsonl", [demoLine, ""])] ++
          ("19801_traj.jsonl", [demoLine] ++ noteLine :: [retriesLine, ""]) :: [])) 7 =
      .ok (selectedRecords (unmarshalInteraction jsonParse) (epochDayOf 1710810000) 7
          [("19800_traj.jsonl", [demoLine, ""])] ++
        (recordsOfLines (unmarshalInteraction jsonParse) [demoLine] ++
          (([("action", "a")] ++ ("note", "n") :: [("observation", "o"), ("thought", "t")]) ::
            (recordsOfLines (unmarshalInteraction jsonParse) [retriesLine, ""] ++
              selectedRecords (unmarshalInteraction jsonParse) (epochDayOf 1710810000) 7
                [])))) :=
  (load_extra_field jsonParse 1710810000 7 [("19800_traj.jsonl", [demoLine, ""])] []
    "19801_traj.jsonl" [demoLine] [retriesLine, ""] noteLine [("action", "a")]
    [("observation", "o"), ("thought", "t")] "note" (.string "n")
    (by decide) (by rfl) (by decide) (by decide) (by rfl)).1 "n" rfl

/-! ### `hacks/agent3.go`: the reasoning call -/

theorem deliver_dspyCallback {σ : Type} (responses : List ChatResponse)
    (responseContent : String) (st : RunState σ) :
    deliver dspyCallback responses responseContent st =
      (none, responses.foldl (fun content resp => content ++ resp.Message.Content)
        responseContent, st) := by
  induction responses generalizing responseContent with
  | nil => rfl
  | cons resp rest ih => simp only [deliver, dspyCallback, ih, List.foldl_cons]

theorem Chat_dspyCallback {σ : Type} (w : World σ) (req : ChatRequest)
    (responseContent : String) (st : RunState σ) (responses : List ChatResponse)
    (err : Option String) (s' : σ) (h : w.Chat st.world req = ((responses, err), s')) :
    Chat w req dspyCallback responseContent st =
      (err, responses.foldl (fun content resp => content ++ resp.Message.Content)
        responseContent,
        { world := s', trace := st.trace ++ [.ollamaChat req] }) := by
  simp only [Chat, RunState.emit, h, deliver_dspyCallback]

theorem callDspyFrom_all_fail {σ : Type} (w : World σ) (agentName model prompt : String)
    (remaining attempt : Nat) (responseContent : String) (st : RunState σ)
    (errs : List String) (hlen : errs.length = remaining)
    (h : chatAttempts w (dspyRequest model prompt) remaining st.world = errs.map some) :
    (callDspyFrom w agentName model prompt remaining attempt responseContent st).1 =
        .error ("failed to call DSPy after " ++ formatInt MAX_RETRY_ATTEMPTS ++ " attempts") ∧
      chatRequests
          (callDspyFrom w agentName model prompt remaining attempt responseContent st).2.trace =
        chatRequests st.trace ++ List.replicate remaining (dspyRequest model prompt) := by
  induction remaining generalizing attempt responseContent st errs with
  | zero => simp [callDspyFrom]
  | succ n ih =>
    cases errs with
    | nil => simp at hlen
    | cons e rest =>
      rcases hc : w.Chat st.world (dspyRequest model prompt) with ⟨⟨responses, err⟩, s'⟩
      simp only [chatAttempts, hc, List.map_cons, List.cons.injEq] at h
      obtain ⟨herr, hrest⟩ := h
      subst herr
      simp only [callDspyFrom, Chat_dspyCallback w _ responseContent st responses (some e) s' hc,
        RunState.emit]
      obtain ⟨h₁, h₂⟩ := ih (attempt + 1)
        (responses.foldl (fun content resp => content ++ resp.Message.Content) responseContent)
        { world := s'
          trace := st.trace ++ [.ollamaChat (dspyRequest model prompt)] ++
            [.logPrintf "[%s] Attempt %d/%d: Failed to call DSPy: %v"
              [.str agentName, .int attempt, .int MAX_RETRY_ATTEMPTS, .str e]] ++
            [.sleep RETRY_DELAY] } rest (by simpa using hlen) hrest
      refine ⟨h₁, ?_⟩
      rw [h₂]
      simp [chatRequests_append, chatRequests, List.replicate_succ]

theorem callDspyFrom_first_success {σ : Type} (w : World σ) (agentName model prompt : String)
    (remaining attempt : Nat) (responseContent : String) (st : RunState σ)
    (errs : List String) (hlen : errs.length < remaining)
    (h : chatAttempts w (dspyRequest model prompt) (errs.length + 1) st.world =
      errs.map some ++ [none]) :
    (∃ text,
      (callDspyFrom w agentName model prompt remaining attempt responseContent st).1 =
        .ok text) ∧
      chatRequests
          (callDspyFrom w agentName model prompt remaining attempt responseContent st).2.trace =
        chatRequests st.trace ++
          List.replicate (errs.length + 1) (dspyRequest model prompt) := by
  induction remaining generalizing attempt responseContent st errs with
  | zero => simp at hlen
  | succ n ih =>
    rcases hc : w.Chat st.world (dspyRequest model prompt) with ⟨⟨responses, err⟩, s'⟩
    cases errs with
    | nil =>
      simp only [List.length_nil, Nat.zero_add, chatAttempts, hc, List.map_nil, List.nil_append,
        List.cons.injEq, and_true] at h
      subst h
      simp only [callDspyFrom, Chat_dspyCallback w _ responseContent st responses none s' hc]
      exact ⟨⟨_, rfl⟩, by simp [chatRequests_append, chatRequests]⟩
    | cons e rest =>
      simp only [List.length_cons, chatAttempts, hc, List.map_cons, List.cons_append,
        List.cons.injEq] at h
      obtain ⟨herr, hrest⟩ := h
      subst herr
      simp only [callDspyFrom, Chat_dspyCallback w _ responseContent st responses (some e) s' hc,
        RunState.emit]
      obtain ⟨h₁, h₂⟩ := ih (attempt + 1)
        (responses.foldl (fun content resp => content ++ resp.Message.Content) responseContent)
        { world := s'
          trace := st.trace ++ [.ollamaChat (dspyRequest model prompt)] ++
            [.logPrintf "[%s] Attempt %d/%d: Failed to call DSPy: %v"
              [.str agentName, .int attempt, .int MAX_RETRY_ATTEMPTS, .str e]] ++
            [.sleep RETRY_DELAY] } rest (by simpa using hlen) hrest
      refine ⟨h₁, ?_⟩
      rw [h₂]
      simp [chatRequests_append, chatRequests, List.replicate_succ]

/-- The reasoning call of `thinkAboutAction` once the history is loaded. -/
theorem thinkAboutAction_of_history {σ : Type} (env : Agent3Env) (w : World σ)
    (ps : ProcState σ) (history : List Interaction)
    (hload : loadInteractionHistory (unmarshalInteraction env.parse) (env.clock ps.ticks)
      (ps.store.toHistoryDir (env.mkdirErr ps.ticks)) 7 = .ok history) :
    (∀ err, (callDspy w env.agentName "deepseek-r1:1.5b"
        (reasoningPromptOf env (formatHistoryForPrompt history)) ps.run).1 = .error err →
      (thinkAboutAction env w ps).1 = "Failed to generate reasoning. Starting fresh." ∧
      (thinkAboutAction env w ps).2.run.trace =
        (callDspy w env.agentName "deepseek-r1:1.5b"
          (reasoningPromptOf env (formatHistoryForPrompt history)) ps.run).2.trace ++
          [.logPrintf "[%s] Failed to generate reasoning: %v"
            [.str env.agentName, .str err]]) ∧
    (∀ text, (callDspy w env.agentName "deepseek-r1:1.5b"
        (reasoningPromptOf env (formatHistoryForPrompt history)) ps.run).1 = .ok text →
      (thinkAboutAction env w ps).1 = text ∧
      (thinkAboutAction env w ps).2.run.trace =
        (callDspy w env.agentName "deepseek-r1:1.5b"
          (reasoningPromptOf env (formatHistoryForPrompt history)) ps.run).2.trace) := by
  unfold thinkAboutAction
  simp only [hload]
  rcases hc : callDspy w env.agentName "deepseek-r1:1.5b"
      (reasoningPromptOf env (formatHistoryForPrompt history)) ps.run with ⟨res, run⟩
  constructor
  · intro err herr
    simp only at herr
    subst herr
    exact ⟨rfl, rfl⟩
  · intro text htext
    simp only at htext
    subst htext
    exact ⟨rfl, rfl⟩

/-- C14: when the backend fails on three consecutive attempts, `callDspy` makes
exactly 3 attempts and returns an error; when attempt `k <= 3` is the first to
succeed (after the failures `errs`, `k = errs.length + 1`), `callDspy` makes
exactly `k` attempts and returns a text. `thinkAboutAction`, once it has
loaded the history, makes these attempts with the reasoning request: after
three failures it has sent the request 3 times, logs the error and returns the
default thought `Failed to generate reasoning. Starting fresh.`; when attempt
`k` is the first to succeed it has sent the request `k` times and returns the
text of `callDspy`. -/
theorem callDspy_retries {σ : Type} (w : World σ) (env : Agent3Env) (model prompt : String)
    (st : RunState σ) (ps : ProcState σ) (history : List Interaction) (errs : List String) :
    (errs.length = 3 →
      chatAttempts w (dspyRequest model prompt) 3 st.world = errs.map some →
      (∃ err, (callDspy w env.agentName model prompt st).1 = .error err) ∧
      chatRequests (callDspy w env.agentName model prompt st).2.trace =
        chatRequests st.trace ++ List.replicate 3 (dspyRequest model prompt)) ∧
    (errs.length < 3 →
      chatAttempts w (dspyRequest model prompt) (errs.length + 1) st.world =
        errs.map some ++ [none] →
      (∃ text, (callDspy w env.agentName model prompt st).1 = .ok text) ∧
      chatRequests (callDspy w env.agentName model prompt st).2.trace =
        chatRequests st.trace ++
          List.replicate (errs.length + 1) (dspyRequest model prompt)) ∧
    (errs.length = 3 →
      loadInteractionHistory (unmarshalInteraction env.parse) (env.clock ps.ticks)
        (ps.store.toHistoryDir (env.mkdirErr ps.ticks)) 7 = .ok history →
      chatAttempts w
        (dspyRequest "deepseek-r1:1.5b" (reasoningPromptOf env (formatHistoryForPrompt history)))
        3 ps.run.world = errs.map some →
      (thinkAboutAction env w ps).1 = "Failed to generate reasoning. Starting fresh." ∧
      chatRequests (thinkAboutAction env w ps).2.run.trace =
        chatRequests ps.run.trace ++
          List.replicate 3
            (dspyRequest "deepseek-r1:1.5b"
              (reasoningPromptOf env (formatHistoryForPrompt history))) ∧
      (thinkAboutAction env w ps).2.run.trace.getLast? =
        some (.logPrintf "[%s] Failed to generate reasoning: %v"
          [.str env.agentName,
           .str ("failed to call DSPy after " ++ formatInt MAX_RETRY_ATTEMPTS ++ " attempts")])) ∧
    (errs.length < 3 →
      loadInteractionHistory (unmarshalInteraction env.parse) (env.clock ps.ticks)
        (ps.store.toHistoryDir (env.mkdirErr ps.ticks)) 7 = .ok history →
      chatAttempts w
        (dspyRequest "deepseek-r1:1.5b" (reasoningPromptOf env (formatHistoryForPrompt history)))
        (errs.length + 1) ps.run.world = errs.map some ++ [none] →
      (callDspy w env.agentName "deepseek-r1:1.5b"
          (reasoningPromptOf env (formatHistoryForPrompt history)) ps.run).1 =
        .ok (thinkAboutAction env w ps).1 ∧
      chatRequests (thinkAboutAction env w ps).2.run.trace =
        chatRequests ps.run.trace ++
          List.replicate (errs.length + 1)
            (dspyRequest "deepseek-r1:1.5b"
              (reasoningPromptOf env (formatHistoryForPrompt history)))) := by
  refine ⟨fun hlen h => ?_, fun hlen h => ?_, fun hlen hload h => ?_, fun hlen hload h => ?_⟩
  · obtain ⟨h₁, h₂⟩ := callDspyFrom_all_fail w env.agentName model prompt 3 1 "" st errs hlen h
    exact ⟨⟨_, h₁⟩, h₂⟩
  · exact callDspyFrom_first_success w env.agentName model prompt 3 1 "" st errs hlen h
  · obtain ⟨h₁, h₂⟩ := callDspyFrom_all_fail w env.agentName "deepseek-r1:1.5b"
      (reasoningPromptOf env (formatHistoryForPrompt history)) 3 1 "" ps.run errs hlen h
    obtain ⟨g₁, g₂⟩ := (thinkAboutAction_of_history env w ps history hload).1 _ h₁
    refine ⟨g₁, ?_, ?_⟩
    · rw [g₂, chatRequests_append]
      simp only [callDspy, MAX_RETRY_ATTEMPTS]
      rw [h₂]
      simp [chatRequests]
    · rw [g₂]
      simp
  · obtain ⟨⟨text, h₁⟩, h₂⟩ := callDspyFrom_first_success w env.agentName "deepseek-r1:1.5b"
      (reasoningPromptOf env (formatHistoryForPrompt history)) 3 1 "" ps.run errs hlen h
    obtain ⟨g₁, g₂⟩ := (thinkAboutAction_of_history env w ps history hload).2 text h₁
    refine ⟨?_, ?_⟩
    · rw [g₁]
      exact h₁
    · rw [g₂]
      exact h₂

/-- C14 on `downWorld`, whose backend always fails, and on `flakyWorld`, where
the third attempt is the first to succeed. -/
theorem callDspy_retries_witness :
    ((∃ err, (callDspy downWorld "alice" "deepseek-r1:1.5b" "next?"
        { world := (), trace := [] }).1 = .error err) ∧
      chatRequests (callDspy downWorld "alice" "deepseek-r1:1.5b" "next?"
        { world := (), trace := [] }).2.trace =
        chatRequests [] ++ List.replicate 3 (dspyRequest "deepseek-r1:1.5b" "next?")) ∧
    ((∃ text, (callDspy flakyWorld "alice" "deepseek-r1:1.5b" "next?"
        { world := 0, trace := [] }).1 = .ok text) ∧
      chatRequests (callDspy flakyWorld "alice" "deepseek-r1:1.5b" "next?"
        { world := 0, trace := [] }).2.trace =
        chatRequests [] ++ List.replicate 3 (dspyRequest "deepseek-r1:1.5b" "next?")) ∧
    ((thinkAboutAction demoEnv downWorld (demoProc ())).1 =
        "Failed to generate reasoning. Starting fresh." ∧
      chatRequests (thinkAboutAction demoEnv downWorld (demoProc ())).2.run.trace =
        chatRequests [] ++
          List.replicate 3
            (dspyRequest "deepseek-r1:1.5b"
              (reasoningPromptOf demoEnv (formatHistoryForPrompt []))) ∧
      (thinkAboutAction demoEnv downWorld (demoProc ())).2.run.trace.getLast? =
        some (.logPrintf "[%s] Failed to generate reasoning: %v"
          [.str "alice",
           .str ("failed to call DSPy after " ++ formatInt MAX_RETRY_ATTEMPTS ++
             " attempts")])) ∧
    ((callDspy flakyWorld "alice" "deepseek-r1:1.5b"
          (reasoningPromptOf demoEnv (formatHistoryForPrompt [])) (demoProc 0).run).1 =
        .ok (thinkAboutAction demoEnv flakyWorld (demoProc 0)).1 ∧
      chatRequests (thinkAboutAction demoEnv flakyWorld (demoProc 0)).2.run.trace =
        chatRequests [] ++
          List.replicate 3
            (dspyRequest "deepseek-r1:1.5b"
              (reasoningPromptOf demoEnv (formatHistoryForPrompt [])))) :=
  ⟨(callDspy_retries downWorld demoEnv "deepseek-r1:1.5b" "next?" { world := (), trace := [] }
      (demoProc ()) [] ["connection refused", "connection refused", "connection refused"]).1
      rfl rfl,
   (callDspy_retries flakyWorld demoEnv "deepseek-r1:1.5b" "next?" { world := 0, trace := [] }
      (demoProc 0) [] ["unexpected EOF", "unexpected EOF"]).2.1 (by decide) rfl,
   (callDspy_retries downWorld demoEnv "deepseek-r1:1.5b" "next?" { world := (), trace := [] }
      (demoProc ()) [] ["connection refused", "connection refused", "connection refused"]).2.2.1
      rfl rfl rfl,
   (callDspy_retries flakyWorld demoEnv "deepseek-r1:1.5b" "next?" { world := 0, trace := [] }
      (demoProc 0) [] ["unexpected EOF", "unexpected EOF"]).2.2.2 (by decide) rfl rfl⟩

/-! ### `hacks/agent3.go`: appending a record -/

theorem openAttempts_append (xs ys : List Event) :
    openAttempts (xs ++ ys) = openAttempts xs + openAttempts ys := by
  induction xs with
  | nil => simp [openAttempts]
  | cons e rest ih =>
    cases e
    all_goals simp [openAttempts, ih]
    all_goals omega

theorem saveAttempts_bound (agentName filename name data : String)
    (outcome : Nat → AttemptOutcome) (remaining attempt : Nat) (store : Store)
    (trace : List Event) :
    openAttempts (saveAttempts agentName filename name data outcome remaining attempt
      store trace).2 ≤ openAttempts trace + remaining := by
  induction remaining generalizing attempt store trace with
  | zero => simp [saveAttempts]
  | succ n ih =>
    unfold saveAttempts
    split
    · refine le_trans (ih _ _ _) ?_
      simp [openAttempts_append, openAttempts]
      omega
    · refine le_trans (ih _ _ _) ?_
      simp [openAttempts_append, openAttempts]
      omega
    · simp [openAttempts_append, openAttempts]

theorem saveAttempts_all_fail (agentName filename name data : String)
    (outcome : Nat → AttemptOutcome) (remaining attempt : Nat) (store : Store)
    (trace : List Event)
    (h : ∀ i, attempt ≤ i → i < attempt + remaining → outcome i ≠ .succeeds) :
    (saveAttempts agentName filename name data outcome remaining attempt store trace).1 =
        store.appendAll name (partialWrites outcome remaining attempt) ∧
      openAttempts (saveAttempts agentName filename name data outcome remaining attempt
        store trace).2 = openAttempts trace + remaining := by
  induction remaining generalizing attempt store trace with
  | zero => simp [saveAttempts, partialWrites, Store.appendAll]
  | succ n ih =>
    have hrest : ∀ i, attempt + 1 ≤ i → i < attempt + 1 + n → outcome i ≠ .succeeds :=
      fun i h₁ h₂ => h i (by omega) (by omega)
    have hhead := h attempt (le_refl _) (by omega)
    unfold saveAttempts partialWrites
    cases ho : outcome attempt with
    | openFails err =>
      obtain ⟨h₁, h₂⟩ := ih (attempt + 1) store
        (trace ++ [.openFile filename] ++
          [.logPrintf "[%s] Failed to open trajectory file (attempt %d/3): %v"
            [.str agentName, .int (attempt + 1), .str err], .sleep 100]) hrest
      refine ⟨h₁, ?_⟩
      simp only
      rw [h₂]
      simp [openAttempts_append, openAttempts]
      omega
    | writeFails err written =>
      obtain ⟨h₁, h₂⟩ := ih (attempt + 1) (store.append name written)
        (trace ++ [.openFile filename] ++
          [.writeString (data ++ "\n"),
           .logPrintf "[%s] Failed to write interaction to file (attempt %d/3): %v"
            [.str agentName, .int (attempt + 1), .str err], .sleep 100, .closeFile]) hrest
      refine ⟨by simpa [Store.appendAll] using h₁, ?_⟩
      simp only
      rw [h₂]
      simp [openAttempts_append, openAttempts]
      omega
    | succeeds => exact absurd ho hhead

theorem saveAttempts_first_success (agentName filename name data : String)
    (outcome : Nat → AttemptOutcome) (remaining attempt j : Nat) (store : Store)
    (trace : List Event) (hj : j < remaining)
    (h : ∀ i, attempt ≤ i → i < attempt + j → outcome i ≠ .succeeds)
    (hok : outcome (attempt + j) = .succeeds) :
    (saveAttempts agentName filename name data outcome remaining attempt store trace).1 =
        (store.appendAll name (partialWrites outcome j attempt)).append name (data ++ "\n") ∧
      openAttempts (saveAttempts agentName filename name data outcome remaining attempt
        store trace).2 = openAttempts trace + (j + 1) := by
  induction remaining generalizing attempt j store trace with
  | zero => omega
  | succ n ih =>
    cases j with
    | zero =>
      simp only [Nat.add_zero] at hok
      unfold saveAttempts
      simp only [hok, partialWrites, Store.appendAll]
      simp [openAttempts_append, openAttempts]
    | succ j' =>
      have hrest : ∀ i, attempt + 1 ≤ i → i < attempt + 1 + j' → outcome i ≠ .succeeds :=
        fun i h₁ h₂ => h i (by omega) (by omega)
      have hhead := h attempt (le_refl _) (by omega)
      have hok' : outcome (attempt + 1 + j') = .succeeds := by
        rw [← hok]
        congr 1
        omega
      unfold saveAttempts partialWrites
      cases ho : outcome attempt with
      | openFails err =>
        obtain ⟨h₁, h₂⟩ := ih (attempt + 1) j' store
          (trace ++ [.openFile filename] ++
            [.logPrintf "[%s] Failed to open trajectory file (attempt %d/3): %v"
              [.str agentName, .int (attempt + 1), .str err], .sleep 100]) (by omega) hrest hok'
        refine ⟨h₁, ?_⟩
        simp only
        rw [h₂]
        simp [openAttempts_append, openAttempts]
        omega
      | writeFails err written =>
        obtain ⟨h₁, h₂⟩ := ih (attempt + 1) j' (store.append name written)
          (trace ++ [.openFile filename] ++
            [.writeString (data ++ "\n"),
             .logPrintf "[%s] Failed to write interaction to file (attempt %d/3): %v"
              [.str agentName, .int (attempt + 1), .str err], .sleep 100, .closeFile])
          (by omega) hrest hok'
        refine ⟨by simpa [Store.appendAll] using h₁, ?_⟩
        simp only
        rw [h₂]
        simp [openAttempts_append, openAttempts]
        omega
      | succeeds => exact absurd ho hhead

theorem saveInteraction_eq (env : Agent3Env) (now : Int) (mkdirErr : Option String)
    (outcome : Nat → AttemptOutcome) (thought action observation : String)
    (store : Store) (trace : List Event) (data : String)
    (hdir : store.present = true ∨ mkdirErr = none)
    (hmarshal : env.marshal (interactionOf env now thought action observation) = .ok data) :
    saveInteraction env now mkdirErr outcome thought action observation store trace =
      saveAttempts env.agentName
        (historyDirOf env.agentName ++ "/" ++ partitionName (epochDayOf now))
        (partitionName (epochDayOf now)) data outcome 3 0 (store.ensureDir mkdirErr)
        (if store.present then trace else trace ++ [.mkdirAll (historyDirOf env.agentName)]) := by
  unfold saveInteraction
  cases hp : store.present with
  | true => simp [hmarshal]
  | false =>
    have hm : mkdirErr = none := by
      rcases hdir with h | h
      · rw [hp] at h
        cases h
      · exact h
    subst hm
    simp [hmarshal]

theorem saveInteraction_bound (env : Agent3Env) (now : Int) (mkdirErr : Option String)
    (outcome : Nat → AttemptOutcome) (thought action observation : String)
    (store : Store) (trace : List Event) :
    openAttempts
        (saveInteraction env now mkdirErr outcome thought action observation store trace).2 ≤
      openAttempts trace + 3 := by
  unfold saveInteraction
  cases hp : store.present <;> cases hm : mkdirErr <;>
    cases env.marshal (interactionOf env now thought action observation) <;>
    simp only [Bool.false_eq_true, if_false, if_true]
  all_goals first
    | (refine le_trans (saveAttempts_bound _ _ _ _ _ _ _ _ _) ?_
       simp [openAttempts_append, openAttempts])
    | simp [openAttempts_append, openAttempts]

/-- C15: `saveInteraction` makes at most 3 open-and-write attempts; when attempt
`j + 1` is the first whose open and write both succeed it makes exactly `j + 1`
attempts and the file holds the record after whatever the failed writes left;
after 3 failed attempts it stops and the record is not written. The function
has no result, so no failure reaches the caller in any case. -/
theorem saveInteraction_attempts (env : Agent3Env) (now : Int) (mkdirErr : Option String)
    (outcome : Nat → AttemptOutcome) (thought action observation : String)
    (store : Store) (trace : List Event) :
    openAttempts
        (saveInteraction env now mkdirErr outcome thought action observation store trace).2 ≤
      openAttempts trace + 3 ∧
    ∀ data, (store.present = true ∨ mkdirErr = none) →
      env.marshal (interactionOf env now thought action observation) = .ok data →
      (∀ j, j < 3 → (∀ i, i < j → outcome i ≠ .succeeds) → outcome j = .succeeds →
        openAttempts
            (saveInteraction env now mkdirErr outcome thought action observation store trace).2 =
          openAttempts trace + (j + 1) ∧
        (saveInteraction env now mkdirErr outcome thought action observation store trace).1 =
          ((store.ensureDir mkdirErr).appendAll (partitionName (epochDayOf now))
            (partialWrites outcome j 0)).append (partitionName (epochDayOf now))
            (data ++ "\n")) ∧
      ((∀ i, i < 3 → outcome i ≠ .succeeds) →
        openAttempts
            (saveInteraction env now mkdirErr outcome thought action observation store trace).2 =
          openAttempts trace + 3 ∧
        (saveInteraction env now mkdirErr outcome thought action observation store trace).1 =
          (store.ensureDir mkdirErr).appendAll (partitionName (epochDayOf now))
            (partialWrites outcome 3 0)) := by
  refine ⟨saveInteraction_bound env now mkdirErr outcome thought action observation store trace,
    fun data hdir hmarshal => ?_⟩
  rw [saveInteraction_eq env now mkdirErr outcome thought action observation store trace data
    hdir hmarshal]
  have htrace : openAttempts
      (if store.present then trace else trace ++ [.mkdirAll (historyDirOf env.agentName)]) =
      openAttempts trace := by
    split <;> simp [openAttempts_append, openAttempts]
  constructor
  · intro j hj hfail hok
    obtain ⟨h₁, h₂⟩ := saveAttempts_first_success env.agentName
      (historyDirOf env.agentName ++ "/" ++ partitionName (epochDayOf now))
      (partitionName (epochDayOf now)) data outcome 3 0 j (store.ensureDir mkdirErr)
      (if store.present then trace else trace ++ [.mkdirAll (historyDirOf env.agentName)])
      hj (fun i _ hi => hfail i (by omega)) (by simpa using hok)
    exact ⟨by rw [h₂, htrace], h₁⟩
  · intro hfail
    obtain ⟨h₁, h₂⟩ := saveAttempts_all_fail env.agentName
      (historyDirOf env.agentName ++ "/" ++ partitionName (epochDayOf now))
      (partitionName (epochDayOf now)) data outcome 3 0 (store.ensureDir mkdirErr)
      (if store.present then trace else trace ++ [.mkdirAll (historyDirOf env.agentName)])
      (fun i _ hi => hfail i (by omega))
    exact ⟨by rw [h₂, htrace], h₁⟩

/-- C15 on `demoOutcome`: the third attempt is the first to succeed, three
attempts are made and the file holds the four characters of the failed write
followed by the record. -/
theorem saveInteraction_attempts_witness :
    openAttempts
        (saveInteraction demoEnv 1710810000 none demoOutcome demoThought "a" "o"
          emptyStore []).2 = 3 ∧
      (saveInteraction demoEnv 1710810000 none demoOutcome demoThought "a" "o"
          emptyStore []).1.files =
        [("19801_traj.jsonl", "\x7b\"ac" ++ (demoLine ++ "\n"))] :=
  ⟨(((saveInteraction_attempts demoEnv 1710810000 none demoOutcome demoThought "a" "o"
      emptyStore []).2 demoLine (Or.inl rfl) rfl).1 2 (by decide)
      (by intro i hi; interval_cases i <;> decide) rfl).1,
   (congrArg Store.files
     (((saveInteraction_attempts demoEnv 1710810000 none demoOutcome demoThought "a" "o"
      emptyStore []).2 demoLine (Or.inl rfl) rfl).1 2 (by decide)
      (by intro i hi; interval_cases i <;> decide) rfl).2).trans (by rfl)⟩

theorem jsonMarshalStrings_interactionOf (env : Agent3Env) (now : Int)
    (thought action observation : String) :
    jsonMarshalStrings (interactionOf env now thought action observation) =
      .ok (String.mk (jsonObject (recordOf env now thought action observation))) := by
  rfl

theorem unmarshalInteraction_recordOf (env : Agent3Env) (now : Int)
    (thought action observation : String) :
    unmarshalInteraction jsonParse
        (String.mk (jsonObject (recordOf env now thought action observation))) =
      .ok (recordOf env now thought action observation) := by
  simp only [unmarshalInteraction, jsonParse_jsonObject, decodeStringMap]
  have h := decodeMembers_strings (recordOf env now thought action observation) [] []
    (by simp [GoMap.keys, recordOf])
  simp only [List.append_nil, List.nil_append] at h
  rw [h]
  rfl

theorem partialWrites_blank (outcome : Nat → AttemptOutcome) (j attempt : Nat)
    (h : ∀ i, attempt ≤ i → i < attempt + j →
      ∃ err, outcome i = .openFails err ∨ outcome i = .writeFails err "") :
    ∀ t ∈ partialWrites outcome j attempt, t = "" := by
  induction j generalizing attempt with
  | zero => simp [partialWrites]
  | succ n ih =>
    have hrest := ih (attempt + 1) (fun i h₁ h₂ => h i (by omega) (by omega))
    obtain ⟨err, ho | ho⟩ := h attempt (le_refl _) (by omega)
    · simpa [partialWrites, ho] using hrest
    · simpa [partialWrites, ho] using hrest

theorem Store.append_blank (store : Store) (name text : String)
    (hblank : store.files = [] ∨ store.files = [(name, "")]) :
    (store.append name text).files = [(name, text)] ∧
    (store.append name text).present = store.present := by
  rcases hblank with h | h <;> simp [Store.append, h, GoMap.get, GoMap.set]

theorem Store.appendAll_blank (store : Store) (name : String) (texts : List String)
    (hblank : store.files = [] ∨ store.files = [(name, "")])
    (htexts : ∀ t ∈ texts, t = "") :
    ((store.appendAll name texts).files = [] ∨
      (store.appendAll name texts).files = [(name, "")]) ∧
    (store.appendAll name texts).present = store.present := by
  induction texts generalizing store with
  | nil => exact ⟨hblank, rfl⟩
  | cons t rest ih =>
    have ht : t = "" := htexts t (List.mem_cons_self _ _)
    subst ht
    obtain ⟨h₁, h₂⟩ := Store.append_blank store name "" hblank
    obtain ⟨g₁, g₂⟩ := ih (store.append name "") (Or.inr h₁)
      (fun t ht => htexts t (List.mem_cons_of_mem _ ht))
    exact ⟨g₁, by rw [Store.appendAll, g₂, h₂]⟩

set_option maxRecDepth 100000 in
/-- C16 (as stated) fails: on the empty store the first write fails after four
characters and the second attempt succeeds, so `saveInteraction` has written
the record; the line of the file is the four characters followed by the record,
which is not JSON, and `loadInteractionHistory` on the same epoch day returns no
record. -/
theorem save_load_round_trip_counterexample :
    (saveInteraction demoEnv 1710810000 none tornOutcome demoThought "a" "o"
        emptyStore []).1.files =
        [("19801_traj.jsonl", "\x7b\"ac" ++ (demoLine ++ "\n"))] ∧
      openAttempts (saveInteraction demoEnv 1710810000 none tornOutcome demoThought "a" "o"
        emptyStore []).2 = 2 ∧
      jsonParse ("\x7b\"ac" ++ demoLine) = none ∧
      loadInteractionHistory (unmarshalInteraction jsonParse) 1710810000
        (Store.toHistoryDir (saveInteraction demoEnv 1710810000 none tornOutcome demoThought
          "a" "o" emptyStore []).1 none) 7 = .ok [] := by
  refine ⟨by rfl, by rfl, by rfl, by rfl⟩

theorem Store.ensureDir_of_available (store : Store) (mkdirErr : Option String)
    (hdir : store.present = true ∨ mkdirErr = none) :
    (store.ensureDir mkdirErr).present = true ∧
    (store.ensureDir mkdirErr).files = store.files := by
  unfold Store.ensureDir
  cases hp : store.present with
  | true => simp [hp]
  | false =>
    have hm : mkdirErr = none := by
      rcases hdir with h | h
      · rw [hp] at h
        cases h
      · exact h
    simp [hm]

/-- C16 (amended): on an empty store, with the JSON encoding and decoding of
the library, when the write of `saveInteraction` succeeds at an attempt before
which no failed attempt left anything in the file, `loadInteractionHistory` on
the same epoch day returns exactly one record, whose `thought`, `action`,
`observation`, `agent` and `address` are the given texts, whatever characters
they hold, and the agent's name and address. -/
theorem save_load_round_trip (env : Agent3Env) (now now' maxDays : Int)
    (mkdirErr : Option String) (outcome : Nat → AttemptOutcome)
    (thought action observation : String) (store : Store) (trace : List Event)
    (j : Nat)
    (hmarshaller : env.marshal = jsonMarshalStrings)
    (hgrammar : env.parse = jsonParse)
    (hempty : store.files = [])
    (hdir : store.present = true ∨ mkdirErr = none)
    (hnow : Int64Range now') (hday : epochDayOf now' = epochDayOf now)
    (hj : j < 3)
    (hfailed : ∀ i, i < j → ∃ err, outcome i = .openFails err ∨ outcome i = .writeFails err "")
    (hok : outcome j = .succeeds) :
    loadInteractionHistory (unmarshalInteraction env.parse) now'
        (Store.toHistoryDir
          (saveInteraction env now mkdirErr outcome thought action observation store trace).1
          none) maxDays =
        .ok [recordOf env now thought action observation] ∧
      GoMap.get (recordOf env now thought action observation) "thought" = some thought ∧
      GoMap.get (recordOf env now thought action observation) "action" = some action ∧
      GoMap.get (recordOf env now thought action observation) "observation" =
        some observation ∧
      GoMap.get (recordOf env now thought action observation) "agent" = some env.agentName ∧
      GoMap.get (recordOf env now thought action observation) "address" =
        some env.cosmosAddress := by
  refine ⟨?_, rfl, rfl, rfl, rfl, rfl⟩
  have hmarshal : env.marshal (interactionOf env now thought action observation) =
      .ok (String.mk (jsonObject (recordOf env now thought action observation))) := by
    rw [hmarshaller]
    exact jsonMarshalStrings_interactionOf env now thought action observation
  have hline : String.mk (jsonObject (recordOf env now thought action observation)) ≠ "" := by
    intro h
    have := congrArg String.data h
    simp [jsonObject] at this
  have hnl : '\n' ∉
      (String.mk (jsonObject (recordOf env now thought action observation))).data :=
    newline_not_mem_jsonObject _
  have hne : ∀ i, 0 ≤ i → i < 0 + j → outcome i ≠ .succeeds := by
    intro i _ hi hs
    obtain ⟨err, h | h⟩ := hfailed i (by omega) <;> rw [hs] at h <;> cases h
  obtain ⟨hstore, _⟩ := saveAttempts_first_success env.agentName
    (historyDirOf env.agentName ++ "/" ++ partitionName (epochDayOf now))
    (partitionName (epochDayOf now))
    (String.mk (jsonObject (recordOf env now thought action observation))) outcome 3 0 j
    (store.ensureDir mkdirErr)
    (if store.present then trace else trace ++ [.mkdirAll (historyDirOf env.agentName)])
    hj hne (by simpa using hok)
  rw [saveInteraction_eq env now mkdirErr outcome thought action observation store trace _
    hdir hmarshal, hstore]
  obtain ⟨hpresent, hfiles⟩ := Store.ensureDir_of_available store mkdirErr hdir
  obtain ⟨hblank, hpresent'⟩ := Store.appendAll_blank (store.ensureDir mkdirErr)
    (partitionName (epochDayOf now)) (partialWrites outcome j 0)
    (Or.inl (by rw [hfiles, hempty]))
    (partialWrites_blank outcome j 0 (fun i _ hi => hfailed i (by omega)))
  obtain ⟨hfinal, hpresent''⟩ := Store.append_blank
    ((store.ensureDir mkdirErr).appendAll (partitionName (epochDayOf now))
      (partialWrites outcome j 0)) (partitionName (epochDayOf now))
    (String.mk (jsonObject (recordOf env now thought action observation)) ++ "\n") hblank
  have hdirEq : Store.toHistoryDir
      (((store.ensureDir mkdirErr).appendAll (partitionName (epochDayOf now))
        (partialWrites outcome j 0)).append (partitionName (epochDayOf now))
        (String.mk (jsonObject (recordOf env now thought action observation)) ++ "\n"))
      none =
      .entries [{ name := partitionName (epochDayOf now')
                  data := some
                    (String.mk (jsonObject (recordOf env now thought action observation)) ++
                      "\n") }] := by
    unfold Store.toHistoryDir
    rw [hpresent'', hpresent', hpresent, hfinal, hday]
    rfl
  rw [hdirEq, load_single_file _ now' maxDays _ hnow, recordsOfLines_single _ _ hline hnl,
    hgrammar, unmarshalInteraction_recordOf]

/-- C16 (amended) on the example record, whose thought holds quotes and a
newline: the first attempt fails at the open, the second succeeds, and the
record loaded later that day is the record saved. -/
theorem save_load_round_trip_witness :
    loadInteractionHistory (unmarshalInteraction jsonParse) 1710849600
        (Store.toHistoryDir
          (saveInteraction demoEnv 1710810000 none retryOutcome demoThought "a" "o"
            emptyStore []).1 none) 7 =
        .ok [recordOf demoEnv 1710810000 demoThought "a" "o"] ∧
      GoMap.get (recordOf demoEnv 1710810000 demoThought "a" "o") "thought" =
        some demoThought ∧
      GoMap.get (recordOf demoEnv 1710810000 demoThought "a" "o") "action" = some "a" ∧
      GoMap.get (recordOf demoEnv 1710810000 demoThought "a" "o") "observation" = some "o" ∧
      GoMap.get (recordOf demoEnv 1710810000 demoThought "a" "o") "agent" = some "alice" ∧
      GoMap.get (recordOf demoEnv 1710810000 demoThought "a" "o") "address" =
        some "cosmos1alice" :=
  save_load_round_trip demoEnv 1710810000 1710849600 7 none retryOutcome demoThought "a" "o"
    emptyStore [] 1 rfl rfl rfl (Or.inl rfl) (by unfold Int64Range; norm_num) (by decide)
    (by decide)
    (by
      intro i hi
      interval_cases i
      exact ⟨"too many open files", Or.inl rfl⟩)
    rfl

/-! ### `hacks/agent3.go`: a cycle of the long-running agent -/

theorem agentPrintTools_world {σ : Type} (agentName : String) (tools : List McpTool)
    (st : RunState σ) : (agentPrintTools agentName tools st).world = st.world := by
  induction tools generalizing st with
  | nil => rfl
  | cons tool rest ih =>
    rw [agentPrintTools, ih]
    rfl

theorem agentToolCalls_append {σ : Type} (w : World σ) (agentName : String)
    (xs ys : List ToolCall) (content : String) (st : RunState σ) :
    agentToolCalls w agentName (xs ++ ys) content st =
      match agentToolCalls w agentName xs content st with
      | (some t, content', st') => (some t, content', st')
      | (none, content', st') => agentToolCalls w agentName ys content' st' := by
  induction xs generalizing content st with
  | nil => simp [agentToolCalls]
  | cons toolCall rest ih =>
    simp only [List.cons_append, agentToolCalls]
    split
    · rfl
    · split
      · rfl
      · exact ih _ _

theorem deliverProc_agentToolCalls {σ : Type} (w : World σ) (agentName : String)
    (responses : List ChatResponse) (content : String) (st : RunState σ) :
    deliverProc
        (fun resp content st => agentToolCalls w agentName resp.Message.ToolCalls content st)
        responses content st =
      agentToolCalls w agentName (requestedCalls responses) content st := by
  induction responses generalizing content st with
  | nil => rfl
  | cons resp rest ih =>
    simp only [deliverProc, requestedCalls, List.flatMap_cons]
    rw [agentToolCalls_append]
    rcases h : agentToolCalls w agentName resp.Message.ToolCalls content st
      with ⟨t, content', st'⟩
    cases t with
    | some t => rfl
    | none => exact ih content' st'

theorem agentToolCalls_of_texts {σ : Type} (w : World σ) (agentName : String)
    (calls : List ToolCall) (content : String) (st : RunState σ) (texts : List String)
    (s' : σ) (h : agentToolTexts w calls st.world = some (texts, s')) :
    ∃ st' : RunState σ,
      agentToolCalls w agentName calls content st =
        (none, content ++ concatTexts texts, st') ∧ st'.world = s' := by
  induction calls generalizing content st texts with
  | nil =>
    simp only [agentToolTexts, Option.some.injEq, Prod.mk.injEq] at h
    obtain ⟨rfl, rfl⟩ := h
    exact ⟨st, by simp [agentToolCalls, concatTexts], rfl⟩
  | cons toolCall rest ih =>
    simp only [agentToolTexts] at h
    rcases hc : w.CallTool st.world (fetchRequestOf toolCall) with ⟨res, s₁⟩
    rw [hc] at h
    cases res with
    | error e => simp at h
    | ok result =>
      simp only at h
      cases hr : firstText result with
      | error e => simp [hr] at h
      | ok text =>
        rw [hr] at h
        simp only at h
        cases ht : agentToolTexts w rest s₁ with
        | none => simp [ht] at h
        | some p =>
          obtain ⟨texts', s''⟩ := p
          rw [ht] at h
          simp only [Option.some.injEq, Prod.mk.injEq] at h
          obtain ⟨rfl, rfl⟩ := h
          have hc' : w.CallTool st.world
              { Method := "tools/call", Name := toolCall.Function.Name,
                Arguments := toolCall.Function.Arguments } = (.ok result, s₁) := hc
          have hcat : content ++ concatTexts (text :: texts') =
              (content ++ text) ++ concatTexts texts' := by
            rw [← foldl_append_texts, ← foldl_append_texts]
            rfl
          unfold agentToolCalls
          simp only [RunState.emit, hc', hr]
          rw [hcat]
          exact ih _ _ _ ht

theorem agentToolCalls_head_error {σ : Type} (w : World σ) (agentName : String)
    (bad : ToolCall) (post : List ToolCall) (content : String) (st : RunState σ)
    (err : String) (s' : σ)
    (h : w.CallTool st.world (fetchRequestOf bad) = (.error err, s')) :
    ∃ st' : RunState σ,
      agentToolCalls w agentName (bad :: post) content st = (some (.exit 1), content, st') ∧
      st'.trace.getLast? =
        some (.logFatalf "[%s] \u00f0\u0178\u02dc\u00a1 Failed to call the tool: %v"
          [.str agentName, .str err]) := by
  have hc' : w.CallTool st.world
      { Method := "tools/call", Name := bad.Function.Name,
        Arguments := bad.Function.Arguments } = (.error err, s') := h
  unfold agentToolCalls
  simp only [RunState.emit, hc']
  exact ⟨_, rfl, by simp⟩

theorem agentToolTexts_cons_ok {σ : Type} (w : World σ) (toolCall : ToolCall)
    (rest : List ToolCall) (s s' s'' : σ) (result : CallToolResult) (text : String)
    (texts : List String)
    (hc : w.CallTool s (fetchRequestOf toolCall) = (.ok result, s'))
    (hr : firstText result = .ok text)
    (ht : agentToolTexts w rest s' = some (texts, s'')) :
    agentToolTexts w (toolCall :: rest) s = some (text :: texts, s'') := by
  simp only [agentToolTexts, hc, hr, ht]

theorem agentToolTexts_append {σ : Type} (w : World σ) (xs ys : List ToolCall) (s s' s'' : σ)
    (texts texts' : List String)
    (hx : agentToolTexts w xs s = some (texts, s'))
    (hy : agentToolTexts w ys s' = some (texts', s'')) :
    agentToolTexts w (xs ++ ys) s = some (texts ++ texts', s'') := by
  induction xs generalizing s texts with
  | nil =>
    simp only [agentToolTexts, Option.some.injEq, Prod.mk.injEq] at hx
    obtain ⟨rfl, rfl⟩ := hx
    simpa using hy
  | cons toolCall rest ih =>
    simp only [agentToolTexts] at hx
    rcases hc : w.CallTool s (fetchRequestOf toolCall) with ⟨res, s₁⟩
    rw [hc] at hx
    cases res with
    | error e => simp at hx
    | ok result =>
      simp only at hx
      cases hr : firstText result with
      | error e => simp [hr] at hx
      | ok text =>
        rw [hr] at hx
        simp only at hx
        cases ht : agentToolTexts w rest s₁ with
        | none => simp [ht] at hx
        | some p =>
          obtain ⟨texts₁, s₂⟩ := p
          rw [ht] at hx
          simp only [Option.some.injEq, Prod.mk.injEq] at hx
          obtain ⟨rfl, rfl⟩ := hx
          exact agentToolTexts_cons_ok w toolCall (rest ++ ys) s s₁ s'' result text
            (texts₁ ++ texts') hc hr (ih s₁ texts₁ ht)

theorem ChatProc_agentToolCalls {σ : Type} (w : World σ) (agentName : String)
    (req : ChatRequest) (st : RunState σ) (responses : List ChatResponse)
    (backendErr : Option String) (s' : σ)
    (h : w.Chat st.world req = ((responses, backendErr), s')) :
    ChatProc w req
        (fun resp content st => agentToolCalls w agentName resp.Message.ToolCalls content st)
        "" st =
      match agentToolCalls w agentName (requestedCalls responses) ""
          { world := s', trace := st.trace ++ [.ollamaChat req] } with
      | (some t, content, st') => (.error t, content, st')
      | (none, content, st') => (.ok backendErr, content, st') := by
  simp only [ChatProc, RunState.emit, h, deliverProc_agentToolCalls]
  rcases agentToolCalls w agentName (requestedCalls responses) ""
      { world := s', trace := st.trace ++ [.ollamaChat req] } with ⟨t, content, st'⟩
  cases t <;> rfl

theorem ChatProc_tool_failure {σ : Type} (w : World σ) (agentName : String)
    (req : ChatRequest) (st : RunState σ)
    (x : Except Termination (Option String) × String × RunState σ)
    (hx : ChatProc w req
        (fun resp content st => agentToolCalls w agentName resp.Message.ToolCalls content st)
        "" st = x)
    (s₃ s₄ s₅ s₆ : σ) (hw : st.world = s₃) (responses : List ChatResponse)
    (backendErr : Option String) (pre : List ToolCall) (bad : ToolCall)
    (post : List ToolCall) (texts : List String) (err : String)
    (hchat : w.Chat s₃ req = ((responses, backendErr), s₄))
    (hsplit : requestedCalls responses = pre ++ bad :: post)
    (hpre : agentToolTexts w pre s₄ = some (texts, s₅))
    (hbad : w.CallTool s₅ (fetchRequestOf bad) = (.error err, s₆)) :
    x.1 = .error (.exit 1) ∧
      x.2.2.trace.getLast? =
        some (.logFatalf "[%s] \u00f0\u0178\u02dc\u00a1 Failed to call the tool: %v"
          [.str agentName, .str err]) := by
  rw [← hx, ChatProc_agentToolCalls w agentName req st responses backendErr s₄
    (by rw [hw]; exact hchat), hsplit, agentToolCalls_append]
  obtain ⟨st₁, h₁, h₂⟩ := agentToolCalls_of_texts w agentName pre ""
    { world := s₄, trace := st.trace ++ [.ollamaChat req] } texts s₅ hpre
  obtain ⟨st₂, h₃, h₄⟩ := agentToolCalls_head_error w agentName bad post
    ("" ++ concatTexts texts) st₁ err s₆ (by rw [h₂]; exact hbad)
  rw [h₁]
  simp only
  rw [h₃]
  exact ⟨rfl, h₄⟩

theorem ChatProc_tools_ok {σ : Type} (w : World σ) (agentName : String)
    (req : ChatRequest) (st : RunState σ)
    (x : Except Termination (Option String) × String × RunState σ)
    (hx : ChatProc w req
        (fun resp content st => agentToolCalls w agentName resp.Message.ToolCalls content st)
        "" st = x)
    (s₃ s₄ s₅ : σ) (hw : st.world = s₃) (responses : List ChatResponse)
    (texts : List String) (backendErr : Option String)
    (hchat : w.Chat s₃ req = ((responses, backendErr), s₄))
    (hcalls : agentToolTexts w (requestedCalls responses) s₄ = some (texts, s₅)) :
    x.1 = .ok backendErr := by
  rw [← hx, ChatProc_agentToolCalls w agentName req st responses backendErr s₄
    (by rw [hw]; exact hchat)]
  obtain ⟨st₁, h₁, _⟩ := agentToolCalls_of_texts w agentName (requestedCalls responses) ""
    { world := s₄, trace := st.trace ++ [.ollamaChat req] } texts s₅ hcalls
  rw [h₁]

/-- A cycle of `runAgent` that meets a failure returned by a library call: the
process ends with exit status 1, the last thing it does is the `log.Fatalf` or
`log.Fatalln` call of that failure, and nothing is written to the store. -/
theorem runAgent_of_failure {σ : Type} (env : Agent3Env) (aw : Agent3World σ)
    (thought : String) (ps : ProcState σ) (fatal : Event)
    (h : ToolSideFailure env aw thought ps.run.world fatal) :
    (runAgent env aw thought ps).1 = some (.exit 1) ∧
      (runAgent env aw thought ps).2.run.trace.getLast? = some fatal ∧
      (runAgent env aw thought ps).2.store = ps.store := by
  cases h with
  | handshake s₁ s₂ err hnew hinit =>
    have hinit' : aw.Initialize s₁
        { ProtocolVersion := aw.LATEST_PROTOCOL_VERSION
          ClientInfo := { Name := env.agentName, Version := "1.0.0" } } = (.error err, s₂) :=
      hinit
    unfold runAgent
    simp only [RunState.emit, hnew, hinit']
    exact ⟨trivial, by simp, trivial⟩
  | listing s₁ s₂ s₃ initResult err hnew hinit hlist =>
    have hinit' : aw.Initialize s₁
        { ProtocolVersion := aw.LATEST_PROTOCOL_VERSION
          ClientInfo := { Name := env.agentName, Version := "1.0.0" } } =
        (.ok initResult, s₂) := hinit
    unfold runAgent
    simp only [RunState.emit, hnew, hinit', hlist]
    exact ⟨trivial, by simp, trivial⟩
  | toolCall s₁ s₂ s₃ s₄ s₅ s₆ initResult tools responses backendErr pre bad post texts err
      hnew hinit hlist hchat hsplit hpre hbad =>
    have hinit' : aw.Initialize s₁
        { ProtocolVersion := aw.LATEST_PROTOCOL_VERSION
          ClientInfo := { Name := env.agentName, Version := "1.0.0" } } =
        (.ok initResult, s₂) := hinit
    unfold runAgent
    simp only [RunState.emit, hnew, hinit', hlist]
    split
    · rename_i status c st heq
      obtain ⟨h₁, h₂⟩ := ChatProc_tool_failure aw.toWorld env.agentName _ _ _ heq s₃ s₄ s₅ s₆
        (by simp [agentPrintTools_world]) responses backendErr pre bad post texts err
        hchat hsplit hpre hbad
      simp only [Except.error.injEq, Termination.exit.injEq] at h₁
      subst h₁
      exact ⟨rfl, h₂, rfl⟩
    · rename_i msg c st heq
      obtain ⟨h₁, _⟩ := ChatProc_tool_failure aw.toWorld env.agentName _ _ _ heq s₃ s₄ s₅ s₆
        (by simp [agentPrintTools_world]) responses backendErr pre bad post texts err
        hchat hsplit hpre hbad
      simp at h₁
    · rename_i e c st heq
      obtain ⟨h₁, _⟩ := ChatProc_tool_failure aw.toWorld env.agentName _ _ _ heq s₃ s₄ s₅ s₆
        (by simp [agentPrintTools_world]) responses backendErr pre bad post texts err
        hchat hsplit hpre hbad
      simp at h₁
    · rename_i c st heq
      obtain ⟨h₁, _⟩ := ChatProc_tool_failure aw.toWorld env.agentName _ _ _ heq s₃ s₄ s₅ s₆
        (by simp [agentPrintTools_world]) responses backendErr pre bad post texts err
        hchat hsplit hpre hbad
      simp at h₁
  | toolPhase s₁ s₂ s₃ s₄ s₅ initResult tools responses texts err hnew hinit hlist hchat
      hcalls =>
    have hinit' : aw.Initialize s₁
        { ProtocolVersion := aw.LATEST_PROTOCOL_VERSION
          ClientInfo := { Name := env.agentName, Version := "1.0.0" } } =
        (.ok initResult, s₂) := hinit
    unfold runAgent
    simp only [RunState.emit, hnew, hinit', hlist]
    split
    · rename_i status c st heq
      have := ChatProc_tools_ok aw.toWorld env.agentName _ _ _ heq s₃ s₄ s₅
        (by simp [agentPrintTools_world]) responses texts (some err) hchat hcalls
      simp at this
    · rename_i msg c st heq
      have := ChatProc_tools_ok aw.toWorld env.agentName _ _ _ heq s₃ s₄ s₅
        (by simp [agentPrintTools_world]) responses texts (some err) hchat hcalls
      simp at this
    · rename_i e c st heq
      have := ChatProc_tools_ok aw.toWorld env.agentName _ _ _ heq s₃ s₄ s₅
        (by simp [agentPrintTools_world]) responses texts (some err) hchat hcalls
      simp only [Except.ok.injEq, Option.some.injEq] at this
      subst this
      exact ⟨rfl, by simp, rfl⟩
    · rename_i c st heq
      have := ChatProc_tools_ok aw.toWorld env.agentName _ _ _ heq s₃ s₄ s₅
        (by simp [agentPrintTools_world]) responses texts (some err) hchat hcalls
      simp at this

/-- A cycle of `runAgent` in which a tool handler reports its failure inside
the result: `runAgent` saves the interaction and returns. -/
theorem runAgent_of_reported {σ : Type} (env : Agent3Env) (aw : Agent3World σ)
    (thought : String) (ps : ProcState σ)
    (h : ReportedToolFailure env aw thought ps.run.world) :
    (runAgent env aw thought ps).1 = none ∧
      (runAgent env aw thought ps).2.ticks = ps.ticks + 1 ∧
      ∃ trace, (runAgent env aw thought ps).2.store =
        (saveInteraction env (env.clock ps.ticks) (env.mkdirErr ps.ticks)
          (env.attemptOutcome ps.ticks) thought "Check balances and send tokens if necessary."
          "Balances checked. Tokens sent successfully." ps.store trace).1 := by
  obtain ⟨s₁, s₂, s₃, s₄, s₅, s₆, s₇, initResult, tools, responses, pre, bad, post, texts,
    texts', result, text, hnew, hinit, hlist, hchat, hsplit, hpre, hbad, _, htext, hpost⟩ := h
  have hcalls : agentToolTexts aw.toWorld (requestedCalls responses) s₄ =
      some (texts ++ text :: texts', s₇) := by
    rw [hsplit]
    exact agentToolTexts_append aw.toWorld pre (bad :: post) s₄ s₅ s₇ texts (text :: texts')
      hpre (agentToolTexts_cons_ok aw.toWorld bad post s₅ s₆ s₇ result text texts' hbad htext
        hpost)
  have hinit' : aw.Initialize s₁
      { ProtocolVersion := aw.LATEST_PROTOCOL_VERSION
        ClientInfo := { Name := env.agentName, Version := "1.0.0" } } =
      (.ok initResult, s₂) := hinit
  unfold runAgent
  simp only [RunState.emit, hnew, hinit', hlist]
  split
  · rename_i status c st heq
    have := ChatProc_tools_ok aw.toWorld env.agentName _ _ _ heq s₃ s₄ s₇
      (by simp [agentPrintTools_world]) responses _ none hchat hcalls
    simp at this
  · rename_i msg c st heq
    have := ChatProc_tools_ok aw.toWorld env.agentName _ _ _ heq s₃ s₄ s₇
      (by simp [agentPrintTools_world]) responses _ none hchat hcalls
    simp at this
  · rename_i e c st heq
    have := ChatProc_tools_ok aw.toWorld env.agentName _ _ _ heq s₃ s₄ s₇
      (by simp [agentPrintTools_world]) responses _ none hchat hcalls
    simp at this
  · rename_i c st heq
    exact ⟨rfl, rfl, _, rfl⟩

/-- The loop of `main` when `runAgent` ends the process in its first iteration. -/
theorem mainLoop_of_exit {σ : Type} (env : Agent3Env) (aw : Agent3World σ) (cycles : Nat)
    (ps : ProcState σ) (t : Termination)
    (h : (runAgent env aw (cycleStart env aw ps).1 (cycleStart env aw ps).2).1 = some t) :
    mainLoop env aw (cycles + 1) ps =
      (some t, (runAgent env aw (cycleStart env aw ps).1 (cycleStart env aw ps).2).2) := by
  unfold cycleStart at h ⊢
  unfold mainLoop
  rcases hthink : thinkAboutAction env aw.toWorld
      (ps.emit (.printf "[%s] Starting agent iteration...\n" [.str env.agentName]))
    with ⟨thought, ps₁⟩
  simp only [hthink] at h ⊢
  rcases hr : runAgent env aw thought
      (ps₁.emit (.printf "[%s] Agent is thinking: %s\n" [.str env.agentName, .str thought]))
    with ⟨r, ps₂⟩
  rw [hr] at h
  change r = some t at h
  subst h
  rfl

/-- The loop of `main` when `runAgent` returns in its first iteration. -/
theorem mainLoop_of_return {σ : Type} (env : Agent3Env) (aw : Agent3World σ) (cycles : Nat)
    (ps : ProcState σ)
    (h : (runAgent env aw (cycleStart env aw ps).1 (cycleStart env aw ps).2).1 = none) :
    mainLoop env aw (cycles + 1) ps =
      mainLoop env aw cycles
        (((runAgent env aw (cycleStart env aw ps).1 (cycleStart env aw ps).2).2.emit
          (.printf "[%s] Iteration complete. Waiting for 1 second...\n"
            [.str env.agentName])).emit (.sleep 1000)) := by
  unfold cycleStart at h ⊢
  rw [mainLoop]
  rcases hthink : thinkAboutAction env aw.toWorld
      (ps.emit (.printf "[%s] Starting agent iteration...\n" [.str env.agentName]))
    with ⟨thought, ps₁⟩
  simp only [hthink] at h ⊢
  rcases hr : runAgent env aw thought
      (ps₁.emit (.printf "[%s] Agent is thinking: %s\n" [.str env.agentName, .str thought]))
    with ⟨r, ps₂⟩
  rw [hr] at h
  change r = none at h
  subst h
  rfl

/-- C18 (as stated) fails: in `deadServer` the handshake of the first cycle
fails and the process ends with exit status 1 (`log.Fatalf`): of the two
iterations the loop is given, only the first one starts. -/
theorem agent_cycle_failure_counterexample :
    (mainLoop demoEnv deadServer 2 (demoProc ())).1 = some (.exit 1) ∧
      cyclesStarted (mainLoop demoEnv deadServer 2 (demoProc ())).2.run.trace = 1 ∧
      (mainLoop demoEnv deadServer 2 (demoProc ())).2.run.trace.getLast? =
        some (.logFatalf "[%s] Failed to initialize: %v"
          [.str "alice", .str "transport error: connection closed"]) := by
  refine ⟨by rfl, by rfl, by rfl⟩

/-- C18 (amended): in the long-running variant, in every cycle in which the
tool-server handshake, the tool listing, a tool call or the tool-phase model
call fails with an error returned by the library call, `runAgent` does not
return: the last thing the process does is the `log.Fatalf` (`log.Fatalln` for
the model call) that reports the failure, it ends with exit status 1, nothing
is saved, and the loop of `main` ends there, with no further print, sleep or
cycle. A failure that a tool handler reports inside its result (`IsError` with
a text) is not detected: `runAgent` saves the interaction with its fixed action
and observation and returns, and the loop prints, sleeps and goes on to the
next cycle. -/
theorem agent_cycle_failure {σ : Type} (env : Agent3Env) (aw : Agent3World σ) (cycles : Nat)
    (ps : ProcState σ) :
    (∀ fatal : Event,
      ToolSideFailure env aw (cycleStart env aw ps).1 (cycleStart env aw ps).2.run.world fatal →
      (runAgent env aw (cycleStart env aw ps).1 (cycleStart env aw ps).2).1 =
          some (.exit 1) ∧
        (runAgent env aw (cycleStart env aw ps).1
          (cycleStart env aw ps).2).2.run.trace.getLast? = some fatal ∧
        (runAgent env aw (cycleStart env aw ps).1 (cycleStart env aw ps).2).2.store =
          (cycleStart env aw ps).2.store ∧
        mainLoop env aw (cycles + 1) ps =
          (some (.exit 1),
            (runAgent env aw (cycleStart env aw ps).1 (cycleStart env aw ps).2).2)) ∧
    (ReportedToolFailure env aw (cycleStart env aw ps).1 (cycleStart env aw ps).2.run.world →
      (runAgent env aw (cycleStart env aw ps).1 (cycleStart env aw ps).2).1 = none ∧
        (∃ trace,
          (runAgent env aw (cycleStart env aw ps).1 (cycleStart env aw ps).2).2.store =
            (saveInteraction env (env.clock (cycleStart env aw ps).2.ticks)
              (env.mkdirErr (cycleStart env aw ps).2.ticks)
              (env.attemptOutcome (cycleStart env aw ps).2.ticks) (cycleStart env aw ps).1
              "Check balances and send tokens if necessary."
              "Balances checked. Tokens sent successfully."
              (cycleStart env aw ps).2.store trace).1) ∧
        mainLoop env aw (cycles + 1) ps =
          mainLoop env aw cycles
            (((runAgent env aw (cycleStart env aw ps).1 (cycleStart env aw ps).2).2.emit
              (.printf "[%s] Iteration complete. Waiting for 1 second...\n"
                [.str env.agentName])).emit (.sleep 1000))) := by
  constructor
  · intro fatal hfail
    obtain ⟨h₁, h₂, h₃⟩ := runAgent_of_failure env aw _ _ fatal hfail
    exact ⟨h₁, h₂, h₃, mainLoop_of_exit env aw cycles ps _ h₁⟩
  · intro hrep
    obtain ⟨h₁, _, h₃⟩ := runAgent_of_reported env aw _ _ hrep
    exact ⟨h₁, h₃, mainLoop_of_return env aw cycles ps h₁⟩

/-- C18 (amended) on `deadServer`, whose handshake fails, and on
`inbandServer`, where the handler of the second of three invocations reports
its failure inside the result. -/
theorem agent_cycle_failure_witness :
    ((runAgent demoEnv deadServer (cycleStart demoEnv deadServer (demoProc ())).1
        (cycleStart demoEnv deadServer (demoProc ())).2).1 = some (.exit 1) ∧
      (runAgent demoEnv deadServer (cycleStart demoEnv deadServer (demoProc ())).1
        (cycleStart demoEnv deadServer (demoProc ())).2).2.run.trace.getLast? =
        some (.logFatalf "[%s] Failed to initialize: %v"
          [.str demoEnv.agentName, .str "transport error: connection closed"]) ∧
      (runAgent demoEnv deadServer (cycleStart demoEnv deadServer (demoProc ())).1
        (cycleStart demoEnv deadServer (demoProc ())).2).2.store =
        (cycleStart demoEnv deadServer (demoProc ())).2.store ∧
      mainLoop demoEnv deadServer (4 + 1) (demoProc ()) =
        (some (.exit 1),
          (runAgent demoEnv deadServer (cycleStart demoEnv deadServer (demoProc ())).1
            (cycleStart demoEnv deadServer (demoProc ())).2).2)) ∧
    (runAgent demoEnv inbandServer (cycleStart demoEnv inbandServer (demoProc ())).1
        (cycleStart demoEnv inbandServer (demoProc ())).2).1 = none :=
  ⟨(agent_cycle_failure demoEnv deadServer 4 (demoProc ())).1 _
      (ToolSideFailure.handshake () () "transport error: connection closed" rfl rfl),
   ((agent_cycle_failure demoEnv inbandServer 4 (demoProc ())).2
      (ReportedToolFailure.intro () () () () () () () demoInitResult [balanceTool]
        [inbandToolResponse] [balanceCall "alice"] (balanceCall "nobody") [balanceCall "bob"]
        ["42usdc"] ["42usdc"] { Content := [errorContent], IsError := true } "exit status 1"
        rfl rfl rfl rfl rfl rfl rfl rfl rfl rfl)).1⟩

/-! ### `core/cognition.go`: the failure reports of a cycle -/

theorem initializeRequests_append (xs ys : List Event) :
    initializeRequests (xs ++ ys) = initializeRequests xs ++ initializeRequests ys := by
  induction xs with
  | nil => rfl
  | cons e rest ih => cases e <;> simp [initializeRequests, ih]

theorem listToolsCalls_append (xs ys : List Event) :
    listToolsCalls (xs ++ ys) = listToolsCalls xs + listToolsCalls ys := by
  induction xs with
  | nil => simp [listToolsCalls]
  | cons e rest ih =>
    cases e
    all_goals simp [listToolsCalls, ih]
    all_goals omega

/-- The cycle of `Initialize` when the handshake fails. -/
theorem Initialize_handshake_fails {σ : Type} (w : World σ) (config : Config)
    (st : RunState σ) (err : String) (s₁ : σ)
    (hinit : w.Initialize st.world (initializeRequestOf w config) = (.error err, s₁)) :
    ∃ st₁ : RunState σ,
      Initialize w config st = (.error ("failed to initialize: " ++ err), st₁) ∧
      initializeRequests st₁.trace =
        initializeRequests st.trace ++ [initializeRequestOf w config] ∧
      listToolsCalls st₁.trace = listToolsCalls st.trace := by
  have hinit' : w.Initialize st.world
      { ProtocolVersion := w.LATEST_PROTOCOL_VERSION
        ClientInfo := { Name := config.AgentName, Version := config.AgentVersion } } =
      (.error err, s₁) := hinit
  refine ⟨(Initialize w config st).2, ?_, ?_, ?_⟩ <;> unfold Initialize <;>
    simp only [RunState.emit, hinit']
  · simp [initializeRequests_append, initializeRequests, initializeRequestOf]
  · simp [listToolsCalls_append, listToolsCalls]

/-- The cycle of `Initialize` when the handshake succeeds and the listing fails. -/
theorem Initialize_listing_fails {σ : Type} (w : World σ) (config : Config)
    (st : RunState σ) (initResult : InitializeResult) (err : String) (s₁ s₂ : σ)
    (hinit : w.Initialize st.world (initializeRequestOf w config) = (.ok initResult, s₁))
    (hlist : w.ListTools s₁ = (.error err, s₂)) :
    ∃ st₁ : RunState σ,
      Initialize w config st = (.error ("failed to list tools: " ++ err), st₁) ∧
      initializeRequests st₁.trace =
        initializeRequests st.trace ++ [initializeRequestOf w config] ∧
      listToolsCalls st₁.trace = listToolsCalls st.trace + 1 := by
  have hinit' : w.Initialize st.world
      { ProtocolVersion := w.LATEST_PROTOCOL_VERSION
        ClientInfo := { Name := config.AgentName, Version := config.AgentVersion } } =
      (.ok initResult, s₁) := hinit
  refine ⟨(Initialize w config st).2, ?_, ?_, ?_⟩ <;> unfold Initialize <;>
    simp only [RunState.emit, hinit', hlist]
  · simp [initializeRequests_append, initializeRequests, initializeRequestOf]
  · simp [listToolsCalls_append, listToolsCalls]

/-- The cycle of `Run` once `Initialize` has failed. -/
theorem Run_init_failed {σ : Type} (w : World σ) (config : Config) (userPrompt : String)
    (st st₁ : RunState σ) (err : String)
    (hinit : Initialize w config st = (.error err, st₁)) :
    Run w config userPrompt st = (some ("initialization failed: " ++ err), st₁) := by
  simp only [Run, hinit]

/-- The cycle of `Run` in terms of its three phases. -/
theorem Run_phases {σ : Type} (w : World σ) (config : Config) (userPrompt : String)
    (st : RunState σ) :
    Run w config userPrompt st =
      match Initialize w config st with
      | (.error err, st) => (some ("initialization failed: " ++ err), st)
      | (.ok ollamaTools, st) =>
        match toolPhase w config userPrompt ollamaTools st with
        | (some err, _, st) => (some ("tool execution failed: " ++ err), st)
        | (none, contentForThePrompt, st) =>
          match answerPhase w config userPrompt contentForThePrompt (answerStart st) with
          | (some errChat, _, st) => (some ("chat completion failed: " ++ errChat), st)
          | (none, _, st) => (none, st) := rfl

theorem phase_messages_differ (a b : String) :
    "initialization failed: " ++ a ≠ "tool execution failed: " ++ b ∧
    "initialization failed: " ++ a ≠ "chat completion failed: " ++ b ∧
    "tool execution failed: " ++ a ≠ "chat completion failed: " ++ b := by
  refine ⟨fun h => ?_, fun h => ?_, fun h => ?_⟩ <;>
  · have h' := congrArg (fun s => s.data.head?) h
    simp [String.data_append] at h'

/-- C21: when the handshake or the `ListTools` call fails, `Run` returns an
error that starts with `initialization failed: `, the handshake has been sent
once (and `ListTools` at most once) and no request has gone to the model
backend; a failure of the tool phase is returned as `tool execution failed: `
followed by its error and one of the answer phase as
`chat completion failed: ` followed by its error; every error `Run` returns
is one of these three, for the phase that failed, and the three kinds of
message differ. -/
theorem run_error_names_phase {σ : Type} (w : World σ) (config : Config)
    (userPrompt : String) (st : RunState σ) :
    (∀ err s₁, w.Initialize st.world (initializeRequestOf w config) = (.error err, s₁) →
      (Run w config userPrompt st).1 =
          some ("initialization failed: " ++ ("failed to initialize: " ++ err)) ∧
        initializeRequests (Run w config userPrompt st).2.trace =
          initializeRequests st.trace ++ [initializeRequestOf w config] ∧
        listToolsCalls (Run w config userPrompt st).2.trace = listToolsCalls st.trace ∧
        chatRequests (Run w config userPrompt st).2.trace = chatRequests st.trace) ∧
    (∀ initResult err s₁ s₂,
      w.Initialize st.world (initializeRequestOf w config) = (.ok initResult, s₁) →
      w.ListTools s₁ = (.error err, s₂) →
      (Run w config userPrompt st).1 =
          some ("initialization failed: " ++ ("failed to list tools: " ++ err)) ∧
        initializeRequests (Run w config userPrompt st).2.trace =
          initializeRequests st.trace ++ [initializeRequestOf w config] ∧
        listToolsCalls (Run w config userPrompt st).2.trace = listToolsCalls st.trace + 1 ∧
        chatRequests (Run w config userPrompt st).2.trace = chatRequests st.trace) ∧
    (∀ ollamaTools st₁ err, Initialize w config st = (.ok ollamaTools, st₁) →
      (toolPhase w config userPrompt ollamaTools st₁).1 = some err →
      (Run w config userPrompt st).1 = some ("tool execution failed: " ++ err)) ∧
    (∀ ollamaTools st₁ content st₂ err, Initialize w config st = (.ok ollamaTools, st₁) →
      toolPhase w config userPrompt ollamaTools st₁ = (none, content, st₂) →
      (answerPhase w config userPrompt content (answerStart st₂)).1 = some err →
      (Run w config userPrompt st).1 = some ("chat completion failed: " ++ err)) ∧
    (∀ e, (Run w config userPrompt st).1 = some e →
      (∃ err, (Initialize w config st).1 = .error err ∧
        e = "initialization failed: " ++ err) ∨
      (∃ ollamaTools st₁ err, Initialize w config st = (.ok ollamaTools, st₁) ∧
        (toolPhase w config userPrompt ollamaTools st₁).1 = some err ∧
        e = "tool execution failed: " ++ err) ∨
      (∃ ollamaTools st₁ content st₂ err, Initialize w config st = (.ok ollamaTools, st₁) ∧
        toolPhase w config userPrompt ollamaTools st₁ = (none, content, st₂) ∧
        (answerPhase w config userPrompt content (answerStart st₂)).1 = some err ∧
        e = "chat completion failed: " ++ err)) ∧
    (∀ a b : String,
      "initialization failed: " ++ a ≠ "tool execution failed: " ++ b ∧
      "initialization failed: " ++ a ≠ "chat completion failed: " ++ b ∧
      "tool execution failed: " ++ a ≠ "chat completion failed: " ++ b) := by
  refine ⟨?_, ?_, ?_, ?_, ?_, phase_messages_differ⟩
  · intro err s₁ hinit
    obtain ⟨st₁, hI, h₁, h₂⟩ := Initialize_handshake_fails w config st err s₁ hinit
    have hobs := (Initialize_observe w config st).1
    rw [hI] at hobs
    rw [Run_init_failed w config userPrompt st st₁ _ hI]
    exact ⟨rfl, h₁, h₂, hobs⟩
  · intro initResult err s₁ s₂ hinit hlist
    obtain ⟨st₁, hI, h₁, h₂⟩ :=
      Initialize_listing_fails w config st initResult err s₁ s₂ hinit hlist
    have hobs := (Initialize_observe w config st).1
    rw [hI] at hobs
    rw [Run_init_failed w config userPrompt st st₁ _ hI]
    exact ⟨rfl, h₁, h₂, hobs⟩
  · intro ollamaTools st₁ err hI htool
    rw [Run_phases, hI]
    rcases hphase : toolPhase w config userPrompt ollamaTools st₁ with ⟨e, content, st₂⟩
    rw [hphase] at htool
    cases htool
    simp only [hphase]
  · intro ollamaTools st₁ content st₂ err hI htool hans
    rw [Run_phases, hI]
    simp only [htool]
    rcases hphase : answerPhase w config userPrompt content (answerStart st₂)
      with ⟨e, answer, st₃⟩
    rw [hphase] at hans
    cases hans
    simp only [hphase]
  · intro e he
    rw [Run_phases] at he
    rcases hI : Initialize w config st with ⟨res, st₁⟩
    rw [hI] at he
    cases res with
    | error err =>
      left
      exact ⟨err, rfl, by cases he; rfl⟩
    | ok ollamaTools =>
      right
      rcases htool : toolPhase w config userPrompt ollamaTools st₁ with ⟨te, content, st₂⟩
      simp only [htool] at he
      cases te with
      | some err =>
        left
        exact ⟨ollamaTools, st₁, err, rfl, by rw [htool], by cases he; rfl⟩
      | none =>
        right
        rcases hans : answerPhase w config userPrompt content (answerStart st₂)
          with ⟨ae, answer, st₃⟩
        simp only [hans] at he
        cases ae with
        | some err =>
          exact ⟨ollamaTools, st₁, content, st₂, err, rfl, htool, by rw [hans],
            by cases he; rfl⟩
        | none => cases he

/-- C21 on the tool server of `deadServer`, whose handshake fails, and on
`strictWorld`, whose tool server rejects the second requested call. -/
theorem run_error_names_phase_witness :
    ((Run deadServer.toWorld demoConfig "balance of alice?" { world := (), trace := [] }).1 =
        some ("initialization failed: " ++
          ("failed to initialize: " ++ "transport error: connection closed")) ∧
      initializeRequests (Run deadServer.toWorld demoConfig "balance of alice?"
          { world := (), trace := [] }).2.trace =
        initializeRequests [] ++ [initializeRequestOf deadServer.toWorld demoConfig] ∧
      listToolsCalls (Run deadServer.toWorld demoConfig "balance of alice?"
          { world := (), trace := [] }).2.trace = listToolsCalls [] ∧
      chatRequests (Run deadServer.toWorld demoConfig "balance of alice?"
          { world := (), trace := [] }).2.trace = chatRequests []) ∧
    (Run strictWorld demoConfig "pay bob" { world := (), trace := [] }).1 =
      some ("tool execution failed: " ++ "failed to call the tool: tool not found: transfer") :=
  ⟨(run_error_names_phase deadServer.toWorld demoConfig "balance of alice?"
      { world := (), trace := [] }).1 "transport error: connection closed" () rfl,
   (run_error_names_phase strictWorld demoConfig "pay bob"
      { world := (), trace := [] }).2.2.1
      (ConvertToOllamaTools [balanceTool])
      (Initialize strictWorld demoConfig { world := (), trace := [] }).2
      "failed to call the tool: tool not found: transfer" rfl rfl⟩

/-! ### `hacks/agent3.go`: the name of the partition written -/

theorem openedFiles_append (xs ys : List Event) :
    openedFiles (xs ++ ys) = openedFiles xs ++ openedFiles ys := by
  induction xs with
  | nil => rfl
  | cons e rest ih => cases e <;> simp [openedFiles, ih]

theorem saveAttempts_opened (agentName filename name data : String)
    (outcome : Nat → AttemptOutcome) (remaining attempt : Nat) (store : Store)
    (trace : List Event) :
    ∃ n, n ≤ remaining ∧ (0 < remaining → 1 ≤ n) ∧
      openedFiles (saveAttempts agentName filename name data outcome remaining attempt
        store trace).2 = openedFiles trace ++ List.replicate n filename := by
  induction remaining generalizing attempt store trace with
  | zero => exact ⟨0, le_refl _, fun h => absurd h (by decide), by simp [saveAttempts]⟩
  | succ k ih =>
    unfold saveAttempts
    split
    · obtain ⟨n, hn, _, h⟩ := ih (attempt + 1) store
        (trace ++ [.openFile filename] ++
          [.logPrintf "[%s] Failed to open trajectory file (attempt %d/3): %v"
            [.str agentName, .int (attempt + 1), .str _],
           .sleep 100])
      refine ⟨n + 1, by omega, fun _ => by omega, ?_⟩
      rw [h]
      simp [openedFiles_append, openedFiles, List.replicate_succ]
    · obtain ⟨n, hn, _, h⟩ := ih (attempt + 1) (store.append name _)
        (trace ++ [.openFile filename] ++
          [.writeString (data ++ "\n"),
           .logPrintf "[%s] Failed to write interaction to file (attempt %d/3): %v"
            [.str agentName, .int (attempt + 1), .str _],
           .sleep 100,
           .closeFile])
      refine ⟨n + 1, by omega, fun _ => by omega, ?_⟩
      rw [h]
      simp [openedFiles_append, openedFiles, List.replicate_succ]
    · exact ⟨1, by omega, fun _ => le_refl _,
        by simp [openedFiles_append, openedFiles]⟩

theorem saveInteraction_opened (env : Agent3Env) (now : Int) (mkdirErr : Option String)
    (outcome : Nat → AttemptOutcome) (thought action observation : String)
    (store : Store) (trace : List Event) :
    ∃ n, n ≤ 3 ∧
      openedFiles
          (saveInteraction env now mkdirErr outcome thought action observation store trace).2 =
        openedFiles trace ++
          List.replicate n (historyDirOf env.agentName ++ "/" ++ partitionName (epochDayOf now)) ∧
      ((store.present = true ∨ mkdirErr = none) →
        (∃ data, env.marshal (interactionOf env now thought action observation) = .ok data) →
        1 ≤ n) := by
  by_cases hdir : store.present = true ∨ mkdirErr = none
  · cases hmarshal : env.marshal (interactionOf env now thought action observation) with
    | ok data =>
      rw [saveInteraction_eq env now mkdirErr outcome thought action observation store trace
        data hdir hmarshal]
      obtain ⟨n, hn, h1, h⟩ := saveAttempts_opened env.agentName
        (historyDirOf env.agentName ++ "/" ++ partitionName (epochDayOf now))
        (partitionName (epochDayOf now)) data outcome 3 0 (store.ensureDir mkdirErr)
        (if store.present then trace else trace ++ [.mkdirAll (historyDirOf env.agentName)])
      refine ⟨n, hn, ?_, fun _ _ => h1 (by decide)⟩
      rw [h]
      congr 1
      split <;> simp [openedFiles_append, openedFiles]
    | error err =>
      refine ⟨0, by decide, ?_, fun _ h => ?_⟩
      · unfold saveInteraction
        cases hp : store.present <;> cases hm : mkdirErr <;>
          simp [hmarshal, openedFiles_append, openedFiles]
      · obtain ⟨data, hd⟩ := h
        cases hd
  · refine ⟨0, by decide, ?_, fun h => absurd h hdir⟩
    have hp : store.present = false := by
      cases h : store.present
      · rfl
      · exact absurd (Or.inl h) hdir
    cases hm : mkdirErr with
    | none => exact absurd (Or.inr hm) hdir
    | some err =>
      unfold saveInteraction
      simp [hp, openedFiles_append, openedFiles]

/-- C22: for a Unix time `now` at or after the epoch, the epoch day of
`saveInteraction` is the floor of `now / 86400`, every file `saveInteraction`
opens is the history directory, a slash, the decimal epoch day and
`_traj.jsonl` (and it opens one when the directory is there and the record is
encoded); the name filter of `loadInteractionHistory` accepts that base name:
it has the suffix `_traj.jsonl` and the integer parsed from the text before
the first `_` is the epoch day, so whether the partition is selected is decided
by the name and the look-back window alone. -/
theorem partition_name_round_trip (env : Agent3Env) (now : Int) (mkdirErr : Option String)
    (outcome : Nat → AttemptOutcome) (thought action observation : String)
    (store : Store) (trace : List Event) (todayEpochDay maxDays : Int)
    (hepoch : 0 ≤ now) (hrange : Int64Range now) :
    (86400 * epochDayOf now ≤ now ∧ now < 86400 * (epochDayOf now + 1)) ∧
    (∃ n, n ≤ 3 ∧
      openedFiles
          (saveInteraction env now mkdirErr outcome thought action observation store trace).2 =
        openedFiles trace ++
          List.replicate n
            (historyDirOf env.agentName ++ "/" ++
              (formatInt (epochDayOf now) ++ "_traj.jsonl")) ∧
      ((store.present = true ∨ mkdirErr = none) →
        (∃ data, env.marshal (interactionOf env now thought action observation) = .ok data) →
        1 ≤ n)) ∧
    stringsHasSuffix (formatInt (epochDayOf now) ++ "_traj.jsonl") "_traj.jsonl" = true ∧
    strconvParseInt
        ((stringsSplit (formatInt (epochDayOf now) ++ "_traj.jsonl") '_').headD "") =
      some (epochDayOf now) ∧
    (EpochDayRange todayEpochDay →
      partitionSelected todayEpochDay maxDays (formatInt (epochDayOf now) ++ "_traj.jsonl") =
        decide (maxDays ≤ 0 ∨ todayEpochDay - epochDayOf now < maxDays)) := by
  have hday : EpochDayRange (epochDayOf now) := epochDayOf_range now hrange
  have hday64 : Int64Range (epochDayOf now) := by
    unfold EpochDayRange at hday
    unfold Int64Range
    norm_num
    omega
  refine ⟨?_, saveInteraction_opened env now mkdirErr outcome thought action observation
    store trace, stringsHasSuffix_partitionName (epochDayOf now), ?_, fun htoday => ?_⟩
  · unfold epochDayOf
    rw [Int.tdiv_eq_ediv hepoch (by norm_num)]
    omega
  · have h := stringsSplit_partitionName (epochDayOf now)
    unfold partitionName at h
    rw [h, strconvParseInt_formatInt _ hday64]
  · exact partitionSelected_partitionName todayEpochDay maxDays (epochDayOf now) htoday hday

/-- C22 on the Unix time 1710810000, which lies in the epoch day 19801. -/
theorem partition_name_round_trip_witness :
    (86400 * epochDayOf 1710810000 ≤ 1710810000 ∧
      1710810000 < 86400 * (epochDayOf 1710810000 + 1)) ∧
    stringsHasSuffix "19801_traj.jsonl" "_traj.jsonl" = true ∧
    strconvParseInt ((stringsSplit "19801_traj.jsonl" '_').headD "") = some 19801 ∧
    partitionSelected 19805 7 "19801_traj.jsonl" =
      decide ((7 : Int) ≤ 0 ∨ (19805 : Int) - 19801 < 7) :=
  ⟨(partition_name_round_trip demoEnv 1710810000 none demoOutcome demoThought "a" "o"
      emptyStore [] 19805 7 (by decide) (by unfold Int64Range; norm_num)).1,
   (partition_name_round_trip demoEnv 1710810000 none demoOutcome demoThought "a" "o"
      emptyStore [] 19805 7 (by decide) (by unfold Int64Range; norm_num)).2.2.1,
   (partition_name_round_trip demoEnv 1710810000 none demoOutcome demoThought "a" "o"
      emptyStore [] 19805 7 (by decide) (by unfold Int64Range; norm_num)).2.2.2.1,
   (partition_name_round_trip demoEnv 1710810000 none demoOutcome demoThought "a" "o"
      emptyStore [] 19805 7 (by decide) (by unfold Int64Range; norm_num)).2.2.2.2
      (by unfold EpochDayRange; norm_num)⟩

/-! ### `hacks/agent3.go`: the text of a retried reasoning call -/

theorem foldl_fragments (responses : List ChatResponse) (acc : String) :
    responses.foldl (fun content resp => content ++ resp.Message.Content) acc =
      acc ++ concatFragments responses := by
  unfold concatFragments
  induction responses generalizing acc with
  | nil => simp
  | cons resp rest ih =>
    simp only [List.foldl_cons]
    rw [ih (acc ++ resp.Message.Content), ih ("" ++ resp.Message.Content)]
    simp [String.append_assoc]

/-- The text `callDspy` returns when attempt `errs.length + 1` is the first to
succeed: what `responseContent` held, followed by the fragments of every
attempt made, the failed ones included. -/
theorem callDspyFrom_text {σ : Type} (w : World σ) (agentName model prompt : String)
    (remaining attempt : Nat) (responseContent : String) (st : RunState σ)
    (errs : List String) (hlen : errs.length < remaining)
    (h : chatAttempts w (dspyRequest model prompt) (errs.length + 1) st.world =
      errs.map some ++ [none]) :
    (callDspyFrom w agentName model prompt remaining attempt responseContent st).1 =
      .ok (responseContent ++
        deliveredFragments w (dspyRequest model prompt) (errs.length + 1) st.world) := by
  induction remaining generalizing attempt responseContent st errs with
  | zero => simp at hlen
  | succ n ih =>
    rcases hc : w.Chat st.world (dspyRequest model prompt) with ⟨⟨responses, err⟩, s'⟩
    cases errs with
    | nil =>
      simp only [List.length_nil, Nat.zero_add, chatAttempts, hc, List.map_nil, List.nil_append,
        List.cons.injEq, and_true] at h
      subst h
      simp only [callDspyFrom, Chat_dspyCallback w _ responseContent st responses none s' hc,
        List.length_nil, Nat.zero_add, deliveredFragments, hc, foldl_fragments]
      simp
    | cons e rest =>
      simp only [List.length_cons, chatAttempts, hc, List.map_cons, List.cons_append,
        List.cons.injEq] at h
      obtain ⟨herr, hrest⟩ := h
      subst herr
      simp only [callDspyFrom, Chat_dspyCallback w _ responseContent st responses (some e) s' hc,
        RunState.emit]
      rw [ih (attempt + 1)
        (responses.foldl (fun content resp => content ++ resp.Message.Content) responseContent)
        { world := s'
          trace := st.trace ++ [.ollamaChat (dspyRequest model prompt)] ++
            [.logPrintf "[%s] Attempt %d/%d: Failed to call DSPy: %v"
              [.str agentName, .int attempt, .int MAX_RETRY_ATTEMPTS, .str e]] ++
            [.sleep RETRY_DELAY] } rest (by simpa using hlen) hrest]
      simp only [List.length_cons, deliveredFragments, hc, foldl_fragments,
        String.append_assoc]

/-- C23 at a failing input: in `flakyWorld` the first two attempts each deliver
the fragment `I thi` and fail, and the third delivers `check the balance` and
succeeds; `callDspy` makes three attempts and returns the fragments of all
three, `I thiI thicheck the balance`, not those of the third attempt alone. -/
theorem callDspy_returned_text_failing_input :
    chatAttempts flakyWorld (dspyRequest "deepseek-r1:1.5b" "next?") 3 0 =
        [some "unexpected EOF", some "unexpected EOF", none] ∧
      concatFragments (attemptResponses flakyWorld (dspyRequest "deepseek-r1:1.5b" "next?") 0 0) =
        "I thi" ∧
      concatFragments (attemptResponses flakyWorld (dspyRequest "deepseek-r1:1.5b" "next?") 1 0) =
        "I thi" ∧
      concatFragments (attemptResponses flakyWorld (dspyRequest "deepseek-r1:1.5b" "next?") 2 0) =
        "check the balance" ∧
      (callDspy flakyWorld "alice" "deepseek-r1:1.5b" "next?" { world := 0, trace := [] }).1 =
        .ok "I thiI thicheck the balance" ∧
      chatRequests
          (callDspy flakyWorld "alice" "deepseek-r1:1.5b" "next?"
            { world := 0, trace := [] }).2.trace =
        List.replicate 3 (dspyRequest "deepseek-r1:1.5b" "next?") := by
  refine ⟨by rfl, by rfl, by rfl, by rfl, by rfl, by rfl⟩
end SweChain
